import Mathlib

/-!
# RaceScope: the responsive curve visualisation engine

A shallow embedding of `frontend/src/components/StrategyCurveChart.jsx` (the chart, its
size tracker `useResizeObserver` and its hover handler), of the shared-domain computation of
`frontend/src/components/DriverRow.jsx`, of the comparison rows of `frontend/src/App.jsx`
and of `frontend/src/utils/time.js`.

JavaScript numbers are modelled by `JsNum`: a finite value is an exact rational
(rounding of IEEE doubles and the sign of zero are not modelled), next to the three
non-finite values `Infinity`, `-Infinity` and `NaN`.  Comparisons are the JavaScript
ones (every comparison with `NaN` is false) and return `Bool`.
-/

/-- A JavaScript number: a finite (exact) value, `Infinity`, `-Infinity` or `NaN`. -/
inductive JsNum where
  | fin (q : ℚ)
  | pinf
  | ninf
  | nan
  deriving DecidableEq

namespace JsNum

/-- JavaScript `Number.isFinite`. -/
def isFinite : JsNum → Bool
  | fin _ => true
  | _ => false

/-- JavaScript `a + b`. -/
def add : JsNum → JsNum → JsNum
  | fin a, fin b => fin (a + b)
  | fin _, pinf => pinf
  | fin _, ninf => ninf
  | pinf, fin _ => pinf
  | pinf, pinf => pinf
  | ninf, fin _ => ninf
  | ninf, ninf => ninf
  | _, _ => nan

/-- JavaScript unary minus. -/
def neg : JsNum → JsNum
  | fin a => fin (-a)
  | pinf => ninf
  | ninf => pinf
  | nan => nan

/-- JavaScript `a - b`. -/
def sub (a b : JsNum) : JsNum := add a (neg b)

/-- The infinity carrying the sign of a non-zero rational. -/
def infOfSign (q : ℚ) : JsNum := if 0 < q then pinf else ninf

/-- JavaScript `a * b`. -/
def mul : JsNum → JsNum → JsNum
  | fin a, fin b => fin (a * b)
  | fin a, pinf => if a = 0 then nan else infOfSign a
  | fin a, ninf => if a = 0 then nan else infOfSign (-a)
  | pinf, fin b => if b = 0 then nan else infOfSign b
  | ninf, fin b => if b = 0 then nan else infOfSign (-b)
  | pinf, pinf => pinf
  | pinf, ninf => ninf
  | ninf, pinf => ninf
  | ninf, ninf => pinf
  | _, _ => nan

/-- JavaScript `a / b` (a zero divisor is taken as `+0`). -/
def div : JsNum → JsNum → JsNum
  | fin a, fin b => if b = 0 then (if a = 0 then nan else infOfSign a) else fin (a / b)
  | fin _, pinf => fin 0
  | fin _, ninf => fin 0
  | pinf, fin b => if b < 0 then ninf else pinf
  | ninf, fin b => if b < 0 then pinf else ninf
  | _, _ => nan

/-- JavaScript `a < b`. -/
def lt : JsNum → JsNum → Bool
  | fin a, fin b => decide (a < b)
  | fin _, pinf => true
  | ninf, fin _ => true
  | ninf, pinf => true
  | _, _ => false

/-- JavaScript `a <= b`. -/
def le : JsNum → JsNum → Bool
  | fin a, fin b => decide (a ≤ b)
  | fin _, pinf => true
  | ninf, fin _ => true
  | ninf, pinf => true
  | pinf, pinf => true
  | ninf, ninf => true
  | _, _ => false

/-- JavaScript `a > b`. -/
def gt (a b : JsNum) : Bool := lt b a

/-- JavaScript `a >= b`. -/
def ge (a b : JsNum) : Bool := le b a

/-- JavaScript `Math.abs`. -/
def abs : JsNum → JsNum
  | fin a => fin |a|
  | pinf => pinf
  | ninf => pinf
  | nan => nan

/-- JavaScript `Math.max(a, b)`. -/
def max2 : JsNum → JsNum → JsNum
  | nan, _ => nan
  | _, nan => nan
  | pinf, _ => pinf
  | _, pinf => pinf
  | ninf, b => b
  | a, ninf => a
  | fin a, fin b => fin (max a b)

/-- JavaScript `Math.min(a, b)`. -/
def min2 : JsNum → JsNum → JsNum
  | nan, _ => nan
  | _, nan => nan
  | ninf, _ => ninf
  | _, ninf => ninf
  | pinf, b => b
  | a, pinf => a
  | fin a, fin b => fin (min a b)

/-- JavaScript `Math.min(...values)`: `Infinity` for no argument, `NaN` as soon as one
argument is `NaN`. -/
def mathMin (values : List JsNum) : JsNum := values.foldl min2 pinf

/-- JavaScript `Math.max(...values)`: `-Infinity` for no argument. -/
def mathMax (values : List JsNum) : JsNum := values.foldl max2 ninf

/-- JavaScript truthiness of a number: every number but `0` and `NaN`. -/
def truthy : JsNum → Bool
  | fin a => decide (a ≠ 0)
  | pinf => true
  | ninf => true
  | nan => false

/-- JavaScript `a || b` on numbers. -/
def orElse (a b : JsNum) : JsNum := if truthy a then a else b

/-- A natural number as a JavaScript number (an array index, a length). -/
def ofNat (n : Nat) : JsNum := fin (n : ℚ)

/-- An integer as a JavaScript number (a pixel size). -/
def ofInt (n : Int) : JsNum := fin (n : ℚ)

end JsNum

/-- A value domain `{ min, max }` of the vertical axis. -/
structure Domain where
  min : JsNum
  max : JsNum
  deriving DecidableEq

namespace StrategyCurveChart

open JsNum

/-- `PADDING.top`. -/
def PADDING_top : ℚ := 14
/-- `PADDING.right`. -/
def PADDING_right : ℚ := 14
/-- `PADDING.bottom`. -/
def PADDING_bottom : ℚ := 22
/-- `PADDING.left`. -/
def PADDING_left : ℚ := 42

/-- `FALLBACK_DOMAIN = { min: 89, max: 95 }`. -/
def FALLBACK_DOMAIN : Domain := { min := fin 89, max := fin 95 }

/-- `MIN_VALID_SIZE = 50`. -/
def MIN_VALID_SIZE : Int := 50

/-- `normalizeDomain(domain, fallback)`; `none` is a null or undefined `domain`.  The
default value `FALLBACK_DOMAIN` of `fallback` is passed by the callers. -/
def normalizeDomain (domain : Option Domain) (fallback : Domain) : Domain :=
  match domain with
  | none => fallback
  | some d =>
    if !d.min.isFinite || !d.max.isFinite then fallback
    else if le d.max d.min then fallback
    else d

/-- `computeDomain(values, fallback)`.  The default value `FALLBACK_DOMAIN` of `fallback`
is passed by the callers. -/
def computeDomain (values : List JsNum) (fallback : Domain) : Domain :=
  if values.length = 0 then fallback
  else
    let min := mathMin values
    let max := mathMax values
    if !min.isFinite || !max.isFinite || le max min then fallback
    else
      let span := max2 (fin (1/2)) (sub max min)
      let margin := mul span (fin (1/20))
      { min := sub min margin, max := add max margin }

/-- A stint curve as the chart reads it.  `start_lap` and `end_lap` hold the value of
`Number(stint.start_lap)` and `Number(stint.end_lap)` (`NaN` for a missing or non-numeric
field); an array field is `none` when the key is missing, and its entries are the values
of `Number` on the raw entries. -/
structure StintCurve where
  compound : Option String
  start_lap : JsNum
  end_lap : JsNum
  lap_time_data : Option (List JsNum)
  lapTimeData : Option (List JsNum)
  tyre_life_data : Option (List JsNum)
  tyreLifeData : Option (List JsNum)
  degradation_data : Option (List JsNum)
  degradationData : Option (List JsNum)
  deriving DecidableEq

/-- A pit window `{ lap_min, lap_max }` of a strategy (`NaN` for a missing field). -/
structure PitWindow where
  lap_min : JsNum
  lap_max : JsNum
  deriving DecidableEq

/-- A strategy as the chart reads it: `expected_time` is `Number(strategy.expected_time)`,
the lists are empty when the key is missing, `stints` holds `Number(len)` of each entry. -/
structure Strategy where
  expected_time : JsNum
  stints : List JsNum
  compounds : List String
  stint_curves : List StintCurve
  pit_windows : List PitWindow
  deriving DecidableEq

/-- A sample built by `dataModel`: `{ lap, compound, lapTime, tyreLife }`. -/
structure Point where
  lap : JsNum
  compound : Option String
  lapTime : JsNum
  tyreLife : JsNum
  deriving DecidableEq

/-- A stint of the data model: `{ ...stint, points }`. -/
structure DataStint where
  stint : StintCurve
  points : List Point
  deriving DecidableEq

/-- The value of the `dataModel` memo: `{ stints, points, domain }`. -/
structure DataModel where
  stints : List DataStint
  points : List Point
  domain : Domain
  deriving DecidableEq

/-- The length `Array.from({ length: n }, ...)` gives its result: `ToLength(n)` (truncated,
at least 0); `none` when the length exceeds `2^32 - 1` and the array constructor throws a
`RangeError`. -/
def arrayFromLength : JsNum → Option Nat
  | fin q => if ⌊q⌋.toNat ≤ 2 ^ 32 - 1 then some ⌊q⌋.toNat else none
  | pinf => none
  | ninf => some 0
  | nan => some 0

/-- The body of the `.map((len, idx) => ...)` callback of `buildFallbackCurves`, run over
the stint lengths from index `idx` on, with the running counter `lap` of the closure. -/
def fallbackStints (baseline : JsNum) (compounds : List String) :
    List JsNum → Nat → JsNum → Option (List StintCurve)
  | [], _, _ => some []
  | len :: rest, idx, lap =>
    let stintLen := orElse len (fin 0)
    let start := lap
    let end_ := sub (add lap stintLen) (fin 1)
    match arrayFromLength stintLen with
    | none => none
    | some n =>
      let lapTimeData := (List.range n).map fun i => add baseline (mul (ofNat i) (fin (1/20)))
      let tyreLifeData := (List.range n).map fun i =>
        if le stintLen (fin 1) then fin 100
        else sub (fin 100) (mul (div (ofNat i) (sub stintLen (fin 1))) (fin 100))
      let compound :=
        match compounds.get? idx with
        | some c => if c = "" then "MEDIUM" else c
        | none => "MEDIUM"
      match fallbackStints baseline compounds rest (idx + 1) (add end_ (fin 1)) with
      | none => none
      | some more =>
        some ({ compound := some compound, start_lap := start, end_lap := end_,
                lap_time_data := some lapTimeData, lapTimeData := none,
                tyre_life_data := some tyreLifeData, tyreLifeData := none,
                degradation_data := none, degradationData := none } :: more)

/-- `buildFallbackCurves(strategy, totalLaps)`; `none` when `Array.from` throws. -/
def buildFallbackCurves (strategy : Strategy) (totalLaps : JsNum) : Option (List StintCurve) :=
  let baseline :=
    if gt strategy.expected_time (fin 0) && gt totalLaps (fin 0)
    then div strategy.expected_time totalLaps else fin 92
  (fallbackStints baseline strategy.compounds strategy.stints 0 (fin 1)).map
    fun curves => curves.filter fun stint => le stint.start_lap totalLaps

/-- The first array that is present, as `a || b` does on arrays (an array is truthy). -/
def firstPresent (a b : Option (List JsNum)) : Option (List JsNum) :=
  match a with
  | some xs => some xs
  | none => b

/-- The `points` of one stint: the callback of `source.map((stint) => ...)`. -/
def stintPoints (stint : StintCurve) : List Point :=
  let lapTimesRaw := (firstPresent stint.lap_time_data stint.lapTimeData).getD []
  let lapTimes := lapTimesRaw.filter isFinite
  let tyreLife :=
    (firstPresent stint.tyre_life_data
      (firstPresent stint.tyreLifeData
        (firstPresent stint.degradation_data stint.degradationData))).getD []
  lapTimes.enum.map fun p =>
    { lap := add stint.start_lap (ofNat p.1),
      compound := stint.compound,
      lapTime := p.2,
      tyreLife := (tyreLife.get? p.1).getD nan }

/-- The filter of `flatPoints`. -/
def keepPoint (totalLaps : JsNum) (p : Point) : Bool :=
  p.lap.isFinite && p.lapTime.isFinite && ge p.lap (fin 1) && le p.lap totalLaps

/-- The `dataModel` memo once `source` is known. -/
def dataModelOf (source : List StintCurve) (totalLaps : JsNum) (yDomain : Option Domain) :
    DataModel :=
  let stints := source.map fun stint => { stint := stint, points := stintPoints stint }
  let flatPoints := (stints.flatMap fun stint => stint.points).filter (keepPoint totalLaps)
  let allLapTimes := flatPoints.map fun p => p.lapTime
  let boundedDomain :=
    match yDomain with
    | some d => normalizeDomain (some d) (computeDomain allLapTimes FALLBACK_DOMAIN)
    | none => computeDomain allLapTimes FALLBACK_DOMAIN
  { stints := stints, points := flatPoints, domain := boundedDomain }

/-- The `source` of `dataModel`: the supplied stint curves when there are any, else the
synthesised ones; `none` when `buildFallbackCurves` throws. -/
def sourceCurves (strategy : Strategy) (totalLaps : JsNum) : Option (List StintCurve) :=
  if strategy.stint_curves.length ≠ 0 then some strategy.stint_curves
  else buildFallbackCurves strategy totalLaps

/-- The `dataModel` memo of `StrategyCurveChart`; `none` when building it throws. -/
def dataModel (strategy : Strategy) (totalLaps : JsNum) (yDomain : Option Domain) :
    Option DataModel :=
  (sourceCurves strategy totalLaps).map fun source => dataModelOf source totalLaps yDomain

/-- A sample of the scene: `{ ...p, x, y }`. -/
structure MappedPoint where
  lap : JsNum
  compound : Option String
  lapTime : JsNum
  tyreLife : JsNum
  x : JsNum
  y : JsNum
  deriving DecidableEq

/-- A stint of the scene: `{ ...stint, points, path }`.  The `path` string
`"x,y x,y ..."` is kept as the list of its vertices, one per point. -/
structure ChartStint where
  stint : StintCurve
  points : List MappedPoint
  path : List (JsNum × JsNum)
  deriving DecidableEq

/-- A projected pit window `{ id, lapMin, lapMax, x, width }`; the `id` string
`idx-minLap-maxLap` is kept as its three parts. -/
structure PitWindowRect where
  id : Nat × JsNum × JsNum
  lapMin : JsNum
  lapMax : JsNum
  x : JsNum
  width : JsNum
  deriving DecidableEq

/-- The value of the `chart` memo (the two mapping closures are `xForLap`, `yForTime`). -/
structure Chart where
  stints : List ChartStint
  points : List MappedPoint
  pitWindows : List PitWindowRect
  yTicks : List JsNum
  innerHeight : JsNum
  deriving DecidableEq

/-- `layoutValid = width >= MIN_VALID_SIZE && height >= MIN_VALID_SIZE`. -/
def layoutValid (width height : Int) : Bool :=
  decide (MIN_VALID_SIZE ≤ width) && decide (MIN_VALID_SIZE ≤ height)

/-- `innerWidth = Math.max(1, width - PADDING.left - PADDING.right)`. -/
def innerWidth (width : Int) : ℚ := max 1 ((width : ℚ) - PADDING_left - PADDING_right)

/-- `innerHeight = Math.max(1, height - PADDING.top - PADDING.bottom)`. -/
def innerHeight (height : Int) : ℚ := max 1 ((height : ℚ) - PADDING_top - PADDING_bottom)

/-- The closure `xForLap` of the `chart` memo. -/
def xForLap (totalLaps : JsNum) (width : Int) (lap : JsNum) : JsNum :=
  if le totalLaps (fin 1) then fin PADDING_left
  else add (fin PADDING_left)
    (mul (div (sub lap (fin 1)) (sub totalLaps (fin 1))) (fin (innerWidth width)))

/-- The closure `yForTime` of the `chart` memo. -/
def yForTime (domain : Domain) (height : Int) (lapTime : JsNum) : JsNum :=
  if !lapTime.isFinite then add (fin PADDING_top) (div (fin (innerHeight height)) (fin 2))
  else
    let ratio := div (sub lapTime domain.min) (sub domain.max domain.min)
    sub (add (fin PADDING_top) (fin (innerHeight height))) (mul ratio (fin (innerHeight height)))

/-- One sample mapped to the screen: `{ ...p, x: xForLap(p.lap), y: yForTime(p.lapTime) }`. -/
def mapPoint (totalLaps : JsNum) (width height : Int) (domain : Domain) (p : Point) :
    MappedPoint :=
  { lap := p.lap, compound := p.compound, lapTime := p.lapTime, tyreLife := p.tyreLife,
    x := xForLap totalLaps width p.lap, y := yForTime domain height p.lapTime }

/-- One stint of the scene: its mapped points and the vertices of its path. -/
def mapStint (totalLaps : JsNum) (width height : Int) (domain : Domain) (s : DataStint) :
    ChartStint :=
  let points := s.points.map (mapPoint totalLaps width height domain)
  { stint := s.stint, points := points, path := points.map fun p => (p.x, p.y) }

/-- One projected pit window: the callback of `(strategy.pit_windows || []).map`. -/
def projectWindow (totalLaps : JsNum) (width : Int) (idx : Nat) (win : PitWindow) :
    PitWindowRect :=
  let minLap := max2 (fin 1) (orElse win.lap_min (fin 1))
  let maxLap := max2 minLap (orElse win.lap_max minLap)
  let x1 := xForLap totalLaps width minLap
  let x2 := xForLap totalLaps width maxLap
  { id := (idx, minLap, maxLap), lapMin := minLap, lapMax := maxLap,
    x := min2 x1 x2, width := max2 (fin 2) (abs (sub x2 x1)) }

/-- The `chart` memo; `none` is `null`. -/
def chart (pit_windows : List PitWindow) (totalLaps : JsNum) (width height : Int)
    (dataModel : DataModel) : Option Chart :=
  if !layoutValid width height then none
  else if dataModel.points.length = 0 then none
  else
    let stints := dataModel.stints.map (mapStint totalLaps width height dataModel.domain)
    let points := (stints.flatMap fun stint => stint.points).filter
      fun p => p.x.isFinite && p.y.isFinite
    let pitWindows := pit_windows.enum.map fun w => projectWindow totalLaps width w.1 w.2
    let yTicks := [dataModel.domain.min,
      div (add dataModel.domain.min dataModel.domain.max) (fin 2), dataModel.domain.max]
    some { stints := stints, points := points, pitWindows := pitWindows, yTicks := yTicks,
           innerHeight := fin (innerHeight height) }

/-- The scan of `handleMove` for the sample nearest to `relX`: the pair `(nearest, minDist)`
after the loop over `rest`, started from `(nearest, minDist)`. -/
def nearestScan (relX : JsNum) : List MappedPoint → MappedPoint × JsNum → MappedPoint × JsNum
  | [], best => best
  | p :: rest, best =>
    let dist := abs (sub p.x relX)
    if lt dist best.2 then nearestScan relX rest (p, dist) else nearestScan relX rest best

/-- The sample `nearest` of `handleMove` for the pointer position `relX`; `none` when the
list of samples is empty (the handler returns before the scan). -/
def nearestPoint (points : List MappedPoint) (relX : JsNum) : Option MappedPoint :=
  match points with
  | [] => none
  | p0 :: rest => some (nearestScan relX rest (p0, abs (sub p0.x relX))).1

/-- The value passed to `setHover`: `{ ...nearest, activeWindow }`. -/
structure Hover where
  nearest : MappedPoint
  activeWindow : Option PitWindowRect
  deriving DecidableEq

/-- `handleMove(event)`: the new hover state, or `none` when the handler returns without
setting one.  `clientX` is `event.clientX`; `rectLeft` and `rectWidth` are the bounding
rectangle of the event target. -/
def handleMove (chart : Option Chart) (layoutValid : Bool) (width : Int)
    (clientX rectLeft rectWidth : JsNum) : Option Hover :=
  match chart with
  | none => none
  | some c =>
    if c.points.length = 0 || !layoutValid then none
    else if !truthy rectWidth then none
    else
      let relX := mul (div (sub clientX rectLeft) rectWidth) (ofInt width)
      match nearestPoint c.points relX with
      | none => none
      | some nearest =>
        let activeWindow := c.pitWindows.find? fun win =>
          ge nearest.lap win.lapMin && le nearest.lap win.lapMax
        some { nearest := nearest, activeWindow := activeWindow }

end StrategyCurveChart

namespace DriverRow

open JsNum StrategyCurveChart

/-- The list `values` of the `yDomain` memo: the finite lap-times of the `lap_time_data` of
every stint curve of every strategy of the row. -/
def values (orderedStrategies : List Strategy) : List JsNum :=
  orderedStrategies.flatMap fun strategy =>
    strategy.stint_curves.flatMap fun stint =>
      (stint.lap_time_data.getD []).filter isFinite

/-- The `yDomain` memo of `DriverRow`, from the ordered strategies of the row; `none` is
`null`. -/
def yDomain (orderedStrategies : List Strategy) : Option Domain :=
  let values := values orderedStrategies
  if values.length = 0 then none
  else
    let min := mathMin values
    let max := mathMax values
    let span := max2 (fin (1/2)) (sub max min)
    let margin := mul span (fin (1/20))
    some { min := sub min margin, max := add max margin }

/-- The finite value `q` is a lap-time that a stint curve of a strategy of the row carries
under the key `lap_time_data`, the one key the `yDomain` memo reads. -/
def IsRowLapTime (orderedStrategies : List Strategy) (q : ℚ) : Prop :=
  ∃ s ∈ orderedStrategies, ∃ c ∈ s.stint_curves, ∃ l, c.lap_time_data = some l ∧ fin q ∈ l

end DriverRow

namespace JsNum

/-- JavaScript `Math.floor`. -/
def floor : JsNum → JsNum
  | fin q => fin (⌊q⌋ : ℚ)
  | pinf => pinf
  | ninf => ninf
  | nan => nan

/-- JavaScript `a === b` on numbers (`NaN` is equal to nothing). -/
def strictEq : JsNum → JsNum → Bool
  | fin a, fin b => decide (a = b)
  | pinf, pinf => true
  | ninf, ninf => true
  | _, _ => false

/-- JavaScript `arr.indexOf(x)` on an array of numbers, counting from `start`; `none` is
the result `-1`. -/
def indexOfFrom (x : JsNum) : List JsNum → Nat → Option Nat
  | [], _ => none
  | y :: ys, start => if strictEq y x then some start else indexOfFrom x ys (start + 1)

end JsNum

namespace StrategyCurveChart

open JsNum

/-- The laps of the vertical grid lines drawn by the component:
`[1, Math.floor(totalLaps * 0.33), Math.floor(totalLaps * 0.66), totalLaps]
  .filter((lap, idx, arr) => lap > 0 && arr.indexOf(lap) === idx)`. -/
def gridLaps (totalLaps : JsNum) : List JsNum :=
  let arr := [fin 1, floor (mul totalLaps (fin (33/100))), floor (mul totalLaps (fin (66/100))),
    totalLaps]
  (arr.enum.filter fun p => gt p.2 (fin 0) && decide (indexOfFrom p.2 arr 0 = some p.1)).map
    fun p => p.2

/-- The object returned by the callback of `buildFallbackCurves` for the stint of index
`idx`, with the running counter at `lap`, the length `stintLen` and arrays of `n` entries. -/
def fallbackStint (baseline : JsNum) (compounds : List String) (idx : Nat)
    (lap stintLen : JsNum) (n : Nat) : StintCurve :=
  { compound := some (match compounds.get? idx with
      | some c => if c = "" then "MEDIUM" else c
      | none => "MEDIUM"),
    start_lap := lap,
    end_lap := sub (add lap stintLen) (fin 1),
    lap_time_data := some ((List.range n).map fun i =>
      add baseline (mul (ofNat i) (fin (1/20)))),
    lapTimeData := none,
    tyre_life_data := some ((List.range n).map fun i =>
      if le stintLen (fin 1) then fin 100
      else sub (fin 100) (mul (div (ofNat i) (sub stintLen (fin 1))) (fin 100))),
    tyreLifeData := none,
    degradation_data := none,
    degradationData := none }

/-- The `baseline` of `buildFallbackCurves`. -/
def fallbackBaseline (strategy : Strategy) (totalLaps : JsNum) : JsNum :=
  if gt strategy.expected_time (fin 0) && gt totalLaps (fin 0)
  then div strategy.expected_time totalLaps else fin 92

end StrategyCurveChart

/-! ## The size tracker `useResizeObserver` -/

namespace SizeTracker

/-- The stored size `{ width, height }`; both are results of `Math.floor`. -/
structure Size where
  width : Int
  height : Int
  deriving DecidableEq

/-- The initial state `{ width: 0, height: 0 }`. -/
def initialSize : Size := { width := 0, height := 0 }

/-- The updater passed to `setSize`: `(prev) => prev.width === nextWidth &&
prev.height === nextHeight ? prev : { width: nextWidth, height: nextHeight }`. -/
def sizeUpdater (prev : Size) (nextWidth nextHeight : Int) : Size :=
  if prev.width = nextWidth ∧ prev.height = nextHeight then prev
  else { width := nextWidth, height := nextHeight }

/-- The stored size after one measurement `(w, h)` of the surface, taken by the observer
callback (`entry.contentRect`) or by the retry (`getBoundingClientRect`):
`nextWidth = Math.floor(w)`, `nextHeight = Math.floor(h)`. -/
def measure (prev : Size) (w h : ℚ) : Size := sizeUpdater prev ⌊w⌋ ⌊h⌋

/-- The observer callback: `for (const entry of entries)` applies one measurement each. -/
def observerCallback (prev : Size) (entries : List (ℚ × ℚ)) : Size :=
  entries.foldl (fun size entry => measure size entry.1 entry.2) prev

end SizeTracker

namespace SizeTracker

/-- The test `size.width >= MIN_VALID_SIZE && size.height >= MIN_VALID_SIZE`. -/
def usable (size : Size) : Bool :=
  decide (StrategyCurveChart.MIN_VALID_SIZE ≤ size.width) &&
    decide (StrategyCurveChart.MIN_VALID_SIZE ≤ size.height)

/-- The state of one `useResizeObserver(ref)`: the stored `size`, whether `ref.current` is a
node (`attached`), whether the effects of the hook are installed (`mounted`), and whether a
frame requested with `requestAnimationFrame(retry)` is outstanding (`pending`: its id is in
`rafRef.current` and the `active` flag of its closure is still true). -/
structure Tracker where
  size : Size
  attached : Bool
  mounted : Bool
  pending : Bool
  deriving DecidableEq

/-- The hook before its effects have run. -/
def initial (attached : Bool) : Tracker :=
  { size := initialSize, attached := attached, mounted := false, pending := false }

/-- The body of the retry effect, run after its clean-up (no frame is outstanding):
it returns at once for a usable size or a missing node, and requests a frame otherwise. -/
def retryEffect (t : Tracker) : Tracker :=
  if usable t.size then { t with pending := false }
  else if !t.attached then { t with pending := false }
  else { t with pending := true }

/-- The outcome of `setSize`: for an unchanged size nothing is rendered again; for a new
size the retry effect is cleaned up (its frame is cancelled, `active` becomes false) and
run again, its dependencies `size.width`, `size.height` having changed. -/
def afterSetSize (t : Tracker) (next : Size) : Tracker :=
  if next.width = t.size.width ∧ next.height = t.size.height then t
  else retryEffect { t with size := next, pending := false }

/-- What can happen to the tracker. -/
inductive Event where
  | mount
  | notify (entries : List (ℚ × ℚ))
  | frame (w h : ℚ)
  | teardown

/-- One step of the tracker.
* `mount`: the effects run; the observer is created and the retry effect runs.
* `notify entries`: the observer callback, when the observer exists.
* `frame w h`: the outstanding frame fires and `retry` measures `(w, h)`: it stores the
  size, requests the next frame for a measurement below the threshold and clears
  `rafRef.current` otherwise; then the effect reacts to the stored size.
* `teardown`: both clean-ups run: the observer is disconnected, the frame cancelled. -/
def step (t : Tracker) : Event → Tracker
  | Event.mount =>
    if t.mounted then t else retryEffect { t with mounted := true, pending := false }
  | Event.notify entries =>
    if !(t.mounted && t.attached) then t
    else afterSetSize t (observerCallback t.size entries)
  | Event.frame w h =>
    if !t.pending then t
    else
      afterSetSize
        { t with pending := decide (⌊w⌋ < StrategyCurveChart.MIN_VALID_SIZE) ||
            decide (⌊h⌋ < StrategyCurveChart.MIN_VALID_SIZE) }
        (measure t.size w h)
  | Event.teardown => { t with mounted := false, pending := false }

/-- The tracker after a sequence of events. -/
def run (t : Tracker) (events : List Event) : Tracker := events.foldl step t

end SizeTracker

/-! ## `utils/time.js` -/

namespace Time

open JsNum

/-- JavaScript `Math.round` (halves are rounded up). -/
def round : JsNum → JsNum
  | fin q => fin (⌊q + 1/2⌋ : ℚ)
  | pinf => pinf
  | ninf => ninf
  | nan => nan

/-- `s.padStart(2, "0")`. -/
def padStart2 (s : String) : String :=
  String.mk (List.replicate (2 - s.length) '0') ++ s

/-- `formatRaceDuration(totalSeconds)`, on the value of `Number(totalSeconds)`.  A natural
number is rendered in decimal, as `String` and template literals do below `10^21`.  For
`Infinity` the three fields are `Infinity`, `NaN` and `NaN`. -/
def formatRaceDuration (totalSeconds : JsNum) : String :=
  match max2 (fin 0) (round (orElse totalSeconds (fin 0))) with
  | fin q =>
    let safeSeconds := ⌊q⌋.toNat
    let hours := safeSeconds / 3600
    let minutes := safeSeconds % 3600 / 60
    let seconds := safeSeconds % 60
    if hours > 0 then
      toString hours ++ ":" ++ padStart2 (toString minutes) ++ ":" ++ padStart2 (toString seconds)
    else toString minutes ++ ":" ++ padStart2 (toString seconds)
  | _ => "Infinity:NaN:NaN"

end Time

/-! ## The comparison rows of `App.jsx` -/

namespace App

/-- The value of `row.driverId`: a string (initially `""`) or the number `Number(value)` of
the selected option. -/
inductive DriverId where
  | text (s : String)
  | number (n : Int)
  deriving DecidableEq

/-- JavaScript truthiness of a `driverId`. -/
def DriverId.truthy : DriverId → Bool
  | DriverId.text s => decide (s ≠ "")
  | DriverId.number n => decide (n ≠ 0)

/-- The response of the strategy request kept in `row.data`. -/
structure RowData where
  strategies : List StrategyCurveChart.Strategy
  total_laps : JsNum
  deriving DecidableEq

/-- A comparison row `{ id, team, driverId, data, status, selectedStrategyId }`. -/
structure Row where
  id : Nat
  team : String
  driverId : DriverId
  data : Option RowData
  status : String
  selectedStrategyId : Option String
  deriving DecidableEq

/-- `mkRow(id, team, driverId)`; the defaults `""` are passed by the callers. -/
def mkRow (id : Nat) (team : String) (driverId : DriverId) : Row :=
  { id := id, team := team, driverId := driverId, data := none, status := "idle",
    selectedStrategyId := none }

/-- The entry `rows?.[i]`; `none` when `rows` is undefined or too short. -/
def rowAt (rows : Option (List Row)) (i : Nat) : Option Row :=
  match rows with
  | some l => l[i]?
  | none => none

/-- `ensureTwoRows(rows)`; `none` is an undefined `rows`. -/
def ensureTwoRows (rows : Option (List Row)) : List Row :=
  let base := [(rowAt rows 0).getD (mkRow 1 "" (DriverId.text "")),
               (rowAt rows 1).getD (mkRow 2 "" (DriverId.text ""))]
  base.enum.map fun p => { p.2 with id := p.1 + 1 }

/-- A driver of the metadata. -/
structure Driver where
  driver_id : DriverId
  team_name : String
  deriving DecidableEq

/-- `a || b` on an optional string (a missing entry and `""` are falsy). -/
def strOr (a : Option String) (b : String) : String :=
  match a with
  | some s => if s = "" then b else s
  | none => b

/-- The first driver that is present, as `a || b` does on objects. -/
def driverOr (a b : Option Driver) : Option Driver :=
  match a with
  | some d => some d
  | none => b

/-- `hydrateRowsFromMetadata(rows, teamsData, driversData)`. -/
def hydrateRowsFromMetadata (rows : Option (List Row)) (teamsData : List String)
    (driversData : List Driver) : List Row :=
  let normalized := ensureTwoRows rows
  normalized.enum.map fun p =>
    let idx := p.1
    let row := p.2
    let defaultTeam := strOr teamsData[idx]? (strOr teamsData[0]? "")
    let team := if row.team = "" then defaultTeam else row.team
    let teamDrivers :=
      if team = "" then driversData else driversData.filter fun d => d.team_name = team
    let fallbackDriver := driverOr teamDrivers[0]? (driverOr driversData[idx]? driversData[0]?)
    { row with
      id := idx + 1
      team := team
      driverId :=
        if row.driverId.truthy then row.driverId
        else match fallbackDriver with
          | some d => if d.driver_id.truthy then d.driver_id else DriverId.text ""
          | none => DriverId.text ""
      data := none
      status := "idle"
      selectedStrategyId := none }

/-- A patch object passed to `updateRow`: the keys it holds. -/
structure RowPatch where
  id : Option Nat
  team : Option String
  driverId : Option DriverId
  data : Option (Option RowData)
  status : Option String
  selectedStrategyId : Option (Option String)

/-- `{ ...r, ...patch }`. -/
def applyPatch (r : Row) (patch : RowPatch) : Row :=
  { id := patch.id.getD r.id,
    team := patch.team.getD r.team,
    driverId := patch.driverId.getD r.driverId,
    data := patch.data.getD r.data,
    status := patch.status.getD r.status,
    selectedStrategyId := patch.selectedStrategyId.getD r.selectedStrategyId }

/-- The state update of `updateRow(id, patch)`. -/
def updateRow (prev : List Row) (id : Nat) (patch : RowPatch) : List Row :=
  ensureTwoRows (some (prev.map fun r => if r.id = id then applyPatch r patch else r))

/-- The first state update of `runPreRace`. -/
def markRunning (prev : List Row) : List Row :=
  prev.map fun row => { row with status := if row.driverId.truthy then "loading" else "idle" }

/-- A result of the work of `runPreRace`: `{ id, status, data }`, with the key
`selectedStrategyId` for a successful request. -/
structure RowUpdate where
  id : Nat
  status : String
  data : Option RowData
  selectedStrategyId : Option (Option String)

/-- The last state update of `runPreRace`. -/
def applyUpdates (prev : List Row) (updates : List RowUpdate) : List Row :=
  prev.map fun row =>
    match updates.find? fun u => u.id = row.id with
    | some u =>
      { row with
        id := u.id
        status := u.status
        data := u.data
        selectedStrategyId := u.selectedStrategyId.getD row.selectedStrategyId }
    | none => row

/-- The states the `rows` of `App` can take: the initial state and every state reached by
one of its four updates. -/
inductive Reachable : List Row → Prop where
  | init : Reachable [mkRow 1 "" (DriverId.text ""), mkRow 2 "" (DriverId.text "")]
  | hydrate (rows : List Row) (teamsData : List String) (driversData : List Driver) :
      Reachable rows → Reachable (hydrateRowsFromMetadata (some rows) teamsData driversData)
  | update (rows : List Row) (id : Nat) (patch : RowPatch) :
      Reachable rows → Reachable (updateRow rows id patch)
  | running (rows : List Row) : Reachable rows → Reachable (markRunning rows)
  | finished (rows : List Row) (updates : List RowUpdate) :
      Reachable rows → Reachable (applyUpdates rows updates)

end App

/-! ## Concrete inputs used to evaluate the definitions -/

namespace Examples

open JsNum StrategyCurveChart

/-- A supplied stint curve `{ compound, start_lap, lap_time_data, tyre_life_data }`. -/
def curveOf (compound : String) (start : JsNum) (lapTimes tyreLife : List JsNum) : StintCurve :=
  { compound := some compound, start_lap := start, end_lap := nan,
    lap_time_data := some lapTimes, lapTimeData := none,
    tyre_life_data := some tyreLife, tyreLifeData := none,
    degradation_data := none, degradationData := none }

/-- A strategy that supplies the given stint curves and nothing else. -/
def strategyOf (curves : List StintCurve) : Strategy :=
  { expected_time := fin 5400, stints := [], compounds := [], stint_curves := curves,
    pit_windows := [] }

/-- A strategy with one stint holding the single lap-time 90 at lap 1. -/
def singlePoint : Strategy := strategyOf [curveOf "SOFT" (fin 1) [fin 90] [fin 100]]

end Examples

namespace Examples

open JsNum StrategyCurveChart

/-- A stint curve starting at lap 10 whose first lap-time is `NaN`. -/
def gapCurve : StintCurve := curveOf "SOFT" (fin 10) [nan, fin 90] [fin 100, fin 95]

/-- A strategy without stint curves whose stints `[2, 2]` exceed a race of 3 laps. -/
def overlong : Strategy :=
  { expected_time := fin 270, stints := [fin 2, fin 2], compounds := ["SOFT", "HARD"],
    stint_curves := [], pit_windows := [] }

/-- A synthesised stint of two laps with base lap-time 90. -/
def twoLapStint (compound : String) (start : ℚ) : StintCurve :=
  { compound := some compound, start_lap := fin start, end_lap := fin (start + 1),
    lap_time_data := some [fin 90, fin (1801/20)], lapTimeData := none,
    tyre_life_data := some [fin 100, fin 0], tyreLifeData := none,
    degradation_data := none, degradationData := none }

/-- The curves `buildFallbackCurves` synthesises for `overlong` in a race of 3 laps. -/
def overlongCurves : List StintCurve := [twoLapStint "SOFT" 1, twoLapStint "HARD" 3]

/-- The data model of `overlong` in a race of 3 laps. -/
def overlongModel : DataModel :=
  { stints := [
      { stint := twoLapStint "SOFT" 1,
        points := [⟨fin 1, some "SOFT", fin 90, fin 100⟩,
                   ⟨fin 2, some "SOFT", fin (1801/20), fin 0⟩] },
      { stint := twoLapStint "HARD" 3,
        points := [⟨fin 3, some "HARD", fin 90, fin 100⟩,
                   ⟨fin 4, some "HARD", fin (1801/20), fin 0⟩] }],
    points := [⟨fin 1, some "SOFT", fin 90, fin 100⟩,
               ⟨fin 2, some "SOFT", fin (1801/20), fin 0⟩,
               ⟨fin 3, some "HARD", fin 90, fin 100⟩],
    domain := { min := fin (3599/40), max := fin (3603/40) } }

/-- A strategy whose second stint curve has no (numeric) `start_lap`. -/
def missingStart : Strategy :=
  strategyOf [curveOf "SOFT" (fin 1) [fin 90, fin 91] [fin 100, fin 50],
              curveOf "HARD" nan [fin 92] [fin 100]]

end Examples

namespace Examples

open JsNum StrategyCurveChart

/-- The data model of `missingStart` in a race of 3 laps. -/
def missingStartModel : DataModel :=
  { stints := [
      { stint := curveOf "SOFT" (fin 1) [fin 90, fin 91] [fin 100, fin 50],
        points := [⟨fin 1, some "SOFT", fin 90, fin 100⟩,
                   ⟨fin 2, some "SOFT", fin 91, fin 50⟩] },
      { stint := curveOf "HARD" nan [fin 92] [fin 100],
        points := [⟨nan, some "HARD", fin 92, fin 100⟩] }],
    points := [⟨fin 1, some "SOFT", fin 90, fin 100⟩,
               ⟨fin 2, some "SOFT", fin 91, fin 50⟩],
    domain := { min := fin (1799/20), max := fin (1821/20) } }

end Examples

namespace Examples

open JsNum StrategyCurveChart

/-- A row of two strategies with lap-times in `[88, 91]` and in `[93, 96]`. -/
def twoRanges : List Strategy :=
  [strategyOf [curveOf "SOFT" (fin 1) [fin 88, fin 91] [fin 100, fin 0]],
   strategyOf [curveOf "HARD" (fin 1) [fin 93, fin 96] [fin 100, fin 0]]]

end Examples

namespace Examples

open JsNum StrategyCurveChart

/-- The scene of `overlongModel` in a race of 3 laps on a 100 x 100 viewport, without pit
windows. -/
def overlongChart : Chart :=
  { stints := [
      { stint := twoLapStint "SOFT" 1,
        points := [⟨fin 1, some "SOFT", fin 90, fin 100, fin 42, fin 62⟩,
                   ⟨fin 2, some "SOFT", fin (1801/20), fin 0, fin 64, fin 30⟩],
        path := [(fin 42, fin 62), (fin 64, fin 30)] },
      { stint := twoLapStint "HARD" 3,
        points := [⟨fin 3, some "HARD", fin 90, fin 100, fin 86, fin 62⟩,
                   ⟨fin 4, some "HARD", fin (1801/20), fin 0, fin 108, fin 30⟩],
        path := [(fin 86, fin 62), (fin 108, fin 30)] }],
    points := [⟨fin 1, some "SOFT", fin 90, fin 100, fin 42, fin 62⟩,
               ⟨fin 2, some "SOFT", fin (1801/20), fin 0, fin 64, fin 30⟩,
               ⟨fin 3, some "HARD", fin 90, fin 100, fin 86, fin 62⟩,
               ⟨fin 4, some "HARD", fin (1801/20), fin 0, fin 108, fin 30⟩],
    pitWindows := [],
    yTicks := [fin (3599/40), fin (3601/40), fin (3603/40)],
    innerHeight := fin 64 }

end Examples

namespace Examples

open JsNum StrategyCurveChart

/-- A strategy whose two stint curves share lap 2 (the lap of the pit stop). -/
def sharedLap : Strategy :=
  strategyOf [curveOf "SOFT" (fin 1) [fin 90, fin 91] [fin 100, fin 50],
              curveOf "HARD" (fin 2) [fin 91, fin 92] [fin 100, fin 50]]

/-- The data model of `sharedLap` in a race of 3 laps. -/
def sharedLapModel : DataModel :=
  { stints := [
      { stint := curveOf "SOFT" (fin 1) [fin 90, fin 91] [fin 100, fin 50],
        points := [⟨fin 1, some "SOFT", fin 90, fin 100⟩,
                   ⟨fin 2, some "SOFT", fin 91, fin 50⟩] },
      { stint := curveOf "HARD" (fin 2) [fin 91, fin 92] [fin 100, fin 50],
        points := [⟨fin 2, some "HARD", fin 91, fin 100⟩,
                   ⟨fin 3, some "HARD", fin 92, fin 50⟩] }],
    points := [⟨fin 1, some "SOFT", fin 90, fin 100⟩,
               ⟨fin 2, some "SOFT", fin 91, fin 50⟩,
               ⟨fin 2, some "HARD", fin 91, fin 100⟩,
               ⟨fin 3, some "HARD", fin 92, fin 50⟩],
    domain := { min := fin (899/10), max := fin (921/10) } }

end Examples

namespace Examples

open JsNum StrategyCurveChart

/-- A projected pit window over laps 3 to 4. -/
def windowA : PitWindowRect :=
  { id := (0, fin 3, fin 4), lapMin := fin 3, lapMax := fin 4, x := fin 86, width := fin 22 }

/-- A projected pit window over laps 2 to 3. -/
def windowB : PitWindowRect :=
  { id := (1, fin 2, fin 3), lapMin := fin 2, lapMax := fin 3, x := fin 64, width := fin 22 }

/-- The scene `overlongChart` with the two overlapping pit windows `windowA`, `windowB`. -/
def windowChart : Chart :=
  { stints := overlongChart.stints, points := overlongChart.points,
    pitWindows := [windowA, windowB], yTicks := overlongChart.yTicks,
    innerHeight := overlongChart.innerHeight }

/-- The hover state for a pointer at `x = 86` over `windowChart`. -/
def hoverLap3 : Hover :=
  { nearest := ⟨fin 3, some "HARD", fin 90, fin 100, fin 86, fin 62⟩,
    activeWindow := some windowA }

end Examples

namespace Examples

open JsNum StrategyCurveChart

/-- Scenario A: stints `[20, 20, 20]` on three compounds, expected time 5400 s, no stint
curves. -/
def threeStints : Strategy :=
  { expected_time := fin 5400, stints := [20, 20, 20].map ofNat,
    compounds := ["SOFT", "MEDIUM", "HARD"], stint_curves := [], pit_windows := [] }

end Examples

namespace Examples

open JsNum StrategyCurveChart

/-- A strategy whose only stint curve has the constant lap-time 101 s on two laps. -/
def constantSlow : Strategy :=
  strategyOf [curveOf "SOFT" (fin 1) [fin 101, fin 101] [fin 100, fin 50]]

end Examples

namespace Examples

open JsNum StrategyCurveChart

/-- A stint curve that carries its arrays under the keys `lapTimeData` and `tyreLifeData`. -/
def camelCurve (compound : String) (start : JsNum) (lapTimes tyreLife : List JsNum) :
    StintCurve :=
  { compound := some compound, start_lap := start, end_lap := nan,
    lap_time_data := none, lapTimeData := some lapTimes,
    tyre_life_data := none, tyreLifeData := some tyreLife,
    degradation_data := none, degradationData := none }

/-- The strategy with lap-times `[88, 91]` under the key `lap_time_data`. -/
def snakeLow : Strategy := strategyOf [curveOf "SOFT" (fin 1) [fin 88, fin 91] [fin 100, fin 0]]

/-- The strategy with lap-times `[88, 91]` under the key `lapTimeData`. -/
def camelLow : Strategy := strategyOf [camelCurve "SOFT" (fin 1) [fin 88, fin 91] [fin 100, fin 0]]

/-- The strategy with lap-times `[93, 96]` under the key `lapTimeData`. -/
def camelHigh : Strategy :=
  strategyOf [camelCurve "HARD" (fin 1) [fin 93, fin 96] [fin 100, fin 0]]

/-- A row of two strategies with lap-times `[88, 91]` and `[93, 96]`, the second one under
the key `lapTimeData`. -/
def mixedKeys : List Strategy := [snakeLow, camelHigh]

/-- A row of two strategies with lap-times `[88, 91]` and `[93, 96]`, both under the key
`lapTimeData`. -/
def camelKeys : List Strategy := [camelLow, camelHigh]

/-- The samples the chart of `camelHigh` plots. -/
def camelHighPoints : List Point :=
  [{ lap := fin 1, compound := some "HARD", lapTime := fin 93, tyreLife := fin 100 },
   { lap := fin 2, compound := some "HARD", lapTime := fin 96, tyreLife := fin 0 }]

end Examples

/-! ## Arithmetic of `JsNum` on finite values -/

namespace JsNum

theorem exists_fin_of_isFinite {x : JsNum} (h : x.isFinite = true) : ∃ q, x = fin q := by
  cases x <;> simp [isFinite] at h ⊢

theorem exists_map_fin_of_forall_isFinite (l : List JsNum)
    (h : ∀ x ∈ l, x.isFinite = true) : ∃ qs : List ℚ, l = qs.map fin := by
  induction l with
  | nil => exact ⟨[], rfl⟩
  | cons x xs ih =>
    obtain ⟨q, rfl⟩ := exists_fin_of_isFinite (h x (by simp))
    obtain ⟨qs, rfl⟩ := ih (fun y hy => h y (by simp [hy]))
    exact ⟨q :: qs, rfl⟩

theorem foldl_min2_fin (qs : List ℚ) (a : ℚ) :
    (qs.map fin).foldl min2 (fin a) = fin (qs.foldl min a) := by
  induction qs generalizing a with
  | nil => rfl
  | cons q qs ih => simp [min2, ih]

theorem foldl_max2_fin (qs : List ℚ) (a : ℚ) :
    (qs.map fin).foldl max2 (fin a) = fin (qs.foldl max a) := by
  induction qs generalizing a with
  | nil => rfl
  | cons q qs ih => simp [max2, ih]

theorem mathMin_map_fin_cons (q : ℚ) (qs : List ℚ) :
    mathMin ((q :: qs).map fin) = fin (qs.foldl min q) := by
  simp [mathMin, min2, foldl_min2_fin]

theorem mathMax_map_fin_cons (q : ℚ) (qs : List ℚ) :
    mathMax ((q :: qs).map fin) = fin (qs.foldl max q) := by
  simp [mathMax, max2, foldl_max2_fin]

theorem foldl_min_le (qs : List ℚ) (a : ℚ) :
    qs.foldl min a ≤ a ∧ ∀ x ∈ qs, qs.foldl min a ≤ x := by
  induction qs generalizing a with
  | nil => simp
  | cons q qs ih =>
    obtain ⟨h1, h2⟩ := ih (min a q)
    refine ⟨le_trans h1 (min_le_left _ _), ?_⟩
    intro x hx
    rcases List.mem_cons.1 hx with rfl | hx
    · exact le_trans h1 (min_le_right _ _)
    · exact h2 x hx

theorem foldl_min_mem (qs : List ℚ) (a : ℚ) : qs.foldl min a ∈ a :: qs := by
  induction qs generalizing a with
  | nil => simp
  | cons q qs ih =>
    have h := ih (min a q)
    rcases List.mem_cons.1 h with h | h
    · rw [List.foldl_cons, h]
      rcases min_choice a q with h' | h' <;> rw [h'] <;> simp
    · rw [List.foldl_cons]
      exact List.mem_cons_of_mem _ (List.mem_cons_of_mem _ h)

theorem le_foldl_max (qs : List ℚ) (a : ℚ) :
    a ≤ qs.foldl max a ∧ ∀ x ∈ qs, x ≤ qs.foldl max a := by
  induction qs generalizing a with
  | nil => simp
  | cons q qs ih =>
    obtain ⟨h1, h2⟩ := ih (max a q)
    refine ⟨le_trans (le_max_left _ _) h1, ?_⟩
    intro x hx
    rcases List.mem_cons.1 hx with rfl | hx
    · exact le_trans (le_max_right _ _) h1
    · exact h2 x hx

theorem foldl_max_mem (qs : List ℚ) (a : ℚ) : qs.foldl max a ∈ a :: qs := by
  induction qs generalizing a with
  | nil => simp
  | cons q qs ih =>
    have h := ih (max a q)
    rcases List.mem_cons.1 h with h | h
    · rw [List.foldl_cons, h]
      rcases max_choice a q with h' | h' <;> rw [h'] <;> simp
    · rw [List.foldl_cons]
      exact List.mem_cons_of_mem _ (List.mem_cons_of_mem _ h)

/-- On a non-empty list of finite values `Math.min` and `Math.max` return the least and the
greatest element. -/
theorem mathMin_mathMax_of_bounds (qs : List ℚ) (lo hi : ℚ) (hlo : lo ∈ qs) (hhi : hi ∈ qs)
    (hb : ∀ v ∈ qs, lo ≤ v ∧ v ≤ hi) :
    mathMin (qs.map fin) = fin lo ∧ mathMax (qs.map fin) = fin hi := by
  cases qs with
  | nil => simp at hlo
  | cons q qs =>
    rw [mathMin_map_fin_cons, mathMax_map_fin_cons]
    constructor
    · congr 1
      apply le_antisymm
      · rcases List.mem_cons.1 hlo with h | h
        · rw [h]; exact (foldl_min_le qs q).1
        · exact (foldl_min_le qs q).2 lo h
      · exact (hb _ (foldl_min_mem qs q)).1
    · congr 1
      apply le_antisymm
      · exact (hb _ (foldl_max_mem qs q)).2
      · rcases List.mem_cons.1 hhi with h | h
        · rw [h]; exact (le_foldl_max qs q).1
        · exact (le_foldl_max qs q).2 hi h

/-- A non-empty list of rationals has a least and a greatest element. -/
theorem exists_bounds_of_ne_nil (qs : List ℚ) (h : qs ≠ []) :
    ∃ lo hi, lo ∈ qs ∧ hi ∈ qs ∧ ∀ v ∈ qs, lo ≤ v ∧ v ≤ hi := by
  cases qs with
  | nil => exact absurd rfl h
  | cons q qs =>
    refine ⟨qs.foldl min q, qs.foldl max q, foldl_min_mem qs q, foldl_max_mem qs q, ?_⟩
    intro v hv
    rcases List.mem_cons.1 hv with rfl | hv
    · exact ⟨(foldl_min_le qs v).1, (le_foldl_max qs v).1⟩
    · exact ⟨(foldl_min_le qs q).2 v hv, (le_foldl_max qs q).2 v hv⟩

end JsNum

namespace StrategyCurveChart

open JsNum

/-- The value of `computeDomain` on a list of finite values with least element `lo` and
greatest element `hi`. -/
theorem computeDomain_of_bounds (qs : List ℚ) (lo hi : ℚ) (hlo : lo ∈ qs) (hhi : hi ∈ qs)
    (hb : ∀ v ∈ qs, lo ≤ v ∧ v ≤ hi) (fallback : Domain) :
    computeDomain (qs.map fin) fallback =
      if hi ≤ lo then fallback
      else { min := fin (lo - 1/20 * max (1/2) (hi - lo)),
             max := fin (hi + 1/20 * max (1/2) (hi - lo)) } := by
  obtain ⟨hmin, hmax⟩ := mathMin_mathMax_of_bounds qs lo hi hlo hhi hb
  have hne : qs ≠ [] := List.ne_nil_of_mem hlo
  unfold computeDomain
  simp only [hmin, hmax, List.length_map, List.length_eq_zero, hne, if_false]
  by_cases h : hi ≤ lo
  · simp [isFinite, le, h]
  · simp only [isFinite, le, h, sub, neg, add, max2, mul]
    simp [sub_eq_add_neg, mul_comm]

theorem computeDomain_nil (fallback : Domain) : computeDomain [] fallback = fallback := by
  simp [computeDomain]

/-- A domain with finite bounds and `max > min`. -/
theorem computeDomain_fallback_valid (qs : List ℚ) :
    ∃ a b : ℚ, computeDomain (qs.map fin) FALLBACK_DOMAIN = { min := fin a, max := fin b }
      ∧ a < b := by
  by_cases hne : qs = []
  · subst hne
    exact ⟨89, 95, by simp [computeDomain, FALLBACK_DOMAIN], by norm_num⟩
  · obtain ⟨lo, hi, hlo, hhi, hb⟩ := exists_bounds_of_ne_nil qs hne
    rw [computeDomain_of_bounds qs lo hi hlo hhi hb]
    by_cases h : hi ≤ lo
    · exact ⟨89, 95, by simp [h, FALLBACK_DOMAIN], by norm_num⟩
    · rw [if_neg h]
      refine ⟨_, _, rfl, ?_⟩
      have : (0 : ℚ) < max (1/2) (hi - lo) := lt_of_lt_of_le (by norm_num) (le_max_left _ _)
      push_neg at h
      linarith

end StrategyCurveChart

namespace StrategyCurveChart

open JsNum

theorem normalizeDomain_valid (d : Option Domain) (fallback : Domain)
    (hf : ∃ a b : ℚ, fallback = { min := fin a, max := fin b } ∧ a < b) :
    ∃ a b : ℚ, normalizeDomain d fallback = { min := fin a, max := fin b } ∧ a < b := by
  cases d with
  | none => simpa [normalizeDomain] using hf
  | some d =>
    obtain ⟨dmin, dmax⟩ := d
    cases dmin <;> cases dmax <;> simp only [normalizeDomain, isFinite, le] <;>
      try (simpa using hf)
    rename_i a b
    by_cases h : b ≤ a
    · simpa [h] using hf
    · exact ⟨a, b, by simp [h], lt_of_not_ge h⟩

/-- Every lap-time kept by the filter of `flatPoints` is finite. -/
theorem dataModelOf_lapTimes_finite (source : List StintCurve) (totalLaps : JsNum)
    (yDomain : Option Domain) :
    ∀ x ∈ (dataModelOf source totalLaps yDomain).points.map (fun p => p.lapTime),
      x.isFinite = true := by
  intro x hx
  simp only [dataModelOf, List.mem_map, List.mem_filter] at hx
  obtain ⟨p, ⟨-, hk⟩, rfl⟩ := hx
  simp only [keepPoint, Bool.and_eq_true] at hk
  exact hk.1.1.2

theorem dataModelOf_domain_eq (source : List StintCurve) (totalLaps : JsNum)
    (yDomain : Option Domain) :
    (dataModelOf source totalLaps yDomain).domain =
      normalizeDomain yDomain
        (computeDomain ((dataModelOf source totalLaps yDomain).points.map fun p => p.lapTime)
          FALLBACK_DOMAIN) := by
  cases yDomain <;> simp [dataModelOf, normalizeDomain]

/-- The domain of a data model has finite bounds with `min < max`. -/
theorem dataModelOf_domain_valid (source : List StintCurve) (totalLaps : JsNum)
    (yDomain : Option Domain) :
    ∃ a b : ℚ, (dataModelOf source totalLaps yDomain).domain = { min := fin a, max := fin b }
      ∧ a < b := by
  rw [dataModelOf_domain_eq]
  apply normalizeDomain_valid
  obtain ⟨qs, hqs⟩ := exists_map_fin_of_forall_isFinite _
    (dataModelOf_lapTimes_finite source totalLaps yDomain)
  rw [hqs]
  exact computeDomain_fallback_valid qs

theorem fallbackStints_isSome (baseline : JsNum) (compounds : List String)
    (stints : List JsNum) (idx : Nat) (lap : JsNum)
    (h : ∀ len ∈ stints, (arrayFromLength (orElse len (fin 0))).isSome = true) :
    (fallbackStints baseline compounds stints idx lap).isSome = true := by
  induction stints generalizing idx lap with
  | nil => simp [fallbackStints]
  | cons len rest ih =>
    have h1 := h len (by simp)
    obtain ⟨n, hn⟩ := Option.isSome_iff_exists.1 h1
    have h2 := ih (idx + 1) (add (sub (add lap (orElse len (fin 0))) (fin 1)) (fin 1))
      (fun l hl => h l (by simp [hl]))
    obtain ⟨more, hm⟩ := Option.isSome_iff_exists.1 h2
    simp [fallbackStints, hn, hm]

/-- Building the data model succeeds when stint curves are supplied, and otherwise when
every stint length is an admissible array length. -/
theorem dataModel_isSome (strategy : Strategy) (totalLaps : JsNum) (yDomain : Option Domain)
    (h : strategy.stint_curves ≠ [] ∨
      ∀ len ∈ strategy.stints, (arrayFromLength (orElse len (fin 0))).isSome = true) :
    (dataModel strategy totalLaps yDomain).isSome = true := by
  by_cases hc : strategy.stint_curves = []
  · have h' := h.resolve_left (fun hne => hne hc)
    simp [dataModel, sourceCurves, hc, buildFallbackCurves, fallbackStints_isSome _ _ _ _ _ h']
  · simp [dataModel, sourceCurves, hc]

theorem dataModel_eq_some (strategy : Strategy) (totalLaps : JsNum) (yDomain : Option Domain)
    (dm : DataModel) (h : dataModel strategy totalLaps yDomain = some dm) :
    ∃ source, sourceCurves strategy totalLaps = some source ∧
      dm = dataModelOf source totalLaps yDomain := by
  simp only [dataModel, Option.map_eq_some'] at h
  obtain ⟨source, hs, hd⟩ := h
  exact ⟨source, hs, hd.symm⟩

end StrategyCurveChart

namespace StrategyCurveChart

open JsNum

theorem sub_fin (a b : ℚ) : sub (fin a) (fin b) = fin (a - b) := by
  simp [sub, neg, add, sub_eq_add_neg]

theorem div_fin (a b : ℚ) (hb : b ≠ 0) : div (fin a) (fin b) = fin (a / b) := by
  simp [div, hb]

/-- The horizontal map on finite laps when `totalLaps` is finite and above 1. -/
theorem xForLap_fin (t : ℚ) (width : Int) (lap : ℚ) (ht : 1 < t) :
    xForLap (fin t) width (fin lap) =
      fin (PADDING_left + (lap - 1) / (t - 1) * innerWidth width) := by
  have h1 : ¬ t ≤ 1 := not_le.2 ht
  have h2 : t - 1 ≠ 0 := by linarith
  simp [xForLap, le, h1, sub_fin, div_fin _ _ h2, mul, add]

/-- The vertical map on a finite lap-time for a domain with finite bounds `a < b`. -/
theorem yForTime_fin (a b : ℚ) (height : Int) (v : ℚ) (hab : a < b) :
    yForTime { min := fin a, max := fin b } height (fin v) =
      fin (PADDING_top + innerHeight height - (v - a) / (b - a) * innerHeight height) := by
  have h2 : b - a ≠ 0 := by linarith
  simp [yForTime, isFinite, sub_fin, div_fin _ _ h2, mul, add]

theorem keepPoint_fin (t lap v : ℚ) (c : Option String) (life : JsNum) :
    keepPoint (fin t) { lap := fin lap, compound := c, lapTime := fin v, tyreLife := life } =
      decide (1 ≤ lap ∧ lap ≤ t) := by
  simp [keepPoint, isFinite, ge, le, Bool.decide_and]

/-- The scene of a valid viewport with at least one filtered sample. -/
theorem chart_eq_some (pit_windows : List PitWindow) (totalLaps : JsNum) (width height : Int)
    (dm : DataModel) (hl : layoutValid width height = true) (hp : dm.points ≠ []) :
    chart pit_windows totalLaps width height dm = some
      { stints := dm.stints.map (mapStint totalLaps width height dm.domain),
        points := ((dm.stints.map (mapStint totalLaps width height dm.domain)).flatMap
          fun stint => stint.points).filter fun p => p.x.isFinite && p.y.isFinite,
        pitWindows := pit_windows.enum.map fun w => projectWindow totalLaps width w.1 w.2,
        yTicks := [dm.domain.min, div (add dm.domain.min dm.domain.max) (fin 2), dm.domain.max],
        innerHeight := fin (innerHeight height) } := by
  simp [chart, hl, hp]

end StrategyCurveChart

namespace StrategyCurveChart

open JsNum

theorem overlong_source :
    sourceCurves Examples.overlong (fin 3) = some Examples.overlongCurves := by
  simp [sourceCurves, Examples.overlong, buildFallbackCurves, fallbackStints, arrayFromLength,
    orElse, truthy, gt, lt, le, div, add, sub, neg, mul, ofNat, List.range, List.range.loop,
    Examples.overlongCurves, Examples.twoLapStint]
  norm_num

theorem overlong_dataModel :
    dataModel Examples.overlong (fin 3) none = some Examples.overlongModel := by
  rw [dataModel, overlong_source]
  simp only [Option.map_some', Option.some.injEq]
  simp only [dataModelOf, stintPoints, firstPresent, Option.getD_some, List.map_cons,
    List.map_nil, List.filter_cons, isFinite, if_true, List.filter_nil, List.enum,
    List.enumFrom, List.flatMap_cons, List.flatMap_nil, List.append_nil, List.cons_append,
    List.nil_append, List.get?_cons_zero, List.get?_cons_succ, add, ofNat, keepPoint_fin,
    Examples.overlongCurves, Examples.twoLapStint, Examples.overlongModel]
  norm_num [computeDomain, mathMin, mathMax, min2, max2, sub_fin, mul, add, isFinite, le]

end StrategyCurveChart

namespace StrategyCurveChart

open JsNum

theorem missingStart_dataModel :
    dataModel Examples.missingStart (fin 3) none = some Examples.missingStartModel := by
  have hs : sourceCurves Examples.missingStart (fin 3) =
      some Examples.missingStart.stint_curves := by
    simp [sourceCurves, Examples.missingStart, Examples.strategyOf]
  rw [dataModel, hs]
  simp only [Option.map_some', Option.some.injEq]
  simp only [dataModelOf, stintPoints, firstPresent, Option.getD_some, List.map_cons,
    List.map_nil, List.filter_cons, isFinite, if_true, List.filter_nil, List.enum,
    List.enumFrom, List.flatMap_cons, List.flatMap_nil, List.append_nil, List.cons_append,
    List.nil_append, List.get?_cons_zero, List.get?_cons_succ, add, ofNat, keepPoint_fin,
    Examples.missingStart, Examples.strategyOf, Examples.curveOf, Examples.missingStartModel]
  norm_num [computeDomain, mathMin, mathMax, min2, max2, sub_fin, mul, add, isFinite, le,
    keepPoint]

end StrategyCurveChart

namespace StrategyCurveChart

open JsNum

/-- The horizontal distance of a sample with finite `x` to a finite pointer position. -/
theorem abs_sub_fin_of_isFinite (p : MappedPoint) (r : ℚ) (h : p.x.isFinite = true) :
    ∃ d : ℚ, JsNum.abs (sub p.x (fin r)) = fin d ∧ 0 ≤ d := by
  obtain ⟨q, hq⟩ := exists_fin_of_isFinite h
  exact ⟨|q - r|, by simp [hq, sub_fin, JsNum.abs], abs_nonneg _⟩

/-- The invariant of the scan of `handleMove`: started from the first sample of `pre` at
minimal distance, it ends at the first sample of `pre ++ rest` at minimal distance. -/
theorem nearestScan_spec (r : ℚ) (rest : List MappedPoint) :
    ∀ (pre : List MappedPoint) (best : MappedPoint) (k : Nat),
      (∀ p ∈ pre ++ rest, p.x.isFinite = true) →
      pre[k]? = some best →
      (∀ q ∈ pre, le (JsNum.abs (sub best.x (fin r))) (JsNum.abs (sub q.x (fin r))) = true) →
      (∀ (j : Nat) (q : MappedPoint), j < k → pre[j]? = some q →
        lt (JsNum.abs (sub best.x (fin r))) (JsNum.abs (sub q.x (fin r))) = true) →
      ∃ i p, (pre ++ rest)[i]? = some p ∧
        (nearestScan (fin r) rest (best, JsNum.abs (sub best.x (fin r)))).1 = p ∧
        (∀ q ∈ pre ++ rest,
          le (JsNum.abs (sub p.x (fin r))) (JsNum.abs (sub q.x (fin r))) = true) ∧
        (∀ (j : Nat) (q : MappedPoint), j < i → (pre ++ rest)[j]? = some q →
          lt (JsNum.abs (sub p.x (fin r))) (JsNum.abs (sub q.x (fin r))) = true) := by
  induction rest with
  | nil =>
    intro pre best k _ hk hmin hfirst
    rw [List.append_nil]
    exact ⟨k, best, hk, rfl, hmin, hfirst⟩
  | cons p rest ih =>
    intro pre best k hfin hk hmin hfirst
    have hbest : best ∈ pre := List.getElem?_mem hk
    obtain ⟨db, hdb, -⟩ := abs_sub_fin_of_isFinite best r (hfin best (by simp [hbest]))
    obtain ⟨dp, hdp, -⟩ := abs_sub_fin_of_isFinite p r (hfin p (by simp))
    have happ : pre ++ p :: rest = (pre ++ [p]) ++ rest := by simp
    obtain ⟨hklt, -⟩ := List.getElem?_eq_some_iff.1 hk
    rw [nearestScan]
    by_cases hlt : dp < db
    · have hcond : lt (JsNum.abs (sub p.x (fin r))) (best, JsNum.abs (sub best.x (fin r))).2
          = true := by simp [hdp, hdb, lt, hlt]
      simp only [hcond, if_true]
      rw [happ]
      apply ih (pre ++ [p]) p pre.length
      · rw [← happ]; exact hfin
      · simp
      · intro q hq
        rcases List.mem_append.1 hq with hq | hq
        · have h1 := hmin q hq
          obtain ⟨dq, hdq, -⟩ := abs_sub_fin_of_isFinite q r (hfin q (by simp [hq]))
          rw [hdb, hdq] at h1
          rw [hdp, hdq]
          simp only [le, decide_eq_true_eq] at h1 ⊢
          linarith
        · simp only [List.mem_singleton] at hq
          subst hq
          rw [hdp]; simp [le]
      · intro j q hj hq
        rw [List.getElem?_append_left hj] at hq
        have hqm : q ∈ pre := List.getElem?_mem hq
        have h1 := hmin q hqm
        obtain ⟨dq, hdq, -⟩ := abs_sub_fin_of_isFinite q r (hfin q (by simp [hqm]))
        rw [hdb, hdq] at h1
        rw [hdp, hdq]
        simp only [le, lt, decide_eq_true_eq] at h1 ⊢
        linarith
    · have hcond : ¬ (lt (JsNum.abs (sub p.x (fin r))) (best, JsNum.abs (sub best.x (fin r))).2
          = true) := by simp [hdp, hdb, lt, hlt]
      simp only [hcond, if_false]
      rw [happ]
      apply ih (pre ++ [p]) best k
      · rw [← happ]; exact hfin
      · rw [List.getElem?_append_left hklt]; exact hk
      · intro q hq
        rcases List.mem_append.1 hq with hq | hq
        · exact hmin q hq
        · simp only [List.mem_singleton] at hq
          subst hq
          rw [hdb, hdp]
          simp only [le, decide_eq_true_eq]
          exact not_lt.1 hlt
      · intro j q hj hq
        rw [List.getElem?_append_left (lt_trans hj hklt)] at hq
        exact hfirst j q hj hq

/-- The sample returned for a finite pointer position over a non-empty list of samples with
finite `x`: the first one at minimal horizontal distance. -/
theorem nearestPoint_spec (points : List MappedPoint) (r : ℚ) (hne : points ≠ [])
    (hfin : ∀ p ∈ points, p.x.isFinite = true) :
    ∃ i p, points[i]? = some p ∧ nearestPoint points (fin r) = some p ∧
      (∀ q ∈ points, le (JsNum.abs (sub p.x (fin r))) (JsNum.abs (sub q.x (fin r))) = true) ∧
      (∀ (j : Nat) (q : MappedPoint), j < i → points[j]? = some q →
        lt (JsNum.abs (sub p.x (fin r))) (JsNum.abs (sub q.x (fin r))) = true) := by
  cases points with
  | nil => exact absurd rfl hne
  | cons p0 rest =>
    obtain ⟨d0, hd0, -⟩ := abs_sub_fin_of_isFinite p0 r (hfin p0 (by simp))
    obtain ⟨i, p, hi, hp, hmin, hfirst⟩ := nearestScan_spec r rest [p0] p0 0
      (by simpa using hfin) (by simp)
      (by intro q hq; simp only [List.mem_singleton] at hq; subst hq; rw [hd0]; simp [le])
      (by intro j q hj; exact absurd hj (Nat.not_lt_zero j))
    refine ⟨i, p, by simpa using hi, ?_, by simpa using hmin, ?_⟩
    · simp [nearestPoint, hp]
    · intro j q hj hq
      exact hfirst j q hj (by simpa using hq)

end StrategyCurveChart

namespace StrategyCurveChart

open JsNum

theorem overlong_chart :
    chart [] (fin 3) 100 100 Examples.overlongModel = some Examples.overlongChart := by
  rw [chart_eq_some _ _ _ _ _ (by decide) (by simp [Examples.overlongModel])]
  norm_num [Examples.overlongModel, Examples.overlongChart, mapStint, mapPoint, xForLap_fin,
    yForTime_fin, isFinite, innerWidth, innerHeight, PADDING_left, PADDING_right, PADDING_top,
    PADDING_bottom, List.enum, List.enumFrom, add, div_fin]

/-- What a non-null scene says about its inputs. -/
theorem chart_some_inv (pit_windows : List PitWindow) (totalLaps : JsNum) (width height : Int)
    (dm : DataModel) (c : Chart) (h : chart pit_windows totalLaps width height dm = some c) :
    layoutValid width height = true ∧ dm.points ≠ [] ∧
      c.points = ((dm.stints.map (mapStint totalLaps width height dm.domain)).flatMap
          fun stint => stint.points).filter fun p => p.x.isFinite && p.y.isFinite := by
  by_cases hl : layoutValid width height = true
  · by_cases hp : dm.points = []
    · simp [chart, hl, hp] at h
    · rw [chart_eq_some _ _ _ _ _ hl hp] at h
      simp only [Option.some.injEq] at h
      exact ⟨hl, hp, by rw [← h]⟩
  · simp [chart, hl] at h

theorem xForLap_isFinite_of_keepPoint (totalLaps : JsNum) (width : Int) (p : Point)
    (hk : keepPoint totalLaps p = true) : (xForLap totalLaps width p.lap).isFinite = true := by
  simp only [keepPoint, Bool.and_eq_true] at hk
  obtain ⟨⟨⟨hlap, -⟩, -⟩, hle⟩ := hk
  obtain ⟨l, hl⟩ := exists_fin_of_isFinite hlap
  rw [hl] at hle ⊢
  cases totalLaps with
  | fin t =>
    by_cases ht : t ≤ 1
    · simp [xForLap, le, ht, isFinite]
    · rw [xForLap_fin t width l (not_le.1 ht)]; rfl
  | pinf => simp [xForLap, le, sub, neg, add, div, mul, isFinite]
  | ninf => simp [le] at hle
  | nan => simp [le] at hle

/-- The scene built from a data model has at least one hover candidate, and all of them
have finite coordinates. -/
theorem chart_points_ne_nil (strategy : Strategy) (totalLaps : JsNum) (yDomain : Option Domain)
    (dm : DataModel) (pit_windows : List PitWindow) (width height : Int) (c : Chart)
    (hdm : dataModel strategy totalLaps yDomain = some dm)
    (hc : chart pit_windows totalLaps width height dm = some c) :
    c.points ≠ [] ∧ ∀ p ∈ c.points, p.x.isFinite = true ∧ p.y.isFinite = true := by
  obtain ⟨-, hp, hpts⟩ := chart_some_inv _ _ _ _ _ _ hc
  constructor
  · obtain ⟨source, -, rfl⟩ := dataModel_eq_some strategy totalLaps yDomain dm hdm
    obtain ⟨p, hpm⟩ := List.exists_mem_of_ne_nil _ hp
    obtain ⟨a, b, hd, hab⟩ := dataModelOf_domain_valid source totalLaps yDomain
    have hpm' := hpm
    simp only [dataModelOf, List.mem_filter, List.mem_flatMap, List.mem_map] at hpm'
    obtain ⟨⟨st, ⟨cv, hcv, rfl⟩, hpst⟩, hk⟩ := hpm'
    have hx := xForLap_isFinite_of_keepPoint totalLaps width p hk
    have hy : (yForTime (dataModelOf source totalLaps yDomain).domain height p.lapTime).isFinite
        = true := by
      simp only [keepPoint, Bool.and_eq_true] at hk
      obtain ⟨v, hv⟩ := exists_fin_of_isFinite hk.1.1.2
      rw [hd, hv, yForTime_fin a b height v hab]; rfl
    have hmem : mapPoint totalLaps width height (dataModelOf source totalLaps yDomain).domain p
        ∈ c.points := by
      rw [hpts]
      simp only [List.mem_filter, List.mem_flatMap, List.mem_map, Bool.and_eq_true]
      refine ⟨⟨_, ⟨⟨cv, stintPoints cv⟩, ?_, rfl⟩, ?_⟩, ?_, ?_⟩
      · simp only [dataModelOf, List.mem_map]
        exact ⟨cv, hcv, rfl⟩
      · simp only [mapStint, List.mem_map]
        exact ⟨p, hpst, rfl⟩
      · exact hx
      · exact hy
    exact List.ne_nil_of_mem hmem
  · intro p hpc
    rw [hpts] at hpc
    simpa using (List.mem_filter.1 hpc).2

end StrategyCurveChart

namespace StrategyCurveChart

open JsNum

theorem sharedLap_dataModel :
    dataModel Examples.sharedLap (fin 3) none = some Examples.sharedLapModel := by
  have hs : sourceCurves Examples.sharedLap (fin 3) =
      some Examples.sharedLap.stint_curves := by
    simp [sourceCurves, Examples.sharedLap, Examples.strategyOf]
  rw [dataModel, hs]
  simp only [Option.map_some', Option.some.injEq]
  simp only [dataModelOf, stintPoints, firstPresent, Option.getD_some, List.map_cons,
    List.map_nil, List.filter_cons, isFinite, if_true, List.filter_nil, List.enum,
    List.enumFrom, List.flatMap_cons, List.flatMap_nil, List.append_nil, List.cons_append,
    List.nil_append, List.get?_cons_zero, List.get?_cons_succ, add, ofNat, keepPoint_fin,
    Examples.sharedLap, Examples.strategyOf, Examples.curveOf, Examples.sharedLapModel]
  norm_num [computeDomain, mathMin, mathMax, min2, max2, sub_fin, mul, add, isFinite, le]

end StrategyCurveChart

namespace StrategyCurveChart

open JsNum

/-- What `Array.prototype.find` returns: the first element in sequence order that satisfies
the predicate, and nothing exactly when no element satisfies it. -/
theorem find?_first {α : Type} (p : α → Bool) (l : List α) :
    (l.find? p = none ↔ ∀ a ∈ l, p a = false) ∧
    (∀ a, l.find? p = some a → ∃ i, l[i]? = some a ∧ p a = true ∧
      ∀ (j : Nat) (b : α), j < i → l[j]? = some b → p b = false) := by
  induction l with
  | nil => simp
  | cons x xs ih =>
    by_cases hx : p x = true
    · refine ⟨by simp [List.find?_cons, hx], ?_⟩
      intro a ha
      simp only [List.find?_cons, hx, Option.some.injEq] at ha
      subst ha
      exact ⟨0, by simp, hx, fun j b hj => absurd hj (Nat.not_lt_zero j)⟩
    · have hx' : p x = false := by simpa using hx
      refine ⟨by simp [List.find?_cons, hx', ih.1], ?_⟩
      intro a ha
      simp only [List.find?_cons, hx'] at ha
      obtain ⟨i, hi, hpa, hfirst⟩ := ih.2 a ha
      refine ⟨i + 1, by simpa using hi, hpa, ?_⟩
      intro j b hj hb
      cases j with
      | zero =>
        simp only [List.getElem?_cons_zero, Option.some.injEq] at hb
        rw [← hb]; exact hx'
      | succ j =>
        exact hfirst j b (Nat.lt_of_succ_lt_succ hj) (by simpa using hb)

end StrategyCurveChart

namespace StrategyCurveChart

open JsNum

theorem max2_fin (a b : ℚ) : max2 (fin a) (fin b) = fin (max a b) := rfl

theorem min2_fin (a b : ℚ) : min2 (fin a) (fin b) = fin (min a b) := rfl

/-- On finite laps, `xForLap` is finite and monotone as soon as `totalLaps` is not `NaN`. -/
theorem xForLap_mono (totalLaps : JsNum) (width : Int) (l1 l2 : ℚ) (hne : totalLaps ≠ nan)
    (h12 : l1 ≤ l2) :
    ∃ a b : ℚ, xForLap totalLaps width (fin l1) = fin a ∧
      xForLap totalLaps width (fin l2) = fin b ∧ a ≤ b := by
  cases totalLaps with
  | fin t =>
    by_cases ht : t ≤ 1
    · exact ⟨PADDING_left, PADDING_left, by simp [xForLap, le, ht], by simp [xForLap, le, ht],
        le_refl _⟩
    · have ht' : 1 < t := not_le.1 ht
      refine ⟨_, _, xForLap_fin t width l1 ht', xForLap_fin t width l2 ht', ?_⟩
      have hw : (0 : ℚ) ≤ innerWidth width :=
        le_trans (by norm_num) (le_max_left (1 : ℚ) _)
      have hd : (l1 - 1) / (t - 1) ≤ (l2 - 1) / (t - 1) :=
        div_le_div_of_nonneg_right (by linarith) (by linarith)
      have := mul_le_mul_of_nonneg_right hd hw
      linarith
  | pinf =>
    exact ⟨PADDING_left + 0 * innerWidth width, PADDING_left + 0 * innerWidth width,
      by simp [xForLap, le, sub, neg, add, div, mul], by simp [xForLap, le, sub, neg, add, div, mul],
      le_refl _⟩
  | ninf =>
    exact ⟨PADDING_left, PADDING_left, by simp [xForLap, le], by simp [xForLap, le], le_refl _⟩
  | nan => exact absurd rfl hne

/-- A scene exists only for a `totalLaps` that is not `NaN`. -/
theorem totalLaps_ne_nan_of_chart (strategy : Strategy) (totalLaps : JsNum)
    (yDomain : Option Domain) (dm : DataModel) (pit_windows : List PitWindow)
    (width height : Int) (c : Chart)
    (hdm : dataModel strategy totalLaps yDomain = some dm)
    (hc : chart pit_windows totalLaps width height dm = some c) : totalLaps ≠ nan := by
  obtain ⟨-, hp, -⟩ := chart_some_inv _ _ _ _ _ _ hc
  obtain ⟨source, -, rfl⟩ := dataModel_eq_some strategy totalLaps yDomain dm hdm
  obtain ⟨p, hpm⟩ := List.exists_mem_of_ne_nil _ hp
  simp only [dataModelOf, List.mem_filter] at hpm
  have hk := hpm.2
  simp only [keepPoint, Bool.and_eq_true] at hk
  intro h
  rw [h] at hk
  cases hl : p.lap <;> simp [hl, le] at hk

end StrategyCurveChart

namespace StrategyCurveChart

open JsNum

theorem arrayFromLength_natCast (n : Nat) (h : n ≤ 2 ^ 32 - 1) :
    arrayFromLength (fin (n : ℚ)) = some n := by
  have h' : n ≤ 4294967295 := by norm_num at h; exact h
  simp [arrayFromLength, h']

theorem orElse_natCast (n : Nat) (h : 1 ≤ n) (b : JsNum) : orElse (fin (n : ℚ)) b = fin (n : ℚ) := by
  have : (n : ℚ) ≠ 0 := by
    have : n ≠ 0 := by omega
    exact_mod_cast this
  simp [orElse, truthy, this]

/-- One step of the callback of `buildFallbackCurves`. -/
theorem fallbackStints_cons (baseline : JsNum) (compounds : List String) (len : JsNum)
    (rest : List JsNum) (idx : Nat) (lap : JsNum) (n : Nat)
    (hn : arrayFromLength (orElse len (fin 0)) = some n) :
    fallbackStints baseline compounds (len :: rest) idx lap =
      (fallbackStints baseline compounds rest (idx + 1)
        (add (sub (add lap (orElse len (fin 0))) (fin 1)) (fin 1))).map
        fun more => fallbackStint baseline compounds idx lap (orElse len (fin 0)) n :: more := by
  simp only [fallbackStints, hn]
  cases fallbackStints baseline compounds rest (idx + 1)
      (add (sub (add lap (orElse len (fin 0))) (fin 1)) (fin 1)) with
  | none => rfl
  | some more => rfl

/-- The samples of a synthesised stint of `n` laps with a finite baseline `β`, started at
lap `s`. -/
theorem stintPoints_fallbackStint (β : ℚ) (compounds : List String) (idx : Nat) (s : ℚ)
    (stintLen : JsNum) (n : Nat) :
    stintPoints (fallbackStint (fin β) compounds idx (fin s) stintLen n) =
      (List.range n).map fun i =>
        { lap := fin (s + (i : ℚ)),
          compound := (fallbackStint (fin β) compounds idx (fin s) stintLen n).compound,
          lapTime := fin (β + (i : ℚ) * (1/20)),
          tyreLife := if le stintLen (fin 1) then fin 100
            else sub (fin 100) (mul (div (ofNat i) (sub stintLen (fin 1))) (fin 100)) } := by
  apply List.ext_getElem?
  intro i
  have hfilter : (List.filter isFinite (List.map (fun i : Nat =>
      add (fin β) (mul (ofNat i) (fin (1/20)))) (List.range n))) =
      List.map (fun i : Nat => fin (β + (i : ℚ) * (1/20))) (List.range n) := by
    rw [List.filter_eq_self.2]
    · simp [add, mul, ofNat]
    · intro a ha
      simp only [List.mem_map] at ha
      obtain ⟨j, -, rfl⟩ := ha
      simp [add, mul, ofNat, isFinite]
  simp only [stintPoints, fallbackStint, firstPresent, Option.getD_some, hfilter,
    List.getElem?_map, List.getElem?_enum, List.get?_eq_getElem?]
  by_cases hi : i < n
  · simp [List.getElem?_range hi, add, ofNat]
  · have hnone : (List.range n)[i]? = none :=
      List.getElem?_eq_none (by simp only [List.length_range]; omega)
    simp [hnone]

end StrategyCurveChart

namespace StrategyCurveChart

open JsNum

theorem stintPoints_lapTime_isFinite (c : StintCurve) :
    ∀ p ∈ stintPoints c, p.lapTime.isFinite = true := by
  intro p hp
  simp only [stintPoints, List.mem_map] at hp
  obtain ⟨q, hq, rfl⟩ := hp
  have := List.snd_mem_of_mem_enum hq
  exact (List.mem_filter.1 this).2

/-- The curves synthesised for stint lengths that are positive integers, with a finite
baseline, from the stint index `idx` and the running lap `s` on. -/
theorem fallbackStints_nat (β : ℚ) (compounds : List String) :
    ∀ (ns : List Nat) (idx s : Nat), (∀ n ∈ ns, 1 ≤ n ∧ n ≤ 2 ^ 32 - 1) →
      ∃ curves, fallbackStints (fin β) compounds (ns.map ofNat) idx
          (fin (s : ℚ)) = some curves ∧
        curves.length = ns.length ∧
        (∀ (k n : Nat), ns[k]? = some n → curves[k]? = some
          (fallbackStint (fin β) compounds (idx + k)
            (fin ((s + (ns.take k).sum : Nat) : ℚ)) (fin (n : ℚ)) n)) ∧
        (curves.flatMap stintPoints).map (fun p => p.lap) =
          (List.range' s ns.sum).map ofNat ∧
        (∀ c ∈ curves, ∃ a : Nat, c.start_lap = fin (a : ℚ) ∧ s ≤ a ∧ a + 1 ≤ s + ns.sum) := by
  intro ns
  induction ns with
  | nil =>
    intro idx s _
    exact ⟨[], by simp [fallbackStints], rfl, by simp, by simp, by simp⟩
  | cons n ns ih =>
    intro idx s h
    obtain ⟨hn1, hn2⟩ := h n (by simp)
    obtain ⟨curves, hc, hlen, hidx, hlaps, hstart⟩ := ih (idx + 1) (s + n)
      (fun m hm => h m (by simp [hm]))
    have hnext : add (sub (add (fin (s : ℚ)) (fin (n : ℚ))) (fin 1)) (fin 1) =
        fin ((s + n : Nat) : ℚ) := by
      simp only [add, sub_fin, fin.injEq]
      push_cast
      ring
    have hor := orElse_natCast n hn1 (fin 0)
    have hcons := fallbackStints_cons (fin β) compounds (fin (n : ℚ))
      (ns.map ofNat) idx (fin (s : ℚ)) n
      (by rw [hor]; exact arrayFromLength_natCast n hn2)
    rw [hor, hnext, hc] at hcons
    refine ⟨fallbackStint (fin β) compounds idx (fin (s : ℚ)) (fin (n : ℚ)) n :: curves,
      by simpa using hcons, by simp [hlen], ?_, ?_, ?_⟩
    · intro k m hk
      cases k with
      | zero =>
        simp only [List.getElem?_cons_zero, Option.some.injEq] at hk
        subst hk
        simp
      | succ k =>
        simp only [List.getElem?_cons_succ] at hk
        have := hidx k m hk
        simp only [List.getElem?_cons_succ, this, List.take_succ_cons, List.sum_cons]
        have e1 : idx + 1 + k = idx + (k + 1) := by omega
        have e2 : s + n + (List.take k ns).sum = s + (n + (List.take k ns).sum) := by omega
        rw [e1, e2]
    · have hsplit : List.range' s (n + ns.sum) =
          List.range' s n ++ List.range' (s + n) ns.sum := by
        rw [List.range'_append_1, Nat.add_comm]
      rw [List.flatMap_cons, List.map_append, hlaps, List.sum_cons, hsplit, List.map_append]
      congr 1
      rw [stintPoints_fallbackStint, List.map_map, List.range'_eq_map_range, List.map_map]
      apply List.map_congr_left
      intro i _
      simp [ofNat]
    · intro c hc'
      rcases List.mem_cons.1 hc' with rfl | hc'
      · exact ⟨s, rfl, le_refl _, by simp only [List.sum_cons]; omega⟩
      · obtain ⟨a, ha, h1, h2⟩ := hstart c hc'
        exact ⟨a, ha, by omega, by simp only [List.sum_cons]; omega⟩

end StrategyCurveChart

namespace StrategyCurveChart

open JsNum

theorem buildFallbackCurves_eq (strategy : Strategy) (totalLaps : JsNum) :
    buildFallbackCurves strategy totalLaps =
      (fallbackStints (fallbackBaseline strategy totalLaps) strategy.compounds strategy.stints 0
        (fin 1)).map fun curves => curves.filter fun stint => le stint.start_lap totalLaps :=
  rfl

theorem fallbackBaseline_finite (strategy : Strategy) (t : ℚ)
    (hexp : strategy.expected_time ≠ pinf) :
    ∃ β : ℚ, fallbackBaseline strategy (fin t) = fin β := by
  unfold fallbackBaseline
  cases he : strategy.expected_time with
  | fin e =>
    by_cases h : 0 < e ∧ 0 < t
    · have ht : t ≠ 0 := ne_of_gt h.2
      exact ⟨e / t, by simp [gt, lt, h.1, h.2, div_fin _ _ ht]⟩
    · refine ⟨92, ?_⟩
      rcases not_and_or.1 h with h | h <;> simp [gt, lt, h]
  | pinf => exact absurd he hexp
  | ninf => exact ⟨92, by simp [gt, lt]⟩
  | nan => exact ⟨92, by simp [gt, lt]⟩

end StrategyCurveChart

namespace StrategyCurveChart

open JsNum

/-- Every synthesised curve is the object built by the callback for one stint length. -/
theorem fallbackStints_mem (baseline : JsNum) (compounds : List String) :
    ∀ (stints : List JsNum) (idx : Nat) (lap : JsNum) (curves : List StintCurve),
      fallbackStints baseline compounds stints idx lap = some curves →
      ∀ c ∈ curves, ∃ (k : Nat) (len lap0 : JsNum) (m : Nat), stints[k]? = some len ∧
        arrayFromLength (orElse len (fin 0)) = some m ∧
        c = fallbackStint baseline compounds (idx + k) lap0 (orElse len (fin 0)) m := by
  intro stints
  induction stints with
  | nil =>
    intro idx lap curves h c hc
    simp only [fallbackStints, Option.some.injEq] at h
    rw [← h] at hc
    simp at hc
  | cons len rest ih =>
    intro idx lap curves h c hc
    cases hm : arrayFromLength (orElse len (fin 0)) with
    | none => simp [fallbackStints, hm] at h
    | some m =>
      rw [fallbackStints_cons baseline compounds len rest idx lap m hm] at h
      simp only [Option.map_eq_some'] at h
      obtain ⟨more, hmore, rfl⟩ := h
      rcases List.mem_cons.1 hc with rfl | hc
      · exact ⟨0, len, lap, m, by simp, hm, rfl⟩
      · obtain ⟨k, len0, lap0, m0, hk, hm0, rfl⟩ := ih (idx + 1) _ more hmore c hc
        refine ⟨k + 1, len0, lap0, m0, by simpa using hk, hm0, ?_⟩
        rw [show idx + (k + 1) = idx + 1 + k by omega]

theorem arrayFromLength_natCast_eq (n m : Nat) (h : arrayFromLength (fin (n : ℚ)) = some m) :
    m = n := by
  simp only [arrayFromLength, Int.floor_natCast, Int.toNat_ofNat] at h
  split at h
  · exact (Option.some.inj h).symm
  · exact absurd h (by simp)

/-- The samples of a synthesised stint with a finite baseline, whatever the running lap. -/
theorem stintPoints_fallbackStint_lap (β : ℚ) (compounds : List String) (idx : Nat)
    (lap stintLen : JsNum) (n : Nat) :
    stintPoints (fallbackStint (fin β) compounds idx lap stintLen n) =
      (List.range n).map fun i =>
        { lap := add lap (ofNat i),
          compound := (fallbackStint (fin β) compounds idx lap stintLen n).compound,
          lapTime := fin (β + (i : ℚ) * (1/20)),
          tyreLife := if le stintLen (fin 1) then fin 100
            else sub (fin 100) (mul (div (ofNat i) (sub stintLen (fin 1))) (fin 100)) } := by
  apply List.ext_getElem?
  intro i
  have hfilter : (List.filter isFinite (List.map (fun i : Nat =>
      add (fin β) (mul (ofNat i) (fin (1/20)))) (List.range n))) =
      List.map (fun i : Nat => fin (β + (i : ℚ) * (1/20))) (List.range n) := by
    rw [List.filter_eq_self.2]
    · simp [add, mul, ofNat]
    · intro a ha
      simp only [List.mem_map] at ha
      obtain ⟨j, -, rfl⟩ := ha
      simp [add, mul, ofNat, isFinite]
  simp only [stintPoints, fallbackStint, firstPresent, Option.getD_some, hfilter,
    List.getElem?_map, List.getElem?_enum, List.get?_eq_getElem?]
  by_cases hi : i < n
  · simp [List.getElem?_range hi]
  · have hnone : (List.range n)[i]? = none :=
      List.getElem?_eq_none (by simp only [List.length_range]; omega)
    simp [hnone]

theorem overlong_fallback :
    buildFallbackCurves Examples.overlong (fin 3) = some Examples.overlongCurves := by
  have h := overlong_source
  simpa [sourceCurves, Examples.overlong] using h

end StrategyCurveChart

namespace StrategyCurveChart

open JsNum

/-- The array returned by the `.map` callback of `buildFallbackCurves` has one object per
stint length, at the same index. -/
theorem fallbackStints_getElem (baseline : JsNum) (compounds : List String) :
    ∀ (stints : List JsNum) (idx : Nat) (lap : JsNum) (all : List StintCurve),
      fallbackStints baseline compounds stints idx lap = some all →
      all.length = stints.length ∧
      ∀ (k : Nat) (len : JsNum), stints[k]? = some len →
        ∃ (lap0 : JsNum) (m : Nat), arrayFromLength (orElse len (fin 0)) = some m ∧
          all[k]? = some (fallbackStint baseline compounds (idx + k) lap0
            (orElse len (fin 0)) m) := by
  intro stints
  induction stints with
  | nil =>
    intro idx lap all h
    simp only [fallbackStints, Option.some.injEq] at h
    subst h
    exact ⟨rfl, by intro k len hk; simp at hk⟩
  | cons len rest ih =>
    intro idx lap all h
    cases hm : arrayFromLength (orElse len (fin 0)) with
    | none => simp [fallbackStints, hm] at h
    | some m =>
      rw [fallbackStints_cons baseline compounds len rest idx lap m hm] at h
      simp only [Option.map_eq_some'] at h
      obtain ⟨more, hmore, rfl⟩ := h
      obtain ⟨hlen, hidx⟩ := ih (idx + 1) _ more hmore
      refine ⟨by simp [hlen], ?_⟩
      intro k len0 hk
      cases k with
      | zero =>
        simp only [List.getElem?_cons_zero, Option.some.injEq] at hk
        subst hk
        exact ⟨lap, m, hm, by simp⟩
      | succ k =>
        simp only [List.getElem?_cons_succ] at hk
        obtain ⟨lap0, m0, hm0, hget⟩ := hidx k len0 hk
        refine ⟨lap0, m0, hm0, ?_⟩
        rw [List.getElem?_cons_succ, hget, show idx + (k + 1) = idx + 1 + k by omega]

/-- The tyre-life expression of the callback for a stint of `m >= 1` laps. -/
theorem tyreLife_natCast (m i : Nat) (hm : 1 ≤ m) :
    (if le (fin (m : ℚ)) (fin 1) then fin 100
      else sub (fin 100) (mul (div (ofNat i) (sub (fin (m : ℚ)) (fin 1))) (fin 100))) =
      fin (if m = 1 then 100 else 100 - 100 * (i : ℚ) / ((m : ℚ) - 1)) := by
  by_cases h1 : m = 1
  · subst h1; simp [le]
  · have h2 : 2 ≤ m := by omega
    have h3 : ¬ ((m : ℚ) ≤ 1) := by
      have : (2 : ℚ) ≤ (m : ℚ) := by exact_mod_cast h2
      intro h; linarith
    have h4 : (m : ℚ) - 1 ≠ 0 := by
      intro h; apply h3; linarith
    simp only [le, h3, decide_False, Bool.false_eq_true, if_false, h1, sub_fin, ofNat,
      div_fin _ _ h4, mul, fin.injEq]
    field_simp
    ring

end StrategyCurveChart

namespace StrategyCurveChart

open JsNum

theorem orElse_fin_of_one_le (q : ℚ) (hq : 1 ≤ q) (b : JsNum) : orElse (fin q) b = fin q := by
  have : q ≠ 0 := by intro h; rw [h] at hq; norm_num at hq
  simp [orElse, truthy, this]

theorem arrayFromLength_fin_eq (q : ℚ) (m : Nat) (h : arrayFromLength (fin q) = some m) :
    m = ⌊q⌋.toNat := by
  simp only [arrayFromLength] at h
  split at h
  · exact (Option.some.inj h).symm
  · exact absurd h (by simp)

/-- The tyre-life expression of the callback for a stint length `q >= 1`. -/
theorem tyreLife_fin (q : ℚ) (i : Nat) (hq : 1 ≤ q) :
    (if le (fin q) (fin 1) then fin 100
      else sub (fin 100) (mul (div (ofNat i) (sub (fin q) (fin 1))) (fin 100))) =
      fin (if q = 1 then 100 else 100 - 100 * (i : ℚ) / (q - 1)) := by
  by_cases h1 : q = 1
  · subst h1; simp [le]
  · have h3 : ¬ (q ≤ 1) := by
      intro h; exact h1 (le_antisymm h hq)
    have h4 : q - 1 ≠ 0 := by
      intro h; apply h1; linarith
    simp only [le, h3, decide_False, Bool.false_eq_true, if_false, h1, sub_fin, ofNat,
      div_fin _ _ h4, mul, fin.injEq]
    field_simp
    ring

end StrategyCurveChart

namespace StrategyCurveChart

open JsNum

/-- `Math.floor(totalLaps * k/100)` for a natural number of laps, in natural arithmetic. -/
theorem floor_mul_percent (T k : Nat) :
    floor (mul (ofNat T) (fin ((k : ℚ) / 100))) = ofNat (k * T / 100) := by
  have h : (T : ℚ) * ((k : ℚ) / 100) = ((k * T : Nat) : ℚ) / ((100 : Nat) : ℚ) := by
    push_cast; ring
  simp only [ofNat, mul, floor, h, Rat.floor_natCast_div_natCast, fin.injEq]
  norm_cast

/-- The grid laps of a natural `totalLaps`, from the array with both floors computed. -/
theorem gridLaps_ofNat (T : Nat) :
    gridLaps (ofNat T) =
      (([fin 1, ofNat (33 * T / 100), ofNat (66 * T / 100), ofNat T].enum.filter fun p =>
        gt p.2 (fin 0) && decide (indexOfFrom p.2
          [fin 1, ofNat (33 * T / 100), ofNat (66 * T / 100), ofNat T] 0 = some p.1)).map
        fun p => p.2) := by
  have h33 := floor_mul_percent T 33
  have h66 := floor_mul_percent T 66
  simp only [Nat.cast_ofNat] at h33 h66
  simp only [gridLaps, h33, h66]

end StrategyCurveChart

namespace SizeTracker

theorem measure_eq (prev : Size) (w h : ℚ) :
    measure prev w h = { width := ⌊w⌋, height := ⌊h⌋ } := by
  unfold measure sizeUpdater
  split
  · next hc =>
    obtain ⟨pw, ph⟩ := prev
    simp only at hc
    simp [hc.1, hc.2]
  · rfl

theorem usable_eq_false_iff (size : Size) :
    usable size = false ↔ (size.width < 50 ∨ size.height < 50) := by
  simp only [usable, StrategyCurveChart.MIN_VALID_SIZE, Bool.and_eq_false_iff,
    decide_eq_false_iff_not, not_le]

/-- What the retry effect leaves behind when it runs in a mounted tracker. -/
theorem retryEffect_inv (t : Tracker) (hm : t.mounted = true) :
    (retryEffect t).attached = t.attached ∧ (retryEffect t).mounted = true ∧
      (retryEffect t).size = t.size ∧
      ((retryEffect t).pending = true ↔ (t.attached = true ∧ usable t.size = false)) := by
  unfold retryEffect
  cases hu : usable t.size <;> cases ha : t.attached <;> simp [hm, ha]

/-- One step keeps the node and the invariant of the retry loop. -/
theorem step_inv (t : Tracker) (e : Event)
    (hinv : t.pending = true ↔
      (t.attached = true ∧ t.mounted = true ∧ usable t.size = false)) :
    (step t e).attached = t.attached ∧
      ((step t e).pending = true ↔
        ((step t e).attached = true ∧ (step t e).mounted = true ∧
          usable (step t e).size = false)) := by
  cases e with
  | mount =>
    by_cases hm : t.mounted = true
    · have hs : step t Event.mount = t := by simp [step, hm]
      rw [hs]
      exact ⟨rfl, hinv⟩
    · simp only [step, hm, Bool.false_eq_true, if_false]
      obtain ⟨h1, h2, h3, h4⟩ := retryEffect_inv
        { t with mounted := true, pending := false } rfl
      exact ⟨h1, by rw [h4, h1, h2, h3]; simp⟩
  | notify entries =>
    by_cases hm : (t.mounted && t.attached) = true
    · simp only [step, hm, Bool.not_true, Bool.false_eq_true, if_false]
      unfold afterSetSize
      split
      · exact ⟨rfl, hinv⟩
      · have hm' : t.mounted = true := by
          simp only [Bool.and_eq_true] at hm; exact hm.1
        obtain ⟨h1, h2, h3, h4⟩ := retryEffect_inv
          { t with size := observerCallback t.size entries, pending := false } hm'
        exact ⟨h1, by rw [h4, h1, h2, h3]; simp⟩
    · have hs : step t (Event.notify entries) = t := by simp [step, hm]
      rw [hs]
      exact ⟨rfl, hinv⟩
  | frame w h =>
    by_cases hp : t.pending = true
    · obtain ⟨ha, hm, -⟩ := hinv.1 hp
      simp only [step, hp, Bool.not_true, Bool.false_eq_true, if_false]
      unfold afterSetSize
      split
      · next hsame =>
        simp only [measure_eq] at hsame
        refine ⟨rfl, ?_⟩
        simp only [ha, hm, true_and, usable_eq_false_iff, StrategyCurveChart.MIN_VALID_SIZE,
          Bool.or_eq_true, decide_eq_true_eq, ← hsame.1, ← hsame.2]
      · obtain ⟨h1, h2, h3, h4⟩ := retryEffect_inv
          { t with size := measure t.size w h, pending := false } hm
        exact ⟨h1, by rw [h4, h1, h2, h3]; simp⟩
    · have hp' : t.pending = false := by simpa using hp
      have hs : step t (Event.frame w h) = t := by simp [step, hp']
      rw [hs]
      exact ⟨rfl, hinv⟩
  | teardown =>
    simp [step]

theorem run_inv (events : List Event) :
    ∀ t : Tracker,
      (t.pending = true ↔ (t.attached = true ∧ t.mounted = true ∧ usable t.size = false)) →
      (run t events).attached = t.attached ∧
        ((run t events).pending = true ↔
          ((run t events).attached = true ∧ (run t events).mounted = true ∧
            usable (run t events).size = false)) := by
  induction events with
  | nil => intro t hinv; exact ⟨rfl, hinv⟩
  | cons e rest ih =>
    intro t hinv
    obtain ⟨h1, h2⟩ := step_inv t e hinv
    obtain ⟨h3, h4⟩ := ih (step t e) h2
    exact ⟨by rw [← h1]; exact h3, h4⟩

theorem run_frames_of_not_pending (t : Tracker) (hp : t.pending = false)
    (frames : List (ℚ × ℚ)) :
    run t (frames.map fun f => Event.frame f.1 f.2) = t := by
  induction frames with
  | nil => rfl
  | cons f rest ih =>
    have hstep : step t (Event.frame f.1 f.2) = t := by simp [step, hp]
    simp only [run, List.map_cons, List.foldl_cons, hstep]
    exact ih

end SizeTracker

namespace App

theorem ensureTwoRows_eq (rows : Option (List Row)) :
    ensureTwoRows rows =
      [{ (rowAt rows 0).getD (mkRow 1 "" (DriverId.text "")) with id := 1 },
       { (rowAt rows 1).getD (mkRow 2 "" (DriverId.text "")) with id := 2 }] := by
  simp [ensureTwoRows, List.enum, List.enumFrom]

theorem hydrate_ids (rows : Option (List Row)) (teamsData : List String)
    (driversData : List Driver) :
    (hydrateRowsFromMetadata rows teamsData driversData).map (fun r => r.id) = [1, 2] := by
  simp [hydrateRowsFromMetadata, ensureTwoRows_eq, List.enum, List.enumFrom]

theorem markRunning_ids (rows : List Row) :
    (markRunning rows).map (fun r => r.id) = rows.map (fun r => r.id) := by
  simp [markRunning, List.map_map, Function.comp_def]

theorem applyUpdates_ids (rows : List Row) (updates : List RowUpdate) :
    (applyUpdates rows updates).map (fun r => r.id) = rows.map (fun r => r.id) := by
  simp only [applyUpdates, List.map_map]
  apply List.map_congr_left
  intro row _
  simp only [Function.comp_apply]
  cases h : updates.find? (fun u => decide (u.id = row.id)) with
  | none => rfl
  | some u =>
    have := List.find?_some h
    simpa using this

end App

namespace Time

open JsNum

/-- The safe number of seconds of a natural input is the input itself. -/
theorem safeSeconds_ofNat (n : Nat) :
    max2 (fin 0) (round (orElse (ofNat n) (fin 0))) = fin (n : ℚ) := by
  have hor : orElse (ofNat n) (fin 0) = fin (n : ℚ) := by
    by_cases h : n = 0
    · subst h; simp [orElse, truthy, ofNat]
    · have : (n : ℚ) ≠ 0 := by exact_mod_cast h
      simp [orElse, truthy, ofNat, this]
  have hfloor : ⌊(n : ℚ) + 1/2⌋ = (n : Int) := by
    rw [Int.floor_eq_iff]
    constructor
    · push_cast; linarith
    · push_cast; linarith
  rw [hor]
  simp only [round, hfloor, max2]
  congr 1
  simp

/-- The safe number of seconds of a negative input is 0. -/
theorem safeSeconds_neg (q : ℚ) (hq : q < 0) :
    max2 (fin 0) (round (orElse (fin q) (fin 0))) = fin 0 := by
  have hor : orElse (fin q) (fin 0) = fin q := by
    simp [orElse, truthy, ne_of_lt hq]
  have hfloor : ⌊q + 1/2⌋ ≤ 0 := by
    have : ⌊q + 1/2⌋ < 1 := by
      rw [Int.floor_lt]; push_cast; linarith
    omega
  rw [hor]
  simp only [round, max2]
  congr 1
  apply max_eq_left
  exact_mod_cast hfloor

theorem padStart2_digits : ∀ k : Nat, k < 60 →
    (padStart2 (toString k)).length = 2 ∧
    (k < 10 → padStart2 (toString k) = "0" ++ toString k) ∧
    (10 ≤ k → padStart2 (toString k) = toString k) := by
  decide

end Time

namespace StrategyCurveChart

open JsNum

/-- C1: for every chart input, whenever `dataModel` yields a data model its resolved domain
has finite bounds with `max > min` strictly (shared `yDomain` absent, valid or invalid; any
sample list, empty and single-point ones included); and `dataModel` does yield one as soon
as stint curves are supplied or every stint length is an admissible array length. -/
theorem dataModel_domain_max_gt_min (strategy : Strategy) (totalLaps : JsNum)
    (yDomain : Option Domain) :
    (∀ dm, dataModel strategy totalLaps yDomain = some dm →
      gt dm.domain.max dm.domain.min = true ∧
        dm.domain.min.isFinite = true ∧ dm.domain.max.isFinite = true) ∧
    ((strategy.stint_curves ≠ [] ∨
        ∀ len ∈ strategy.stints, (arrayFromLength (orElse len (fin 0))).isSome = true) →
      (dataModel strategy totalLaps yDomain).isSome = true) := by
  refine ⟨?_, dataModel_isSome strategy totalLaps yDomain⟩
  intro dm hdm
  obtain ⟨source, -, rfl⟩ := dataModel_eq_some strategy totalLaps yDomain dm hdm
  obtain ⟨a, b, hd, hab⟩ := dataModelOf_domain_valid source totalLaps yDomain
  rw [hd]
  simp [gt, lt, isFinite, hab]

/-- Witness for C1: a single-point chart with an invalid shared domain `{5, 5}` resolves to
the fallback domain `{89, 95}`. -/
theorem dataModel_domain_max_gt_min_witness :
    ∃ dm, dataModel Examples.singlePoint (fin 60) (some { min := fin 5, max := fin 5 }) = some dm
      ∧ dm.domain = { min := fin 89, max := fin 95 }
      ∧ gt dm.domain.max dm.domain.min = true := by
  have h : dataModel Examples.singlePoint (fin 60) (some { min := fin 5, max := fin 5 }) =
      some (dataModelOf Examples.singlePoint.stint_curves (fin 60)
        (some { min := fin 5, max := fin 5 })) := by
    simp [dataModel, sourceCurves, Examples.singlePoint, Examples.strategyOf]
  refine ⟨_, h, ?_, ((dataModel_domain_max_gt_min _ _ _).1 _ h).1⟩
  simp [dataModelOf, Examples.singlePoint, Examples.strategyOf, Examples.curveOf, stintPoints,
    firstPresent, isFinite, keepPoint, ge, le, add, ofNat, normalizeDomain, computeDomain,
    mathMin, mathMax, min2, max2, FALLBACK_DOMAIN, List.enum, List.enumFrom]

end StrategyCurveChart

namespace StrategyCurveChart

open JsNum

/-- C2 (fails on the code): for the stint curve starting at lap 10 with lap-times
`[NaN, 90]` and tyre-life `[100, 95]`, the built stint holds the single sample
`{ lap: 10, lapTime: 90, tyreLife: 100 }`: the lap-time of array index 1 is paired with
lap `start_lap + 0` and with `tyre_life_data[0]`, and there is no sample at lap 11. -/
theorem dataModel_zip_shifts_after_nonfinite :
    ∃ dm, dataModel (Examples.strategyOf [Examples.gapCurve]) (fin 60) none = some dm ∧
      dm.stints.map (fun s => s.points) =
        [[{ lap := fin 10, compound := some "SOFT", lapTime := fin 90, tyreLife := fin 100 }]] ∧
      ¬ ∃ s ∈ dm.stints, ∃ p ∈ s.points,
          p.lap = fin 11 ∧ p.lapTime = fin 90 ∧ p.tyreLife = fin 95 := by
  refine ⟨dataModelOf [Examples.gapCurve] (fin 60) none, ?_, ?_, ?_⟩
  · simp [dataModel, sourceCurves, Examples.strategyOf]
  · simp [dataModelOf, Examples.gapCurve, Examples.curveOf, stintPoints, firstPresent,
      isFinite, add, ofNat, List.enum, List.enumFrom]
  · simp [dataModelOf, Examples.gapCurve, Examples.curveOf, stintPoints, firstPresent,
      isFinite, add, ofNat, List.enum, List.enumFrom]

end StrategyCurveChart

namespace StrategyCurveChart

open JsNum

/-- C3 (fails on the code): stints `[2, 2]` in a race of 3 laps.  The filtered samples of
the data model stop at lap 3, but the scene keeps the sample of lap 4: it is a vertex of
the second polyline (at `x = 108`, right of the plot area of a 100 px wide chart), it is a
hover candidate, and a pointer at `x = 100` gets it as the nearest sample. -/
theorem chart_keeps_laps_past_totalLaps :
    ∃ dm c, dataModel Examples.overlong (fin 3) none = some dm ∧
      chart [] (fin 3) 100 100 dm = some c ∧
      dm.points.map (fun p => p.lap) = [fin 1, fin 2, fin 3] ∧
      c.stints.map (fun s => s.points.map fun p => p.lap) = [[fin 1, fin 2], [fin 3, fin 4]] ∧
      c.stints.map (fun s => s.path.map fun v => v.1) = [[fin 42, fin 64], [fin 86, fin 108]] ∧
      c.points.map (fun p => p.lap) = [fin 1, fin 2, fin 3, fin 4] ∧
      (nearestPoint c.points (fin 100)).map (fun p => p.lap) = some (fin 4) := by
  refine ⟨Examples.overlongModel, _, overlong_dataModel,
    chart_eq_some _ _ _ _ _ (by decide) (by simp [Examples.overlongModel]), ?_⟩
  norm_num [Examples.overlongModel, mapStint, mapPoint, xForLap_fin, yForTime_fin, isFinite,
    innerWidth, innerHeight, PADDING_left, PADDING_right, PADDING_top, PADDING_bottom,
    nearestPoint, nearestScan, JsNum.abs, lt, sub_fin]

end StrategyCurveChart

namespace StrategyCurveChart

open JsNum

/-- C4 (fails on the code): a strategy whose second stint curve has no numeric `start_lap`,
in a race of 3 laps on a 100 x 100 viewport.  The samples of that stint have lap `NaN`;
they are dropped from the hover candidates (whose coordinates are all finite), but the
vertex written into the path of the second polyline has `x = NaN`. -/
theorem chart_path_has_NaN_vertex :
    ∃ dm c, dataModel Examples.missingStart (fin 3) none = some dm ∧
      chart [] (fin 3) 100 100 dm = some c ∧
      c.stints.map (fun s => s.path.map fun v => v.1) = [[fin 42, fin 64], [nan]] ∧
      c.points.map (fun p => p.x) = [fin 42, fin 64] := by
  refine ⟨Examples.missingStartModel, _, missingStart_dataModel,
    chart_eq_some _ _ _ _ _ (by decide) (by simp [Examples.missingStartModel]), ?_⟩
  norm_num [Examples.missingStartModel, mapStint, mapPoint, xForLap_fin, yForTime_fin,
    isFinite, innerWidth, innerHeight, PADDING_left, PADDING_right, PADDING_top,
    PADDING_bottom, xForLap, le, sub, neg, add, div, mul]

end StrategyCurveChart

namespace StrategyCurveChart

open JsNum

/-- C5 (as stated, fails): the viewport 50 x 50 is valid, yet with `totalLaps = 2` the lap 2
maps to `x = 43`, not to `width - right = 36`, the value of
`left + (lap - 1)/(totalLaps - 1) * (width - left - right)`. -/
theorem xForLap_narrow_viewport_counterexample :
    layoutValid 50 50 = true ∧
      xForLap (fin 2) 50 (fin 2) = fin 43 ∧
      xForLap (fin 2) 50 (fin 2) ≠
        fin (PADDING_left + (2 - 1) / (2 - 1) * ((50 : ℚ) - PADDING_left - PADDING_right)) ∧
      xForLap (fin 2) 50 (fin 2) ≠ fin ((50 : ℚ) - PADDING_right) := by
  refine ⟨by decide, ?_, ?_, ?_⟩ <;>
    norm_num [xForLap_fin, innerWidth, PADDING_left, PADDING_right]

/-- C5 (amended): for every width (so for every valid viewport) and every finite
`totalLaps > 1`, `xForLap` is the linear map
`left + (lap - 1)/(totalLaps - 1) * max(1, width - left - right)`; it takes lap 1 to the left
padding edge 42 and lap `totalLaps` to `42 + max(1, width - 56)`, which is `width - 14`
exactly when `width >= 57`; for such widths it is the map of the claim. -/
theorem xForLap_linear (width : Int) (t lap : ℚ) (ht : 1 < t) :
    xForLap (fin t) width (fin lap) =
        fin (PADDING_left + (lap - 1) / (t - 1) *
          max 1 ((width : ℚ) - PADDING_left - PADDING_right)) ∧
      xForLap (fin t) width (fin 1) = fin 42 ∧
      xForLap (fin t) width (fin t) = fin (42 + max 1 ((width : ℚ) - 56)) ∧
      (xForLap (fin t) width (fin t) = fin ((width : ℚ) - 14) ↔ 57 ≤ width) ∧
      (57 ≤ width → xForLap (fin t) width (fin lap) =
        fin (PADDING_left + (lap - 1) / (t - 1) * ((width : ℚ) - PADDING_left - PADDING_right)))
    := by
  have h2 : t - 1 ≠ 0 := by linarith
  have hw : (57 ≤ width) ↔ (1 : ℚ) ≤ (width : ℚ) - 56 := by
    constructor
    · intro h
      have : (57 : ℚ) ≤ (width : ℚ) := by exact_mod_cast h
      linarith
    · intro h
      have : (57 : ℚ) ≤ (width : ℚ) := by linarith
      exact_mod_cast this
  have hpad : (width : ℚ) - PADDING_left - PADDING_right = (width : ℚ) - 56 := by
    norm_num [PADDING_left, PADDING_right]; ring
  refine ⟨?_, ?_, ?_, ?_, ?_⟩
  · rw [xForLap_fin t width lap ht, innerWidth]
  · rw [xForLap_fin t width 1 ht]; norm_num [PADDING_left]
  · rw [xForLap_fin t width t ht, innerWidth, hpad, div_self h2]; norm_num [PADDING_left]
  · rw [xForLap_fin t width t ht, innerWidth, hpad, div_self h2, hw]
    simp only [fin.injEq, PADDING_left, one_mul]
    constructor
    · intro h
      have : max 1 ((width : ℚ) - 56) = (width : ℚ) - 56 := by linarith
      rw [← this]; exact le_max_left _ _
    · intro h
      rw [max_eq_right h]; ring
  · intro h
    rw [xForLap_fin t width lap ht, innerWidth, hpad, max_eq_right (hw.1 h)]

/-- Witness for C5 (amended): a 600 px wide chart of a 60-lap race maps lap 60 to
`x = 586 = 600 - 14`. -/
theorem xForLap_linear_witness :
    (1 : ℚ) < 60 ∧ xForLap (fin 60) 600 (fin 60) = fin (42 + max 1 (((600 : Int) : ℚ) - 56)) :=
  ⟨by norm_num, (xForLap_linear 600 60 60 (by norm_num)).2.2.1⟩

end StrategyCurveChart

namespace StrategyCurveChart

open JsNum

/-- C6 (as stated, fails): for the lap-times `[90, 90.1]` the computed domain is
`{ 89.975, 90.125 }`, of width `0.15 < 0.5`. -/
theorem computeDomain_width_counterexample :
    computeDomain [fin 90, fin (901/10)] FALLBACK_DOMAIN =
        { min := fin (3599/40), max := fin (721/8) } ∧
      lt (sub (computeDomain [fin 90, fin (901/10)] FALLBACK_DOMAIN).max
              (computeDomain [fin 90, fin (901/10)] FALLBACK_DOMAIN).min) (fin (1/2)) = true := by
  have h : computeDomain [fin 90, fin (901/10)] FALLBACK_DOMAIN =
      { min := fin (3599/40), max := fin (721/8) } := by
    norm_num [computeDomain, mathMin, mathMax, min2, max2, isFinite, le, sub_fin, mul, add]
  refine ⟨h, ?_⟩
  rw [h]
  norm_num [sub_fin, lt]

/-- C6 (amended): for every list of finite lap-times with at least two distinct values,
least value `lo` and greatest value `hi`, the domain returned by `computeDomain` has width
`(hi - lo) + 0.1 * max(0.5, hi - lo)`: the span is raised to 0.5 only to size the 5% margin.
The width always exceeds 0.05, and it is at least 0.5 exactly when `hi - lo >= 0.45`. -/
theorem computeDomain_width (qs : List ℚ) (lo hi : ℚ) (hlo : lo ∈ qs) (hhi : hi ∈ qs)
    (hb : ∀ v ∈ qs, lo ≤ v ∧ v ≤ hi) (hd : ∃ a ∈ qs, ∃ b ∈ qs, a ≠ b) :
    sub (computeDomain (qs.map fin) FALLBACK_DOMAIN).max
        (computeDomain (qs.map fin) FALLBACK_DOMAIN).min =
      fin ((hi - lo) + 1/10 * max (1/2) (hi - lo)) ∧
    1/20 < (hi - lo) + 1/10 * max (1/2) (hi - lo) ∧
    (1/2 ≤ (hi - lo) + 1/10 * max (1/2) (hi - lo) ↔ 9/20 ≤ hi - lo) := by
  have hlt : lo < hi := by
    obtain ⟨a, ha, b, hb', hne⟩ := hd
    rcases lt_or_gt_of_ne hne with h | h
    · exact lt_of_le_of_lt (hb a ha).1 (lt_of_lt_of_le h (hb b hb').2)
    · exact lt_of_le_of_lt (hb b hb').1 (lt_of_lt_of_le h (hb a ha).2)
  rw [computeDomain_of_bounds qs lo hi hlo hhi hb, if_neg (not_le.2 hlt)]
  refine ⟨?_, ?_, ?_⟩
  · simp only [sub_fin, fin.injEq]; ring
  · have : (1/2 : ℚ) ≤ max (1/2) (hi - lo) := le_max_left _ _
    linarith
  · rcases le_total (hi - lo) (1/2) with h | h
    · rw [max_eq_left h]; constructor <;> intro h' <;> linarith
    · rw [max_eq_right h]; constructor <;> intro h' <;> linarith

/-- Witness for C6 (amended): the lap-times `[90, 90.1]` give a domain of width 0.15. -/
theorem computeDomain_width_witness :
    sub (computeDomain ([90, 901/10].map fin) FALLBACK_DOMAIN).max
        (computeDomain ([90, 901/10].map fin) FALLBACK_DOMAIN).min =
      fin (((901/10 : ℚ) - 90) + 1/10 * max (1/2) ((901/10 : ℚ) - 90)) :=
  (computeDomain_width [90, 901/10] 90 (901/10) (by simp) (by simp)
    (by intro v hv; simp at hv; rcases hv with rfl | rfl <;> norm_num)
    ⟨90, by simp, 901/10, by simp, by norm_num⟩).1

end StrategyCurveChart

namespace StrategyCurveChart

open JsNum

/-- C7: for every list of finite lap-times, `computeDomain` with the default fallback
returns exactly `{ min: 89, max: 95 }` when the list is empty or all its values are equal,
and otherwise `{ min: lo - m, max: hi + m }` with `lo`, `hi` the least and greatest values
and `m = 0.05 * max(0.5, hi - lo)`. -/
theorem computeDomain_spec (qs : List ℚ) :
    ((qs = [] ∨ ∀ a ∈ qs, ∀ b ∈ qs, a = b) →
      computeDomain (qs.map fin) FALLBACK_DOMAIN = { min := fin 89, max := fin 95 }) ∧
    (∀ lo hi, lo ∈ qs → hi ∈ qs → (∀ v ∈ qs, lo ≤ v ∧ v ≤ hi) →
      (∃ a ∈ qs, ∃ b ∈ qs, a ≠ b) →
      computeDomain (qs.map fin) FALLBACK_DOMAIN =
        { min := fin (lo - 1/20 * max (1/2) (hi - lo)),
          max := fin (hi + 1/20 * max (1/2) (hi - lo)) }) := by
  constructor
  · rintro (rfl | hall)
    · simp [computeDomain, FALLBACK_DOMAIN]
    · by_cases hne : qs = []
      · subst hne; simp [computeDomain, FALLBACK_DOMAIN]
      · obtain ⟨lo, hi, hlo, hhi, hb⟩ := exists_bounds_of_ne_nil qs hne
        rw [computeDomain_of_bounds qs lo hi hlo hhi hb, if_pos (le_of_eq (hall hi hhi lo hlo))]
        rfl
  · intro lo hi hlo hhi hb ⟨a, ha, b, hb', hne⟩
    have hlt : lo < hi := by
      rcases lt_or_gt_of_ne hne with h | h
      · exact lt_of_le_of_lt (hb a ha).1 (lt_of_lt_of_le h (hb b hb').2)
      · exact lt_of_le_of_lt (hb b hb').1 (lt_of_lt_of_le h (hb a ha).2)
    rw [computeDomain_of_bounds qs lo hi hlo hhi hb, if_neg (not_le.2 hlt)]

/-- Witness for C7: the constant list `[90, 90]` gives the fallback `{ 89, 95 }`, and the
list `[90, 92, 91]` gives `{ 90 - 0.1, 92 + 0.1 }`. -/
theorem computeDomain_spec_witness :
    computeDomain ([90, 90].map fin) FALLBACK_DOMAIN = { min := fin 89, max := fin 95 } ∧
    computeDomain ([90, 92, 91].map fin) FALLBACK_DOMAIN =
      { min := fin (90 - 1/20 * max (1/2) (92 - 90)),
        max := fin (92 + 1/20 * max (1/2) (92 - 90)) } :=
  ⟨(computeDomain_spec [90, 90]).1
      (Or.inr (by intro a ha b hb; simp at ha hb; rw [ha, hb])),
   (computeDomain_spec [90, 92, 91]).2 90 92 (by simp) (by simp)
      (by intro v hv; simp at hv; rcases hv with rfl | rfl | rfl <;> norm_num)
      ⟨90, by simp, 92, by simp, by norm_num⟩⟩

end StrategyCurveChart

namespace StrategyCurveChart

open JsNum

/-- C8: for every chart input whose data model is built, the resolved domain is the
supplied shared `yDomain` itself whenever `yDomain` has finite `min` and `max` with
`max > min`, and is `computeDomain` of the chart's own filtered sample lap-times whenever
`yDomain` is absent, has a non-finite bound, or has `max <= min`; the data model is built as
soon as stint curves are supplied or every stint length is an admissible array length. -/
theorem dataModel_domain_resolution (strategy : Strategy) (totalLaps : JsNum)
    (yDomain : Option Domain) :
    (∀ dm, dataModel strategy totalLaps yDomain = some dm →
      (∀ d, yDomain = some d → d.min.isFinite = true → d.max.isFinite = true →
        gt d.max d.min = true → dm.domain = d) ∧
      ((yDomain = none ∨ ∃ d, yDomain = some d ∧
          (d.min.isFinite = false ∨ d.max.isFinite = false ∨ le d.max d.min = true)) →
        dm.domain = computeDomain (dm.points.map fun p => p.lapTime) FALLBACK_DOMAIN)) ∧
    ((strategy.stint_curves ≠ [] ∨
        ∀ len ∈ strategy.stints, (arrayFromLength (orElse len (fin 0))).isSome = true) →
      (dataModel strategy totalLaps yDomain).isSome = true) := by
  refine ⟨?_, dataModel_isSome strategy totalLaps yDomain⟩
  intro dm hdm
  obtain ⟨source, -, rfl⟩ := dataModel_eq_some strategy totalLaps yDomain dm hdm
  rw [dataModelOf_domain_eq]
  constructor
  · rintro ⟨dmin, dmax⟩ rfl hmin hmax hgt
    obtain ⟨a, rfl⟩ := exists_fin_of_isFinite hmin
    obtain ⟨b, rfl⟩ := exists_fin_of_isFinite hmax
    have hab : a < b := by simpa [gt, lt] using hgt
    simp [normalizeDomain, isFinite, le, not_le.2 hab]
  · rintro (rfl | ⟨d, rfl, h | h | h⟩)
    · simp [normalizeDomain]
    · simp [normalizeDomain, h]
    · simp [normalizeDomain, h]
    · simp [normalizeDomain, h]

/-- Witness for C8: with the valid shared domain `{ 80, 100 }` the single-point chart
resolves to it; with no shared domain it resolves to `computeDomain` of its own lap-times. -/
theorem dataModel_domain_resolution_witness :
    (∃ dm, dataModel Examples.singlePoint (fin 60) (some { min := fin 80, max := fin 100 })
        = some dm ∧ dm.domain = { min := fin 80, max := fin 100 }) ∧
    (∃ dm, dataModel Examples.singlePoint (fin 60) none = some dm ∧
      dm.domain = computeDomain (dm.points.map fun p => p.lapTime) FALLBACK_DOMAIN) := by
  have h1 : dataModel Examples.singlePoint (fin 60) (some { min := fin 80, max := fin 100 }) =
      some (dataModelOf Examples.singlePoint.stint_curves (fin 60)
        (some { min := fin 80, max := fin 100 })) := by
    simp [dataModel, sourceCurves, Examples.singlePoint, Examples.strategyOf]
  have h2 : dataModel Examples.singlePoint (fin 60) none =
      some (dataModelOf Examples.singlePoint.stint_curves (fin 60) none) := by
    simp [dataModel, sourceCurves, Examples.singlePoint, Examples.strategyOf]
  exact ⟨⟨_, h1, ((dataModel_domain_resolution _ _ _).1 _ h1).1 _ rfl rfl rfl
      (by norm_num [gt, lt])⟩,
    ⟨_, h2, ((dataModel_domain_resolution _ _ _).1 _ h2).2 (Or.inl rfl)⟩⟩

end StrategyCurveChart

namespace DriverRow

open JsNum StrategyCurveChart

theorem mem_values_iff (strategies : List Strategy) (q : ℚ) :
    fin q ∈ values strategies ↔ IsRowLapTime strategies q := by
  simp only [values, List.mem_flatMap, List.mem_filter, IsRowLapTime]
  constructor
  · rintro ⟨s, hs, c, hc, hq, -⟩
    refine ⟨s, hs, c, hc, ?_⟩
    cases h : c.lap_time_data with
    | none => simp [h] at hq
    | some l => exact ⟨l, rfl, by simpa [h] using hq⟩
  · rintro ⟨s, hs, c, hc, l, hl, hq⟩
    exact ⟨s, hs, c, hc, by simpa [hl] using hq, rfl⟩

theorem values_isFinite (strategies : List Strategy) :
    ∀ x ∈ values strategies, x.isFinite = true := by
  intro x hx
  simp only [values, List.mem_flatMap, List.mem_filter] at hx
  obtain ⟨s, -, c, -, -, h⟩ := hx
  exact h

/-- The part of the shared domain that holds: with `lo` the least and `hi` the greatest of
the finite lap-times the stint curves of the row carry under the key `lap_time_data`, the
shared domain of `DriverRow` is `{ min: lo - p, max: hi + p }` with
`p = 0.05 * max(0.5, hi - lo)`; it strictly contains every one of these lap-times, and every
chart of the row whose data model is built resolves to exactly this domain.  Lap-times
carried under the key `lapTimeData` do not count. -/
theorem yDomain_shared (strategies : List Strategy) (lo hi : ℚ)
    (hlo : IsRowLapTime strategies lo) (hhi : IsRowLapTime strategies hi)
    (hb : ∀ q, IsRowLapTime strategies q → lo ≤ q ∧ q ≤ hi) :
    yDomain strategies = some { min := fin (lo - 1/20 * max (1/2) (hi - lo)),
                                max := fin (hi + 1/20 * max (1/2) (hi - lo)) } ∧
    (∀ q, IsRowLapTime strategies q →
      lo - 1/20 * max (1/2) (hi - lo) < q ∧ q < hi + 1/20 * max (1/2) (hi - lo)) ∧
    (∀ s ∈ strategies, ∀ totalLaps dm,
      dataModel s totalLaps (yDomain strategies) = some dm →
      dm.domain = { min := fin (lo - 1/20 * max (1/2) (hi - lo)),
                    max := fin (hi + 1/20 * max (1/2) (hi - lo)) }) ∧
    (∀ s ∈ strategies, ∀ totalLaps,
      (s.stint_curves ≠ [] ∨
        ∀ len ∈ s.stints, (arrayFromLength (orElse len (fin 0))).isSome = true) →
      (dataModel s totalLaps (yDomain strategies)).isSome = true) := by
  have hpos : (0 : ℚ) < max (1/2) (hi - lo) := lt_of_lt_of_le (by norm_num) (le_max_left _ _)
  have hle : lo ≤ hi := (hb lo hlo).2
  obtain ⟨qs, hqs⟩ := exists_map_fin_of_forall_isFinite _ (values_isFinite strategies)
  have hmem : ∀ q, q ∈ qs ↔ IsRowLapTime strategies q := by
    intro q
    rw [← mem_values_iff, hqs]
    simp
  obtain ⟨hmin, hmax⟩ := mathMin_mathMax_of_bounds qs lo hi ((hmem lo).2 hlo) ((hmem hi).2 hhi)
    (fun v hv => hb v ((hmem v).1 hv))
  have hne : qs ≠ [] := List.ne_nil_of_mem ((hmem lo).2 hlo)
  have hy : yDomain strategies = some { min := fin (lo - 1/20 * max (1/2) (hi - lo)),
                                        max := fin (hi + 1/20 * max (1/2) (hi - lo)) } := by
    unfold yDomain
    simp only [hqs, hmin, hmax, List.length_map, List.length_eq_zero, hne, if_false, sub_fin,
      max2, mul, add]
    simp [mul_comm]
  refine ⟨hy, ?_, ?_, ?_⟩
  · intro q hq
    obtain ⟨h1, h2⟩ := hb q hq
    constructor <;> linarith
  · intro s _ totalLaps dm hdm
    obtain ⟨source, -, rfl⟩ := dataModel_eq_some s totalLaps _ dm hdm
    rw [dataModelOf_domain_eq, hy]
    have : ¬ (hi + 1/20 * max (1/2) (hi - lo) ≤ lo - 1/20 * max (1/2) (hi - lo)) := by
      intro h; linarith
    simp only [normalizeDomain, isFinite, le, Bool.not_true, Bool.or_self, Bool.false_eq_true,
      if_false, decide_eq_true_eq, this]
  · intro s _ totalLaps h
    exact dataModel_isSome s totalLaps _ h

/-- For a row of two strategies with lap-times `[88, 91]` and `[93, 96]`, both under the key
`lap_time_data`, the shared domain is `{ 87.6, 96.4 }`, and both charts resolve to it. -/
theorem yDomain_shared_witness :
    yDomain Examples.twoRanges = some { min := fin (438/5), max := fin (482/5) } ∧
    ∀ s ∈ Examples.twoRanges, ∀ dm,
      dataModel s (fin 60) (yDomain Examples.twoRanges) = some dm →
      dm.domain = { min := fin (438/5), max := fin (482/5) } := by
  have hmem : ∀ q, IsRowLapTime Examples.twoRanges q ↔ q = 88 ∨ q = 91 ∨ q = 93 ∨ q = 96 := by
    intro q
    simp [IsRowLapTime, Examples.twoRanges, Examples.strategyOf, Examples.curveOf, or_assoc]
  have h := yDomain_shared Examples.twoRanges 88 96 ((hmem 88).2 (by simp))
    ((hmem 96).2 (by simp))
    (by intro q hq; rcases (hmem q).1 hq with rfl | rfl | rfl | rfl <;> norm_num)
  have e1 : (88 : ℚ) - 1/20 * max (1/2) (96 - 88) = 438/5 := by
    rw [max_eq_right (by norm_num)]; norm_num
  have e2 : (96 : ℚ) + 1/20 * max (1/2) (96 - 88) = 482/5 := by
    rw [max_eq_right (by norm_num)]; norm_num
  rw [e1, e2] at h
  exact ⟨h.1, fun s hs dm hdm => h.2.2.1 s hs (fin 60) dm hdm⟩

/-- C9 (fails on the code): the chart plots the lap-times of `lap_time_data || lapTimeData`,
but the shared domain of `DriverRow` is computed from `lap_time_data` alone.  For the row
with lap-times `[88, 91]` under `lap_time_data` and `[93, 96]` under `lapTimeData` the shared
domain is `{ 87.85, 91.15 }`, not `{ 87.6, 96.4 }`; the second chart resolves to it and plots
the lap-times 93 and 96, both above its maximum.  For the row with both strategies under
`lapTimeData` the shared domain is `null` and the two charts resolve to the different
domains `{ 87.85, 91.15 }` and `{ 92.85, 96.15 }`. -/
theorem yDomain_ignores_lapTimeData :
    yDomain Examples.mixedKeys = some { min := fin (1757/20), max := fin (1823/20) } ∧
    yDomain Examples.mixedKeys ≠ some { min := fin (438/5), max := fin (482/5) } ∧
    (∃ dm, dataModel Examples.camelHigh (fin 60) (yDomain Examples.mixedKeys) = some dm ∧
      dm.domain = { min := fin (1757/20), max := fin (1823/20) } ∧
      dm.points = Examples.camelHighPoints ∧
      ∀ p ∈ dm.points, ∃ q : ℚ, p.lapTime = fin q ∧ (1823/20 : ℚ) < q) ∧
    yDomain Examples.camelKeys = none ∧
    (∃ dm, dataModel Examples.camelLow (fin 60) (yDomain Examples.camelKeys) = some dm ∧
      dm.domain = { min := fin (1757/20), max := fin (1823/20) }) ∧
    (∃ dm, dataModel Examples.camelHigh (fin 60) (yDomain Examples.camelKeys) = some dm ∧
      dm.domain = { min := fin (1857/20), max := fin (1923/20) }) := by
  have hmixed : yDomain Examples.mixedKeys =
      some { min := fin (1757/20), max := fin (1823/20) } := by
    simp [yDomain, values, Examples.mixedKeys, Examples.snakeLow, Examples.camelHigh,
      Examples.strategyOf, Examples.curveOf, Examples.camelCurve, isFinite, mathMin, mathMax,
      min2, max2, sub, neg, add, mul]
    norm_num
  have hcamel : yDomain Examples.camelKeys = none := by
    simp [yDomain, values, Examples.camelKeys, Examples.camelLow, Examples.camelHigh,
      Examples.strategyOf, Examples.camelCurve]
  have hpoints : ∀ yd, (dataModelOf [Examples.camelCurve "HARD" (fin 1) [fin 93, fin 96]
      [fin 100, fin 0]] (fin 60) yd).points = Examples.camelHighPoints := by
    intro yd
    simp only [dataModelOf, Examples.camelCurve, Examples.camelHighPoints, stintPoints,
      firstPresent, Option.getD_some, isFinite, List.filter_cons_of_pos, List.filter_nil,
      List.enum, List.enumFrom, List.map_cons, List.map_nil, List.flatMap_cons,
      List.flatMap_nil, List.append_nil, add, ofNat, List.get?_eq_getElem?,
      List.getElem?_cons_zero, List.getElem?_cons_succ]
    norm_num [keepPoint_fin]
  have hpointsLow : ∀ yd, ((dataModelOf [Examples.camelCurve "SOFT" (fin 1) [fin 88, fin 91]
      [fin 100, fin 0]] (fin 60) yd).points.map fun p => p.lapTime) =
      [(88 : ℚ), 91].map fin := by
    intro yd
    simp only [dataModelOf, Examples.camelCurve, stintPoints,
      firstPresent, Option.getD_some, isFinite, List.filter_cons_of_pos, List.filter_nil,
      List.enum, List.enumFrom, List.map_cons, List.map_nil, List.flatMap_cons,
      List.flatMap_nil, List.append_nil, add, ofNat, List.get?_eq_getElem?,
      List.getElem?_cons_zero, List.getElem?_cons_succ]
    norm_num [keepPoint_fin]
  refine ⟨hmixed, ?_, ?_, hcamel, ?_, ?_⟩
  · rw [hmixed]
    intro h
    simp only [Option.some.injEq, Domain.mk.injEq, fin.injEq] at h
    norm_num at h
  · refine ⟨dataModelOf [Examples.camelCurve "HARD" (fin 1) [fin 93, fin 96]
      [fin 100, fin 0]] (fin 60) (yDomain Examples.mixedKeys), ?_, ?_, hpoints _, ?_⟩
    · simp [dataModel, sourceCurves, Examples.camelHigh, Examples.strategyOf]
    · rw [dataModelOf_domain_eq, hmixed]
      simp only [normalizeDomain, isFinite, le]
      norm_num
    · rw [hpoints]
      intro p hp
      simp only [Examples.camelHighPoints, List.mem_cons, List.mem_singleton,
        List.not_mem_nil, or_false] at hp
      rcases hp with rfl | rfl
      · exact ⟨93, rfl, by norm_num⟩
      · exact ⟨96, rfl, by norm_num⟩
  · refine ⟨dataModelOf [Examples.camelCurve "SOFT" (fin 1) [fin 88, fin 91]
      [fin 100, fin 0]] (fin 60) (yDomain Examples.camelKeys), ?_, ?_⟩
    · simp [dataModel, sourceCurves, Examples.camelLow, Examples.strategyOf]
    · rw [hcamel, dataModelOf_domain_eq, hpointsLow,
        computeDomain_of_bounds [88, 91] 88 91 (by simp) (by simp)
          (by intro v hv; simp at hv; rcases hv with rfl | rfl <;> norm_num)]
      simp only [normalizeDomain]
      rw [max_eq_right (by norm_num)]
      norm_num
  · refine ⟨dataModelOf [Examples.camelCurve "HARD" (fin 1) [fin 93, fin 96]
      [fin 100, fin 0]] (fin 60) (yDomain Examples.camelKeys), ?_, ?_⟩
    · simp [dataModel, sourceCurves, Examples.camelHigh, Examples.strategyOf]
    · have hl : ((dataModelOf [Examples.camelCurve "HARD" (fin 1) [fin 93, fin 96]
          [fin 100, fin 0]] (fin 60) none).points.map
          fun p => p.lapTime) = [(93 : ℚ), 96].map fin := by
        rw [hpoints]; simp [Examples.camelHighPoints]
      rw [hcamel, dataModelOf_domain_eq, hl,
        computeDomain_of_bounds [93, 96] 93 96 (by simp) (by simp)
          (by intro v hv; simp at hv; rcases hv with rfl | rfl <;> norm_num)]
      simp only [normalizeDomain]
      rw [max_eq_right (by norm_num)]
      norm_num

end DriverRow

namespace StrategyCurveChart

open JsNum

/-- C10: for every scene built from a chart's data model and every finite pointer position
`r`, the scan of `handleMove` returns a sample `p` of `chart.points` whose horizontal
distance `|p.x - r|` is minimal over all samples, and every sample before it in sequence
order is strictly farther (the first sample attaining the minimum is returned).  For a
pointer event over a target of non-zero width, `handleMove` sets the hover to the sample
found for `relX = (clientX - rect.left) / rect.width * width`. -/
theorem handleMove_nearest_first_minimal (strategy : Strategy) (totalLaps : JsNum)
    (yDomain : Option Domain) (dm : DataModel) (pit_windows : List PitWindow)
    (width height : Int) (c : Chart)
    (hdm : dataModel strategy totalLaps yDomain = some dm)
    (hc : chart pit_windows totalLaps width height dm = some c) :
    (∀ r : ℚ, ∃ i p, c.points[i]? = some p ∧ nearestPoint c.points (fin r) = some p ∧
      (∀ q ∈ c.points, le (JsNum.abs (sub p.x (fin r))) (JsNum.abs (sub q.x (fin r))) = true) ∧
      (∀ (j : Nat) (q : MappedPoint), j < i → c.points[j]? = some q →
        lt (JsNum.abs (sub p.x (fin r))) (JsNum.abs (sub q.x (fin r))) = true)) ∧
    (∀ clientX rectLeft rectWidth : ℚ, rectWidth ≠ 0 →
      ∃ hover, handleMove (some c) (layoutValid width height) width
          (fin clientX) (fin rectLeft) (fin rectWidth) = some hover ∧
        nearestPoint c.points (fin ((clientX - rectLeft) / rectWidth * (width : ℚ)))
          = some hover.nearest) := by
  obtain ⟨hne, hfin⟩ := chart_points_ne_nil strategy totalLaps yDomain dm pit_windows width
    height c hdm hc
  obtain ⟨hl, -, -⟩ := chart_some_inv _ _ _ _ _ _ hc
  constructor
  · intro r
    exact nearestPoint_spec c.points r hne (fun p hp => (hfin p hp).1)
  · intro clientX rectLeft rectWidth hw
    obtain ⟨i, p, -, hp, -, -⟩ := nearestPoint_spec c.points
      ((clientX - rectLeft) / rectWidth * (width : ℚ)) hne (fun p hp => (hfin p hp).1)
    refine ⟨Hover.mk p (List.find? (fun win => ge p.lap win.lapMin && le p.lap win.lapMax)
      c.pitWindows), ?_, hp⟩
    simp [handleMove, hne, hl, truthy, hw, sub_fin, div_fin _ _ hw, mul, ofInt, hp]

/-- Witness for C10: on the scene with samples at `x = 42, 64, 86, 108`, the pointer at
`x = 53`, half-way between the first two, gets the first sample. -/
theorem handleMove_nearest_first_minimal_witness :
    (∃ i p, Examples.overlongChart.points[i]? = some p ∧
      nearestPoint Examples.overlongChart.points (fin 53) = some p ∧
      (∀ q ∈ Examples.overlongChart.points,
        le (JsNum.abs (sub p.x (fin 53))) (JsNum.abs (sub q.x (fin 53))) = true) ∧
      (∀ (j : Nat) (q : MappedPoint), j < i → Examples.overlongChart.points[j]? = some q →
        lt (JsNum.abs (sub p.x (fin 53))) (JsNum.abs (sub q.x (fin 53))) = true)) ∧
    (nearestPoint Examples.overlongChart.points (fin 53)).map (fun p => p.lap)
      = some (fin 1) :=
  ⟨(handleMove_nearest_first_minimal Examples.overlong (fin 3) none Examples.overlongModel []
      100 100 Examples.overlongChart overlong_dataModel overlong_chart).1 53,
   by norm_num [Examples.overlongChart, nearestPoint, nearestScan, JsNum.abs, lt, sub_fin]⟩

end StrategyCurveChart

namespace StrategyCurveChart

open JsNum

/-- C11 (as stated, fails): two stint curves share lap 2, so the scene has two hover
candidates at `x = 64`; the pointer at the `x` of the second one gets the first one. -/
theorem nearestPoint_round_trip_counterexample :
    ∃ dm c s p, dataModel Examples.sharedLap (fin 3) none = some dm ∧
      chart [] (fin 3) 100 100 dm = some c ∧
      s = { lap := fin 2, compound := some "HARD", lapTime := fin 91, tyreLife := fin 100,
            x := fin 64, y := fin 46 } ∧
      s ∈ c.points ∧ nearestPoint c.points s.x = some p ∧ p.compound = some "SOFT" ∧
      nearestPoint c.points s.x ≠ some s := by
  refine ⟨Examples.sharedLapModel, _, _, ⟨fin 2, some "SOFT", fin 91, fin 50, fin 64, fin 46⟩,
    sharedLap_dataModel,
    chart_eq_some _ _ _ _ _ (by decide) (by simp [Examples.sharedLapModel]), rfl, ?_⟩
  norm_num [Examples.sharedLapModel, mapStint, mapPoint, xForLap_fin, yForTime_fin, isFinite,
    innerWidth, innerHeight, PADDING_left, PADDING_right, PADDING_top, PADDING_bottom,
    nearestPoint, nearestScan, JsNum.abs, lt, sub_fin]

/-- C11 (amended): for every scene built from a chart's data model and every hover
candidate `s` (at index `i`), the hover locator run with the pointer at `s.x` returns the
first candidate in sequence order whose `x` equals `s.x`; it sits at index `i` exactly when
no earlier candidate has the same `x`, and then it is `s` itself. -/
theorem nearestPoint_round_trip (strategy : Strategy) (totalLaps : JsNum)
    (yDomain : Option Domain) (dm : DataModel) (pit_windows : List PitWindow)
    (width height : Int) (c : Chart)
    (hdm : dataModel strategy totalLaps yDomain = some dm)
    (hc : chart pit_windows totalLaps width height dm = some c)
    (i : Nat) (s : MappedPoint) (hs : c.points[i]? = some s) :
    ∃ (j : Nat) (p : MappedPoint), j ≤ i ∧ c.points[j]? = some p ∧
      nearestPoint c.points s.x = some p ∧ p.x = s.x ∧
      (∀ (k : Nat) (q : MappedPoint), k < j → c.points[k]? = some q → q.x ≠ s.x) ∧
      (j = i ↔ ∀ (k : Nat) (q : MappedPoint), k < i → c.points[k]? = some q → q.x ≠ s.x) ∧
      (j = i → p = s) := by
  obtain ⟨hne, hfin⟩ := chart_points_ne_nil strategy totalLaps yDomain dm pit_windows width
    height c hdm hc
  have hsm : s ∈ c.points := List.getElem?_mem hs
  obtain ⟨r, hr⟩ := exists_fin_of_isFinite (hfin s hsm).1
  obtain ⟨j, p, hj, hp, hmin, hfirst⟩ := nearestPoint_spec c.points r hne
    (fun p hp => (hfin p hp).1)
  have hpm : p ∈ c.points := List.getElem?_mem hj
  obtain ⟨px, hpx⟩ := exists_fin_of_isFinite (hfin p hpm).1
  have hzero : ∀ q : MappedPoint, ∀ qx : ℚ, q.x = fin qx →
      (JsNum.abs (sub q.x (fin r)) = fin |qx - r|) := by
    intro q qx hq
    simp [hq, sub_fin, JsNum.abs]
  have hpr : px = r := by
    have h := hmin s hsm
    rw [hzero p px hpx, hzero s r hr] at h
    simp only [le, sub_self, abs_zero, decide_eq_true_eq] at h
    have := abs_nonneg (px - r)
    have h0 : |px - r| = 0 := le_antisymm h this
    linarith [abs_eq_zero.1 h0]
  have hbefore : ∀ (k : Nat) (q : MappedPoint), k < j → c.points[k]? = some q → q.x ≠ s.x := by
    intro k q hk hq hqx
    have h := hfirst k q hk hq
    rw [hzero p px hpx, hzero q r (by rw [hqx, hr]), hpr] at h
    simp [lt] at h
  have hji : j ≤ i := by
    by_contra hlt
    exact hbefore i s (not_le.1 hlt) hs rfl
  refine ⟨j, p, hji, hj, by rw [hr]; exact hp, by rw [hpx, hr, hpr], hbefore, ?_, ?_⟩
  · constructor
    · intro h; rw [← h]; exact hbefore
    · intro h
      by_contra hne'
      exact h j p (lt_of_le_of_ne hji hne') hj (by rw [hpx, hr, hpr])
  · intro h
    rw [h, hs] at hj
    exact (Option.some.inj hj).symm

/-- Witness for C11 (amended): on the scene with candidates at `x = 42, 64, 86, 108` the
pointer at the `x` of the last candidate gets that candidate. -/
theorem nearestPoint_round_trip_witness :
    ∃ (j : Nat) (p : MappedPoint), j ≤ 3 ∧ Examples.overlongChart.points[j]? = some p ∧
      nearestPoint Examples.overlongChart.points (fin 108) = some p ∧ p.x = fin 108 :=
  let ⟨j, p, h1, h2, h3, h4, _⟩ := nearestPoint_round_trip Examples.overlong (fin 3) none
    Examples.overlongModel [] 100 100 Examples.overlongChart overlong_dataModel overlong_chart
    3 ⟨fin 4, some "HARD", fin (1801/20), fin 0, fin 108, fin 30⟩ rfl
  ⟨j, p, h1, h2, h3, h4⟩

end StrategyCurveChart

namespace StrategyCurveChart

open JsNum

/-- C12: whenever `handleMove` sets a hover state, its `activeWindow` is the first projected
pit window in sequence order with `lapMin <= nearest.lap <= lapMax` (both bounds inclusive),
and it is null exactly when no window contains the lap of the nearest sample. -/
theorem handleMove_activeWindow (c : Chart) (valid : Bool) (width : Int)
    (clientX rectLeft rectWidth : JsNum) (hover : Hover)
    (h : handleMove (some c) valid width clientX rectLeft rectWidth = some hover) :
    (hover.activeWindow = none ↔
      ∀ win ∈ c.pitWindows,
        ¬ (ge hover.nearest.lap win.lapMin = true ∧ le hover.nearest.lap win.lapMax = true)) ∧
    (∀ win, hover.activeWindow = some win →
      ∃ i, c.pitWindows[i]? = some win ∧
        ge hover.nearest.lap win.lapMin = true ∧ le hover.nearest.lap win.lapMax = true ∧
        ∀ (j : Nat) (w : PitWindowRect), j < i → c.pitWindows[j]? = some w →
          ¬ (ge hover.nearest.lap w.lapMin = true ∧ le hover.nearest.lap w.lapMax = true)) := by
  have hact : hover.activeWindow = c.pitWindows.find? fun win =>
      ge hover.nearest.lap win.lapMin && le hover.nearest.lap win.lapMax := by
    unfold handleMove at h
    simp only [] at h
    split at h
    · exact absurd h (by simp)
    · split at h
      · exact absurd h (by simp)
      · split at h
        · exact absurd h (by simp)
        · simp only [Option.some.injEq] at h
          rw [← h]
  obtain ⟨hnone, hsome⟩ := find?_first (fun win : PitWindowRect =>
    ge hover.nearest.lap win.lapMin && le hover.nearest.lap win.lapMax) c.pitWindows
  rw [hact]
  constructor
  · rw [hnone]
    constructor
    · intro hall win hw hcon
      have := hall win hw
      simp [hcon.1, hcon.2] at this
    · intro hall win hw
      have := hall win hw
      cases h1 : ge hover.nearest.lap win.lapMin <;> cases h2 : le hover.nearest.lap win.lapMax
        <;> simp [h1, h2] at this ⊢
  · intro win hwin
    obtain ⟨i, hi, hp, hfirst⟩ := hsome win hwin
    simp only [Bool.and_eq_true] at hp
    refine ⟨i, hi, hp.1, hp.2, ?_⟩
    intro j w hj hw hcon
    have := hfirst j w hj hw
    simp [hcon.1, hcon.2] at this

end StrategyCurveChart

namespace StrategyCurveChart

open JsNum

/-- Witness for C12: over two overlapping windows (laps 3-4 and laps 2-3) the sample of
lap 3 reports the first one. -/
theorem handleMove_activeWindow_witness :
    handleMove (some Examples.windowChart) true 100 (fin 86) (fin 0) (fin 100)
        = some Examples.hoverLap3 ∧
    ∃ i, Examples.windowChart.pitWindows[i]? = some Examples.windowA ∧
      ge Examples.hoverLap3.nearest.lap Examples.windowA.lapMin = true ∧
      le Examples.hoverLap3.nearest.lap Examples.windowA.lapMax = true ∧
      ∀ (j : Nat) (w : PitWindowRect), j < i → Examples.windowChart.pitWindows[j]? = some w →
        ¬ (ge Examples.hoverLap3.nearest.lap w.lapMin = true ∧
           le Examples.hoverLap3.nearest.lap w.lapMax = true) := by
  have h : handleMove (some Examples.windowChart) true 100 (fin 86) (fin 0) (fin 100)
      = some Examples.hoverLap3 := by
    norm_num [handleMove, Examples.windowChart, Examples.overlongChart, Examples.hoverLap3,
      Examples.windowA, Examples.windowB, truthy, sub_fin, div_fin, mul, ofInt, nearestPoint,
      nearestScan, JsNum.abs, lt, ge, le]
  exact ⟨h, (handleMove_activeWindow _ _ _ _ _ _ _ h).2 Examples.windowA rfl⟩

end StrategyCurveChart

namespace StrategyCurveChart

open JsNum

/-- C13: in every scene the projected pit windows are the images of the strategy's pit
windows, in order; for a window with finite bounds `lap_min`, `lap_max` the rectangle has
`lapMin = max(1, lap_min)`, `lapMax = max(lapMin, lap_max)`,
`x = min(xForLap(lapMin), xForLap(lapMax)) = xForLap(lapMin)` and
`width = max(2, |xForLap(lapMax) - xForLap(lapMin)|)`; its width is at least 2, and when
the two projected x differ by at least 2 it ends exactly at `xForLap(lapMax)`. -/
theorem chart_pitWindows_spec (strategy : Strategy) (totalLaps : JsNum)
    (yDomain : Option Domain) (dm : DataModel) (pit_windows : List PitWindow)
    (width height : Int) (c : Chart)
    (hdm : dataModel strategy totalLaps yDomain = some dm)
    (hc : chart pit_windows totalLaps width height dm = some c) :
    c.pitWindows = pit_windows.enum.map (fun p => projectWindow totalLaps width p.1 p.2) ∧
    ∀ (idx : Nat) (lap_min lap_max : ℚ) (r : PitWindowRect),
      r = projectWindow totalLaps width idx { lap_min := fin lap_min, lap_max := fin lap_max } →
      r.lapMin = fin (max 1 lap_min) ∧
      r.lapMax = fin (max (max 1 lap_min) lap_max) ∧
      r.x = min2 (xForLap totalLaps width r.lapMin) (xForLap totalLaps width r.lapMax) ∧
      r.x = xForLap totalLaps width r.lapMin ∧
      r.width = max2 (fin 2) (JsNum.abs (sub (xForLap totalLaps width r.lapMax)
        (xForLap totalLaps width r.lapMin))) ∧
      ge r.width (fin 2) = true ∧
      (ge (JsNum.abs (sub (xForLap totalLaps width r.lapMax)
          (xForLap totalLaps width r.lapMin))) (fin 2) = true →
        add r.x r.width = xForLap totalLaps width r.lapMax) := by
  have hne := totalLaps_ne_nan_of_chart strategy totalLaps yDomain dm pit_windows width height
    c hdm hc
  constructor
  · by_cases hl : layoutValid width height = true
    · by_cases hp : dm.points = []
      · simp [chart, hl, hp] at hc
      · rw [chart_eq_some _ _ _ _ _ hl hp] at hc
        simp only [Option.some.injEq] at hc
        rw [← hc]
    · simp [chart, hl] at hc
  · intro idx lap_min lap_max r hr
    have hmin : max2 (fin 1) (orElse (fin lap_min) (fin 1)) = fin (max 1 lap_min) := by
      by_cases h0 : lap_min = 0
      · simp [orElse, truthy, h0, max2_fin]
      · simp [orElse, truthy, h0, max2_fin]
    have hm1 : (1 : ℚ) ≤ max 1 lap_min := le_max_left _ _
    have hmax : max2 (fin (max 1 lap_min)) (orElse (fin lap_max) (fin (max 1 lap_min))) =
        fin (max (max 1 lap_min) lap_max) := by
      by_cases h0 : lap_max = 0
      · have : max (max 1 lap_min) 0 = max 1 lap_min := max_eq_left (by linarith)
        simp [orElse, truthy, h0, max2_fin, this]
      · simp [orElse, truthy, h0, max2_fin]
    obtain ⟨a, b, ha, hb, hab⟩ := xForLap_mono totalLaps width (max 1 lap_min)
      (max (max 1 lap_min) lap_max) hne (le_max_left _ _)
    have hlm : r.lapMin = fin (max 1 lap_min) := by rw [hr]; simp only [projectWindow, hmin]
    have hlM : r.lapMax = fin (max (max 1 lap_min) lap_max) := by
      rw [hr]; simp only [projectWindow, hmin, hmax]
    have hx : r.x = min2 (xForLap totalLaps width r.lapMin) (xForLap totalLaps width r.lapMax)
        := by rw [hr]; simp only [projectWindow, hmin, hmax]
    have hw : r.width = max2 (fin 2) (JsNum.abs (sub (xForLap totalLaps width r.lapMax)
        (xForLap totalLaps width r.lapMin))) := by
      rw [hr]; simp only [projectWindow, hmin, hmax]
    refine ⟨hlm, hlM, hx, ?_, hw, ?_, ?_⟩
    · rw [hx, hlm, hlM, ha, hb, min2_fin, min_eq_left hab]
    · rw [hw, hlm, hlM, ha, hb, sub_fin]
      simp [JsNum.abs, max2_fin, ge, le]
    · rw [hx, hw, hlm, hlM, ha, hb, sub_fin, min2_fin, min_eq_left hab]
      have habs : |b - a| = b - a := abs_of_nonneg (by linarith)
      simp only [JsNum.abs, max2_fin, ge, le, decide_eq_true_eq, habs, add]
      intro h2
      rw [max_eq_right h2]
      congr 1
      ring

/-- Witness for C13: the window of laps 2 to 3 in a race of 3 laps on a 100 px wide chart
is projected to the rectangle from `x = 64`, 22 px wide. -/
theorem chart_pitWindows_spec_witness :
    ∃ c, chart [{ lap_min := fin 2, lap_max := fin 3 }] (fin 3) 100 100 Examples.overlongModel
        = some c ∧
      c.pitWindows = [{ id := (0, fin 2, fin 3), lapMin := fin 2, lapMax := fin 3,
                        x := fin 64, width := fin 22 }] := by
  have hc := chart_eq_some [{ lap_min := fin 2, lap_max := fin 3 }] (fin 3) 100 100
    Examples.overlongModel (by decide) (by simp [Examples.overlongModel])
  have h := chart_pitWindows_spec Examples.overlong (fin 3) none Examples.overlongModel
    [{ lap_min := fin 2, lap_max := fin 3 }] 100 100 _ overlong_dataModel hc
  refine ⟨_, hc, ?_⟩
  rw [h.1]
  norm_num [projectWindow, List.enum, List.enumFrom, orElse, truthy, max2_fin, min2_fin,
    xForLap_fin, innerWidth, PADDING_left, PADDING_right, sub_fin, JsNum.abs]

end StrategyCurveChart

namespace StrategyCurveChart

open JsNum

/-- C14: for a strategy without stint curves whose stint lengths are positive integers
summing to `totalLaps` (each an admissible array length, the expected time not being
`Infinity`), the data model is built and holds exactly `totalLaps` samples, with lap numbers
`1, 2, ..., totalLaps` in order; nothing is filtered out, and stint `k` contributes
`stints[k]` consecutive samples starting at lap `1 + sum of the earlier lengths`, tagged
`compounds[k]`, or `MEDIUM` when that tag is missing or empty. -/
theorem dataModel_fallback_laps (strategy : Strategy) (ns : List Nat) (T : Nat)
    (yDomain : Option Domain)
    (hcurves : strategy.stint_curves = [])
    (hstints : strategy.stints = ns.map ofNat)
    (hpos : ∀ n ∈ ns, 1 ≤ n)
    (hsum : ns.sum = T) (hlim : ∀ n ∈ ns, n ≤ 2 ^ 32 - 1)
    (hexp : strategy.expected_time ≠ pinf) :
    ∃ dm, dataModel strategy (ofNat T) yDomain = some dm ∧
      dm.points.map (fun p => p.lap) = (List.range T).map (fun i => ofNat (i + 1)) ∧
      dm.points.length = T ∧
      dm.points = dm.stints.flatMap (fun st => st.points) ∧
      dm.stints.length = ns.length ∧
      ∀ (k n : Nat), ns[k]? = some n →
        ∃ st, dm.stints[k]? = some st ∧ st.points.length = n ∧
          ∀ i, i < n → ∃ p, st.points[i]? = some p ∧
            p.lap = ofNat (1 + (ns.take k).sum + i) ∧
            (∀ tag, strategy.compounds[k]? = some tag → tag ≠ "" → p.compound = some tag) ∧
            ((strategy.compounds[k]? = none ∨ strategy.compounds[k]? = some "") →
              p.compound = some "MEDIUM") := by
  obtain ⟨β, hβ⟩ := fallbackBaseline_finite strategy (T : ℚ) hexp
  obtain ⟨curves, hc, hlen, hidx, hlaps, hstart⟩ := fallbackStints_nat β strategy.compounds ns 0 1
    (fun n hn => ⟨hpos n hn, hlim n hn⟩)
  have hfilter : curves.filter (fun stint => le stint.start_lap (ofNat T)) = curves := by
    rw [List.filter_eq_self]
    intro c hc'
    obtain ⟨a, ha, -, h2⟩ := hstart c hc'
    have : (a : ℚ) ≤ (T : ℚ) := by
      have : a ≤ T := by omega
      exact_mod_cast this
    simp [ha, le, ofNat, this]
  have hsrc : sourceCurves strategy (ofNat T) = some curves := by
    have h1 : fin (1 : ℚ) = fin ((1 : Nat) : ℚ) := by simp
    simp only [sourceCurves, hcurves, List.length_nil, ne_eq, not_true_eq_false, if_false,
      buildFallbackCurves_eq]
    rw [show ofNat T = fin (T : ℚ) from rfl, hβ, hstints, h1, hc]
    simp only [Option.map_some', Option.some.injEq]
    exact hfilter
  have hkeep : ((curves.map fun stint => ({ stint := stint, points := stintPoints stint }
      : DataStint)).flatMap fun stint => stint.points) = curves.flatMap stintPoints := by
    simp [List.flatMap_map]
  have hall : (curves.flatMap stintPoints).filter (keepPoint (ofNat T)) =
      curves.flatMap stintPoints := by
    rw [List.filter_eq_self]
    intro p hp
    have hlapmem : p.lap ∈ (curves.flatMap stintPoints).map (fun p => p.lap) :=
      List.mem_map.2 ⟨p, hp, rfl⟩
    rw [hlaps] at hlapmem
    obtain ⟨i, hi, hpi⟩ := List.mem_map.1 hlapmem
    rw [List.mem_range'_1] at hi
    have hfinite : p.lapTime.isFinite = true := by
      obtain ⟨c, -, hpc⟩ := List.mem_flatMap.1 hp
      exact stintPoints_lapTime_isFinite c p hpc
    have h1 : (1 : ℚ) ≤ (i : ℚ) := by exact_mod_cast hi.1
    have h2 : (i : ℚ) ≤ (T : ℚ) := by
      have : i ≤ T := by omega
      exact_mod_cast this
    have hfi : (fin (i : ℚ)).isFinite = true := rfl
    simp [keepPoint, ← hpi, ofNat, hfi, hfinite, ge, le, h1, h2]
  have hpts : (dataModelOf curves (ofNat T) yDomain).points = curves.flatMap stintPoints := by
    simp only [dataModelOf, hkeep, hall]
  have hstintsEq : (dataModelOf curves (ofNat T) yDomain).stints =
      curves.map fun stint => { stint := stint, points := stintPoints stint } := rfl
  refine ⟨dataModelOf curves (ofNat T) yDomain, by simp [dataModel, hsrc], ?_, ?_, ?_, ?_, ?_⟩
  · rw [hpts, hlaps, hsum, List.range'_eq_map_range, List.map_map]
    apply List.map_congr_left
    intro i _
    simp [ofNat, Nat.add_comm]
  · have := congrArg List.length hlaps
    rw [← hpts] at this
    simpa [hsum] using this
  · rw [hpts, hstintsEq, hkeep]
  · rw [hstintsEq]; simp [hlen]
  · intro k n hk
    have hck := hidx k n hk
    refine ⟨DataStint.mk
      (fallbackStint (fin β) strategy.compounds (0 + k)
        (fin ((1 + (ns.take k).sum : Nat) : ℚ)) (fin (n : ℚ)) n)
      (stintPoints (fallbackStint (fin β) strategy.compounds (0 + k)
        (fin ((1 + (ns.take k).sum : Nat) : ℚ)) (fin (n : ℚ)) n)), ?_, ?_, ?_⟩
    · rw [hstintsEq, List.getElem?_map, hck]; rfl
    · simp [stintPoints_fallbackStint]
    · intro i hi
      simp only [stintPoints_fallbackStint, List.getElem?_map, List.getElem?_range hi,
        Option.map_some', Option.some.injEq, exists_eq_left']
      refine ⟨by simp [ofNat], ?_, ?_⟩
      · intro tag htag hne
        simp [fallbackStint, htag, hne]
      · rintro (h | h) <;> simp [fallbackStint, h]

end StrategyCurveChart

namespace StrategyCurveChart

open JsNum

/-- Witness for C14: stints `[20, 20, 20]` in a race of 60 laps give 60 samples, with laps
1 to 60. -/
theorem dataModel_fallback_laps_witness :
    ∃ dm, dataModel Examples.threeStints (ofNat 60) none = some dm ∧
      dm.points.map (fun p => p.lap) = (List.range 60).map (fun i => ofNat (i + 1)) ∧
      dm.points.length = 60 :=
  let ⟨dm, h1, h2, h3, _⟩ := dataModel_fallback_laps Examples.threeStints [20, 20, 20] 60 none
    rfl rfl (by intro n hn; simp at hn; omega) rfl (by intro n hn; simp at hn; omega)
    (by simp [Examples.threeStints])
  ⟨dm, h1, h2, h3⟩

end StrategyCurveChart

namespace StrategyCurveChart

open JsNum

/-- C15: `buildFallbackCurves` returns its curves as soon as every stint length is an
admissible array length; they are the objects built by the callback, one per stint length
at the same index, that start no later than `totalLaps`.  For every stint length that is a
positive integer `n`, at index `k`, the object of index `k` holds `n` lap-times and `n`
tyre-life values, the one of index `i` being `baseline + 0.05 * i` and `100` for `n = 1`,
`100 - 100 * i / (n - 1)` for `n >= 2`; so do the samples built from it when the baseline
is finite, and for a strategy without stint curves these are the samples of the data model.
The same holds of a fractional length `q >= 1`, with `⌊q⌋` samples.  The baseline is
`expected_time / totalLaps` when both are positive and 92 otherwise.  For a length above 1
the tyre-life starts at 100, is strictly decreasing and stays within `[0, 100]`, and for an
integer length `n >= 2` it ends at 0. -/
theorem buildFallbackCurves_values (strategy : Strategy) (totalLaps : JsNum) :
    (∀ e t : ℚ, strategy.expected_time = fin e → totalLaps = fin t → 0 < e → 0 < t →
      fallbackBaseline strategy totalLaps = fin (e / t)) ∧
    ((gt strategy.expected_time (fin 0) = false ∨ gt totalLaps (fin 0) = false) →
      fallbackBaseline strategy totalLaps = fin 92) ∧
    ((∀ len ∈ strategy.stints, (arrayFromLength (orElse len (fin 0))).isSome = true) →
      (buildFallbackCurves strategy totalLaps).isSome = true) ∧
    (∀ curves, buildFallbackCurves strategy totalLaps = some curves →
      ∃ all : List StintCurve,
        fallbackStints (fallbackBaseline strategy totalLaps) strategy.compounds
          strategy.stints 0 (fin 1) = some all ∧
        curves = all.filter (fun stint => le stint.start_lap totalLaps) ∧
        all.length = strategy.stints.length ∧
        (strategy.stint_curves = [] → ∀ yDomain, ∃ dm,
          dataModel strategy totalLaps yDomain = some dm ∧
          dm.stints = curves.map fun c => { stint := c, points := stintPoints c }) ∧
        (∀ (k n : Nat), 1 ≤ n → strategy.stints[k]? = some (ofNat n) →
          ∃ c L Y, all[k]? = some c ∧
            (c ∈ curves ↔ le c.start_lap totalLaps = true) ∧
            c.lap_time_data = some L ∧ c.tyre_life_data = some Y ∧
            L.length = n ∧ Y.length = n ∧
            ∀ i : Nat, i < n →
              L[i]? = some (add (fallbackBaseline strategy totalLaps) (fin (1/20 * (i : ℚ)))) ∧
              Y[i]? = some (fin (if n = 1 then 100 else 100 - 100 * (i : ℚ) / ((n : ℚ) - 1))) ∧
              ∀ β : ℚ, fallbackBaseline strategy totalLaps = fin β →
                ∃ p, (stintPoints c)[i]? = some p ∧ p.lapTime = fin (β + 1/20 * (i : ℚ)) ∧
                  p.tyreLife =
                    fin (if n = 1 then 100 else 100 - 100 * (i : ℚ) / ((n : ℚ) - 1))) ∧
        (∀ (k : Nat) (q : ℚ), 1 ≤ q → strategy.stints[k]? = some (fin q) →
          ∃ c L Y, all[k]? = some c ∧
            (c ∈ curves ↔ le c.start_lap totalLaps = true) ∧
            c.lap_time_data = some L ∧ c.tyre_life_data = some Y ∧
            L.length = ⌊q⌋.toNat ∧ Y.length = ⌊q⌋.toNat ∧
            ∀ i : Nat, i < ⌊q⌋.toNat →
              L[i]? = some (add (fallbackBaseline strategy totalLaps) (fin (1/20 * (i : ℚ)))) ∧
              Y[i]? = some (fin (if q = 1 then 100 else 100 - 100 * (i : ℚ) / (q - 1))) ∧
              ∀ β : ℚ, fallbackBaseline strategy totalLaps = fin β →
                ∃ p, (stintPoints c)[i]? = some p ∧ p.lapTime = fin (β + 1/20 * (i : ℚ)) ∧
                  p.tyreLife = fin (if q = 1 then 100 else 100 - 100 * (i : ℚ) / (q - 1)))) ∧
    (∀ (q : ℚ) (i j : Nat), 1 < q → i < j → j < ⌊q⌋.toNat →
      100 - 100 * (j : ℚ) / (q - 1) < 100 - 100 * (i : ℚ) / (q - 1) ∧
      0 ≤ 100 - 100 * (j : ℚ) / (q - 1) ∧
      100 - 100 * (i : ℚ) / (q - 1) ≤ 100 ∧
      100 - 100 * ((0 : Nat) : ℚ) / (q - 1) = 100) ∧
    (∀ n : Nat, 2 ≤ n → 100 - 100 * ((n - 1 : Nat) : ℚ) / ((n : ℚ) - 1) = 0) := by
  have hrat : ∀ (curves all : List StintCurve),
      fallbackStints (fallbackBaseline strategy totalLaps) strategy.compounds
          strategy.stints 0 (fin 1) = some all →
      all.filter (fun stint => le stint.start_lap totalLaps) = curves →
      ∀ (k : Nat) (q : ℚ), 1 ≤ q → strategy.stints[k]? = some (fin q) →
          ∃ c L Y, all[k]? = some c ∧
            (c ∈ curves ↔ le c.start_lap totalLaps = true) ∧
            c.lap_time_data = some L ∧ c.tyre_life_data = some Y ∧
            L.length = ⌊q⌋.toNat ∧ Y.length = ⌊q⌋.toNat ∧
            ∀ i : Nat, i < ⌊q⌋.toNat →
              L[i]? = some (add (fallbackBaseline strategy totalLaps) (fin (1/20 * (i : ℚ)))) ∧
              Y[i]? = some (fin (if q = 1 then 100 else 100 - 100 * (i : ℚ) / (q - 1))) ∧
              ∀ β : ℚ, fallbackBaseline strategy totalLaps = fin β →
                ∃ p, (stintPoints c)[i]? = some p ∧ p.lapTime = fin (β + 1/20 * (i : ℚ)) ∧
                  p.tyreLife = fin (if q = 1 then 100 else 100 - 100 * (i : ℚ) / (q - 1)) := by
    intro curves all hall hcur k q hq hk
    obtain ⟨-, hidx⟩ := fallbackStints_getElem _ _ _ _ _ _ hall
    obtain ⟨lap0, m, hm, hget⟩ := hidx k (fin q) hk
    rw [orElse_fin_of_one_le q hq] at hm hget
    have hmn := arrayFromLength_fin_eq q m hm
    subst hmn
    refine ⟨_, _, _, hget, ?_, rfl, rfl, by simp, by simp, ?_⟩
    · rw [← hcur, List.mem_filter]
      constructor
      · intro hmem; exact hmem.2
      · intro hle; exact ⟨List.getElem?_mem hget, hle⟩
    · intro i hi
      refine ⟨?_, ?_, ?_⟩
      · simp [List.getElem?_range hi, mul, ofNat, mul_comm]
      · simp only [List.getElem?_map, List.getElem?_range hi, Option.map_some',
          tyreLife_fin q i hq]
      · intro β hβ
        rw [hβ, stintPoints_fallbackStint_lap]
        simp only [List.getElem?_map, List.getElem?_range hi, Option.map_some',
          tyreLife_fin q i hq, Option.some.injEq, exists_eq_left']
        exact ⟨by rw [mul_comm], trivial⟩
  refine ⟨?_, ?_, ?_, ?_, ?_, ?_⟩
  · intro e t he ht hpe hpt
    have : t ≠ 0 := ne_of_gt hpt
    simp [fallbackBaseline, he, ht, gt, lt, hpe, hpt, div_fin _ _ this]
  · rintro (h0 | h0) <;> simp [fallbackBaseline, h0]
  · intro hadm
    rw [buildFallbackCurves_eq]
    simp [fallbackStints_isSome _ _ _ _ _ hadm]
  · intro curves h
    rw [buildFallbackCurves_eq] at h
    simp only [Option.map_eq_some'] at h
    obtain ⟨all, hall, hcur⟩ := h
    obtain ⟨hlen, -⟩ := fallbackStints_getElem _ _ _ _ _ _ hall
    refine ⟨all, hall, hcur.symm, hlen, ?_, ?_, hrat curves all hall hcur⟩
    · intro hsc yDomain
      have hbuild : buildFallbackCurves strategy totalLaps = some curves := by
        rw [buildFallbackCurves_eq, hall, ← hcur]; rfl
      refine ⟨dataModelOf curves totalLaps yDomain, ?_, rfl⟩
      simp [dataModel, sourceCurves, hsc, hbuild]
    · intro k n hn hk
      have hq : (1 : ℚ) ≤ (n : ℚ) := by exact_mod_cast hn
      have hfl : ⌊(n : ℚ)⌋.toNat = n := by simp
      have hone : ((n : ℚ) = 1) ↔ n = 1 := by
        constructor
        · intro h; exact_mod_cast h
        · intro h; rw [h]; simp
      have h := hrat curves all hall hcur k (n : ℚ) hq hk
      simp only [hfl, hone] at h
      exact h
  · intro q i j hq hij hjn
    have hn1 : (0 : ℚ) < q - 1 := by linarith
    have hij' : (i : ℚ) < (j : ℚ) := by exact_mod_cast hij
    have hjn' : (j : ℚ) ≤ q - 1 := by
      have h0 : (0 : ℤ) ≤ ⌊q⌋ := Int.floor_nonneg.2 (by linarith)
      have h1 : ((j + 1 : Nat) : ℤ) ≤ ⌊q⌋ := by
        have : j + 1 ≤ ⌊q⌋.toNat := hjn
        have h2 : ((j + 1 : Nat) : ℤ) ≤ ((⌊q⌋.toNat : Nat) : ℤ) := by exact_mod_cast this
        rwa [Int.toNat_of_nonneg h0] at h2
      have h3 : (((j + 1 : Nat) : ℤ) : ℚ) ≤ q := Int.le_floor.1 h1
      push_cast at h3
      linarith
    have hi0 : (0 : ℚ) ≤ (i : ℚ) := Nat.cast_nonneg i
    refine ⟨?_, ?_, ?_, ?_⟩
    · have : 100 * (i : ℚ) / (q - 1) < 100 * (j : ℚ) / (q - 1) :=
        div_lt_div_of_pos_right (by linarith) hn1
      linarith
    · have : 100 * (j : ℚ) / (q - 1) ≤ 100 := by
        rw [div_le_iff₀ hn1]; linarith
      linarith
    · have : 0 ≤ 100 * (i : ℚ) / (q - 1) := by positivity
      linarith
    · simp
  · intro n hn
    have hn1 : (0 : ℚ) < (n : ℚ) - 1 := by
      have : (2 : ℚ) ≤ (n : ℚ) := by exact_mod_cast hn
      linarith
    have hcast : ((n - 1 : Nat) : ℚ) = (n : ℚ) - 1 := by
      rw [Nat.cast_sub (by omega)]; simp
    rw [hcast, mul_div_assoc, div_self (ne_of_gt hn1)]; norm_num

/-- Witness for C15: for stints `[2, 2]` with expected time 270 s in a race of 3 laps the
baseline is `270 / 3 = 90`, the curves are built, and the second stint (index 1, length 2)
holds the lap-times `90, 90.05` and the tyre-life `100, 0`. -/
theorem buildFallbackCurves_values_witness :
    fallbackBaseline Examples.overlong (fin 3) = fin (270 / 3) ∧
    (buildFallbackCurves Examples.overlong (fin 3)).isSome = true ∧
    ∃ all : List StintCurve,
      Examples.overlongCurves = all.filter (fun stint => le stint.start_lap (fin 3)) ∧
      ∃ c L Y, all[1]? = some c ∧ c.lap_time_data = some L ∧ c.tyre_life_data = some Y ∧
        L.length = 2 ∧ Y.length = 2 ∧
        ∀ i : Nat, i < 2 →
          L[i]? = some (add (fallbackBaseline Examples.overlong (fin 3))
            (fin (1/20 * (i : ℚ)))) ∧
          Y[i]? = some (fin (if 2 = 1 then 100 else 100 - 100 * (i : ℚ) / (((2 : Nat) : ℚ) - 1)))
    := by
  have hthm := buildFallbackCurves_values Examples.overlong (fin 3)
  refine ⟨hthm.1 270 3 rfl rfl (by norm_num) (by norm_num), ?_, ?_⟩
  · apply hthm.2.2.1
    intro len hlen
    simp only [Examples.overlong, List.mem_cons, List.mem_singleton, List.not_mem_nil,
      or_false, or_self] at hlen
    subst hlen
    have h2 : (fin 2 : JsNum) = fin ((2 : Nat) : ℚ) := by simp
    rw [h2, orElse_natCast 2 (by decide), arrayFromLength_natCast 2 (by decide)]
    rfl
  · obtain ⟨all, -, hcur, -, -, hval, -⟩ :=
      hthm.2.2.2.1 Examples.overlongCurves overlong_fallback
    obtain ⟨c, L, Y, hc, -, hL, hY, hLl, hYl, hv⟩ := hval 1 2 (by decide)
      (by simp [Examples.overlong, ofNat])
    exact ⟨all, hcur, c, L, Y, hc, hL, hY, hLl, hYl, fun i hi => ⟨(hv i hi).1, (hv i hi).2.1⟩⟩

end StrategyCurveChart

namespace StrategyCurveChart

open JsNum

/-- C16: for every valid viewport and every resolved domain `{ a, b }`, with
`H = height - top - bottom`, `yForTime` maps a finite lap-time `t` to
`top + H - (t - a)/(b - a) * H`; it maps `domain.min` to `height - bottom` and `domain.max`
to `top`, it is strictly decreasing in `t`, and it maps a non-finite lap-time to the vertical
centre `top + H/2`. -/
theorem yForTime_spec (strategy : Strategy) (totalLaps : JsNum) (yDomain : Option Domain)
    (dm : DataModel) (width height : Int)
    (hdm : dataModel strategy totalLaps yDomain = some dm)
    (hv : layoutValid width height = true) :
    ∃ a b : ℚ, dm.domain = { min := fin a, max := fin b } ∧ a < b ∧
      innerHeight height = (height : ℚ) - PADDING_top - PADDING_bottom ∧
      (∀ t : ℚ, yForTime dm.domain height (fin t) =
        fin (PADDING_top + ((height : ℚ) - PADDING_top - PADDING_bottom)
          - (t - a) / (b - a) * ((height : ℚ) - PADDING_top - PADDING_bottom))) ∧
      yForTime dm.domain height dm.domain.min = fin ((height : ℚ) - PADDING_bottom) ∧
      yForTime dm.domain height dm.domain.max = fin PADDING_top ∧
      (∀ t1 t2 : ℚ, t1 < t2 → ∃ y1 y2 : ℚ, yForTime dm.domain height (fin t1) = fin y1 ∧
        yForTime dm.domain height (fin t2) = fin y2 ∧ y2 < y1) ∧
      (∀ v : JsNum, v.isFinite = false → yForTime dm.domain height v =
        fin (PADDING_top + ((height : ℚ) - PADDING_top - PADDING_bottom) / 2)) := by
  obtain ⟨source, -, rfl⟩ := dataModel_eq_some strategy totalLaps yDomain dm hdm
  obtain ⟨a, b, hd, hab⟩ := dataModelOf_domain_valid source totalLaps yDomain
  have hh : (50 : ℚ) ≤ (height : ℚ) := by
    simp only [layoutValid, MIN_VALID_SIZE, Bool.and_eq_true, decide_eq_true_eq] at hv
    exact_mod_cast hv.2
  have hH : innerHeight height = (height : ℚ) - PADDING_top - PADDING_bottom := by
    unfold innerHeight
    apply max_eq_right
    norm_num [PADDING_top, PADDING_bottom]
    linarith
  have hba : b - a ≠ 0 := by linarith
  have hHpos : (0 : ℚ) < (height : ℚ) - PADDING_top - PADDING_bottom := by
    norm_num [PADDING_top, PADDING_bottom]; linarith
  refine ⟨a, b, hd, hab, hH, ?_, ?_, ?_, ?_, ?_⟩
  · intro t
    rw [hd, yForTime_fin a b height t hab, hH]
  · rw [hd, yForTime_fin a b height a hab, hH]
    simp only [sub_self, zero_div, zero_mul, sub_zero, fin.injEq]
    ring
  · rw [hd, yForTime_fin a b height b hab, hH, div_self hba]
    simp
  · intro t1 t2 h12
    refine ⟨_, _, by rw [hd, yForTime_fin a b height t1 hab, hH],
      by rw [hd, yForTime_fin a b height t2 hab, hH], ?_⟩
    have hd' : (t1 - a) / (b - a) < (t2 - a) / (b - a) :=
      div_lt_div_of_pos_right (by linarith) (by linarith)
    have := mul_lt_mul_of_pos_right hd' hHpos
    linarith
  · intro v hvf
    have h2 : ((2 : ℚ)) ≠ 0 := by norm_num
    simp [yForTime, hvf, hH, div_fin _ _ h2, add]

/-- Witness for C16: on a 100 x 100 viewport, with the domain `{ 89.975, 90.075 }`, the
lap-time 90 maps to `y = 62`. -/
theorem yForTime_spec_witness :
    ∃ a b : ℚ, Examples.overlongModel.domain = { min := fin a, max := fin b } ∧ a < b ∧
      yForTime Examples.overlongModel.domain 100 (fin 90) =
        fin (PADDING_top + (((100 : Int) : ℚ) - PADDING_top - PADDING_bottom)
          - (90 - a) / (b - a) * (((100 : Int) : ℚ) - PADDING_top - PADDING_bottom)) :=
  let ⟨a, b, h1, h2, _, h4, _⟩ := yForTime_spec Examples.overlong (fin 3) none
    Examples.overlongModel 100 100 overlong_dataModel (by decide)
  ⟨a, b, h1, h2, h4 90⟩

/-- C17: for every `totalLaps <= 1` (in particular `totalLaps = 1`), every width and every
lap value, `NaN` included, `xForLap` returns exactly the left padding edge 42, which is not
`NaN`. -/
theorem xForLap_of_totalLaps_le_one (totalLaps : JsNum) (width : Int) (lap : JsNum)
    (h : le totalLaps (fin 1) = true) :
    xForLap totalLaps width lap = fin 42 ∧ xForLap totalLaps width lap ≠ nan ∧
      (xForLap totalLaps width lap).isFinite = true := by
  have hx : xForLap totalLaps width lap = fin 42 := by
    simp [xForLap, h, PADDING_left]
  rw [hx]
  exact ⟨rfl, by simp, rfl⟩

/-- Witness for C17: with `totalLaps = 1` the lap `NaN` maps to 42. -/
theorem xForLap_of_totalLaps_le_one_witness :
    xForLap (fin 1) 300 nan = fin 42 :=
  (xForLap_of_totalLaps_le_one (fin 1) 300 nan (by simp [le])).1

/-- C18: the scene is null if and only if the viewport is below the threshold in either
dimension (`width < 50` or `height < 50`) or the filtered sample list is empty; for every
viewport with both dimensions at least 50 and at least one filtered sample a scene is
produced. -/
theorem chart_eq_none_iff (pit_windows : List PitWindow) (totalLaps : JsNum)
    (width height : Int) (dm : DataModel) :
    (chart pit_windows totalLaps width height dm = none ↔
      (width < 50 ∨ height < 50 ∨ dm.points = [])) ∧
    (50 ≤ width → 50 ≤ height → dm.points ≠ [] →
      ∃ c, chart pit_windows totalLaps width height dm = some c) := by
  have hlv : layoutValid width height = true ↔ (50 ≤ width ∧ 50 ≤ height) := by
    simp [layoutValid, MIN_VALID_SIZE]
  constructor
  · constructor
    · intro hnone
      by_contra hcon
      push_neg at hcon
      obtain ⟨h1, h2, h3⟩ := hcon
      rw [chart_eq_some _ _ _ _ _ (hlv.2 ⟨h1, h2⟩) h3] at hnone
      exact absurd hnone (by simp)
    · rintro (h | h | h)
      · have : ¬ layoutValid width height = true := fun hl => by
          have := (hlv.1 hl).1; omega
        simp [chart, this]
      · have : ¬ layoutValid width height = true := fun hl => by
          have := (hlv.1 hl).2; omega
        simp [chart, this]
      · by_cases hl : layoutValid width height = true <;> simp [chart, hl, h]
  · intro h1 h2 h3
    exact ⟨_, chart_eq_some _ _ _ _ _ (hlv.2 ⟨h1, h2⟩) h3⟩

/-- Witness for C18: the data model of stints `[2, 2]` on a 100 x 100 viewport has a
scene. -/
theorem chart_eq_none_iff_witness :
    ∃ c, chart [] (fin 3) 100 100 Examples.overlongModel = some c :=
  (chart_eq_none_iff [] (fin 3) 100 100 Examples.overlongModel).2 (by decide) (by decide)
    (by simp [Examples.overlongModel])

end StrategyCurveChart

namespace StrategyCurveChart

open JsNum

/-- C19: for every integer `totalLaps >= 1` the grid laps are the values of
`[1, floor(0.33 * totalLaps), floor(0.66 * totalLaps), totalLaps]` that are positive, each
once; the list is strictly increasing, starts at 1, ends at `totalLaps` and holds only laps
in `[1, totalLaps]`. -/
theorem gridLaps_spec (T : Nat) (hT : 1 ≤ T) :
    floor (mul (ofNat T) (fin (33/100))) = ofNat (33 * T / 100) ∧
    floor (mul (ofNat T) (fin (66/100))) = ofNat (66 * T / 100) ∧
    ∃ l : List Nat, gridLaps (ofNat T) = l.map ofNat ∧
      l.Pairwise (fun m n => m < n) ∧
      l.head? = some 1 ∧ l.getLast? = some T ∧
      (∀ n ∈ l, 1 ≤ n ∧ n ≤ T) ∧
      (∀ n, n ∈ l ↔ (0 < n ∧ (n = 1 ∨ n = 33 * T / 100 ∨ n = 66 * T / 100 ∨ n = T))) := by
  have h33 := floor_mul_percent T 33
  have h66 := floor_mul_percent T 66
  simp only [Nat.cast_ofNat] at h33 h66
  refine ⟨h33, h66, ?_⟩
  rw [gridLaps_ofNat]
  have key : (T = 1) ∨ (T = 2) ∨ (T = 3) ∨
      (33 * T / 100 = 1 ∧ 2 ≤ 66 * T / 100 ∧ 66 * T / 100 < T) ∨
      (2 ≤ 33 * T / 100 ∧ 33 * T / 100 < 66 * T / 100 ∧ 66 * T / 100 < T) := by omega
  rcases key with rfl | rfl | rfl | ⟨ha, hb, hbT⟩ | ⟨ha, hab, hbT⟩
  · refine ⟨[1], ?_, by simp, rfl, rfl, by simp, ?_⟩
    · norm_num [List.enum, List.enumFrom, indexOfFrom, strictEq, gt, lt, ofNat]
    · intro n; simp; omega
  · refine ⟨[1, 2], ?_, by simp, rfl, rfl, by simp, ?_⟩
    · norm_num [List.enum, List.enumFrom, indexOfFrom, strictEq, gt, lt, ofNat]
    · intro n; simp; omega
  · refine ⟨[1, 3], ?_, by simp, rfl, rfl, by simp, ?_⟩
    · norm_num [List.enum, List.enumFrom, indexOfFrom, strictEq, gt, lt, ofNat]
    · intro n; simp; omega
  · generalize 66 * T / 100 = b at hb hbT
    rw [ha]
    have q1 : ((1 : ℚ) = (b : ℚ)) = False := by
      simp only [eq_iff_iff, iff_false]; intro h
      have : (1 : Nat) = b := by exact_mod_cast h
      omega
    have q2 : ((b : ℚ) = (T : ℚ)) = False := by
      simp only [eq_iff_iff, iff_false]; intro h
      have : b = T := by exact_mod_cast h
      omega
    have q3 : ((1 : ℚ) = (T : ℚ)) = False := by
      simp only [eq_iff_iff, iff_false]; intro h
      have : (1 : Nat) = T := by exact_mod_cast h
      omega
    have p1 : (0 : ℚ) < (b : ℚ) := by
      have : 0 < b := by omega
      exact_mod_cast this
    have p2 : (0 : ℚ) < (T : ℚ) := by
      have : 0 < T := by omega
      exact_mod_cast this
    refine ⟨[1, b, T], ?_, ?_, rfl, rfl, ?_, ?_⟩
    · simp [List.enum, List.enumFrom, indexOfFrom, strictEq, gt, lt, ofNat, q1, q2, q3, p1, p2]
    · simp; omega
    · intro n hn; simp at hn; omega
    · intro n; simp; omega
  · generalize 66 * T / 100 = b at hab hbT
    generalize 33 * T / 100 = a at ha hab
    have q0 : ((1 : ℚ) = (a : ℚ)) = False := by
      simp only [eq_iff_iff, iff_false]; intro h
      have : (1 : Nat) = a := by exact_mod_cast h
      omega
    have q1 : ((1 : ℚ) = (b : ℚ)) = False := by
      simp only [eq_iff_iff, iff_false]; intro h
      have : (1 : Nat) = b := by exact_mod_cast h
      omega
    have q2 : ((b : ℚ) = (T : ℚ)) = False := by
      simp only [eq_iff_iff, iff_false]; intro h
      have : b = T := by exact_mod_cast h
      omega
    have q3 : ((1 : ℚ) = (T : ℚ)) = False := by
      simp only [eq_iff_iff, iff_false]; intro h
      have : (1 : Nat) = T := by exact_mod_cast h
      omega
    have q4 : ((a : ℚ) = (b : ℚ)) = False := by
      simp only [eq_iff_iff, iff_false]; intro h
      have : a = b := by exact_mod_cast h
      omega
    have q5 : ((a : ℚ) = (T : ℚ)) = False := by
      simp only [eq_iff_iff, iff_false]; intro h
      have : a = T := by exact_mod_cast h
      omega
    have p0 : (0 : ℚ) < (a : ℚ) := by
      have : 0 < a := by omega
      exact_mod_cast this
    have p1 : (0 : ℚ) < (b : ℚ) := by
      have : 0 < b := by omega
      exact_mod_cast this
    have p2 : (0 : ℚ) < (T : ℚ) := by
      have : 0 < T := by omega
      exact_mod_cast this
    refine ⟨[1, a, b, T], ?_, ?_, rfl, rfl, ?_, ?_⟩
    · simp [List.enum, List.enumFrom, indexOfFrom, strictEq, gt, lt, ofNat, q0, q1, q2, q3,
        q4, q5, p0, p1, p2]
    · simp; omega
    · intro n hn; simp at hn; omega
    · intro n; simp; omega

end StrategyCurveChart

namespace StrategyCurveChart

open JsNum

/-- Witness for C19: a race of 60 laps has `floor(0.33 * 60) = 19`, and its grid laps are
`1, 19, 39, 60`. -/
theorem gridLaps_spec_witness :
    floor (mul (ofNat 60) (fin (33/100))) = ofNat (33 * 60 / 100) ∧
    gridLaps (ofNat 60) = [fin 1, fin 19, fin 39, fin 60] := by
  refine ⟨(gridLaps_spec 60 (by decide)).1, ?_⟩
  rw [gridLaps_ofNat]
  norm_num [List.enum, List.enumFrom, indexOfFrom, strictEq, gt, lt, ofNat]

end StrategyCurveChart

namespace SizeTracker

/-- C20: on every measurement `(w, h)` the stored size is left unchanged when `floor(w)` and
`floor(h)` equal the stored width and height, and otherwise becomes exactly
`{ width: floor(w), height: floor(h) }`; in both cases it then holds the floors, applying
the same measurement twice gives the same state as applying it once, and an observer
notification with the single entry `(w, h)` is that measurement. -/
theorem measure_spec (prev : Size) (w h : ℚ) :
    ((⌊w⌋ = prev.width ∧ ⌊h⌋ = prev.height) → measure prev w h = prev) ∧
    (¬ (⌊w⌋ = prev.width ∧ ⌊h⌋ = prev.height) →
      measure prev w h = { width := ⌊w⌋, height := ⌊h⌋ }) ∧
    measure prev w h = { width := ⌊w⌋, height := ⌊h⌋ } ∧
    measure (measure prev w h) w h = measure prev w h ∧
    observerCallback prev [(w, h)] = measure prev w h := by
  have hval : measure prev w h = { width := ⌊w⌋, height := ⌊h⌋ } := by
    unfold measure sizeUpdater
    split
    · next hc =>
      obtain ⟨pw, ph⟩ := prev
      simp only at hc
      simp [hc.1, hc.2]
    · rfl
  refine ⟨?_, ?_, hval, ?_, rfl⟩
  · rintro ⟨h1, h2⟩
    simp [measure, sizeUpdater, h1, h2]
  · intro _
    exact hval
  · rw [hval]
    simp [measure, sizeUpdater]

/-- Witness for C20: from the initial size `(0, 0)` the measurement `(320.7, 180.2)` stores
`(320, 180)`, and the measurement `(0.4, 0.9)` leaves `(0, 0)`. -/
theorem measure_spec_witness :
    measure initialSize (3207/10) (901/5) = { width := ⌊(3207/10 : ℚ)⌋, height := ⌊(901/5 : ℚ)⌋ } ∧
    measure initialSize (2/5) (9/10) = initialSize :=
  ⟨(measure_spec initialSize (3207/10) (901/5)).2.1 (by
      intro hcon
      have h1 : ⌊(3207/10 : ℚ)⌋ = 320 := by
        rw [Int.floor_eq_iff]; constructor <;> norm_num
      rw [h1] at hcon
      exact absurd hcon.1 (by decide)),
   (measure_spec initialSize (2/5) (9/10)).1 (by
      constructor
      · show ⌊(2/5 : ℚ)⌋ = 0
        rw [Int.floor_eq_iff]; constructor <;> norm_num
      · show ⌊(9/10 : ℚ)⌋ = 0
        rw [Int.floor_eq_iff]; constructor <;> norm_num)⟩

end SizeTracker

namespace StrategyCurveChart

open JsNum

/-- C22 (as stated, fails): a stint with the constant lap-time 101 s resolves to the fixed
fallback domain `{ 89, 95 }`, and on a 100 x 100 viewport its samples are mapped to
`y = -50`, above the plotting area that starts at `top = 14`. -/
theorem mapped_y_outside_plot_counterexample :
    ∃ dm p, dataModel Examples.constantSlow (fin 60) none = some dm ∧
      layoutValid 100 100 = true ∧ p ∈ dm.points ∧
      dm.domain = FALLBACK_DOMAIN ∧
      (mapPoint (fin 60) 100 100 dm.domain p).y = fin (-50) ∧
      lt (mapPoint (fin 60) 100 100 dm.domain p).y (fin PADDING_top) = true := by
  have hdm : dataModel Examples.constantSlow (fin 60) none =
      some (dataModelOf Examples.constantSlow.stint_curves (fin 60) none) := by
    simp [dataModel, sourceCurves, Examples.constantSlow, Examples.strategyOf]
  have hpts : (dataModelOf Examples.constantSlow.stint_curves (fin 60) none).points =
      [⟨fin 1, some "SOFT", fin 101, fin 100⟩, ⟨fin 2, some "SOFT", fin 101, fin 50⟩] := by
    simp only [dataModelOf, stintPoints, firstPresent, Option.getD_some, List.map_cons,
      List.map_nil, List.filter_cons, isFinite, if_true, List.filter_nil, List.enum,
      List.enumFrom, List.flatMap_cons, List.flatMap_nil, List.append_nil,
      List.get?_cons_zero, List.get?_cons_succ, add, ofNat, keepPoint_fin,
      Examples.constantSlow, Examples.strategyOf, Examples.curveOf]
    norm_num
  have hdom : (dataModelOf Examples.constantSlow.stint_curves (fin 60) none).domain =
      FALLBACK_DOMAIN := by
    rw [dataModelOf_domain_eq, hpts]
    norm_num [normalizeDomain, computeDomain, mathMin, mathMax, min2, max2, isFinite, le]
  refine ⟨_, ⟨fin 1, some "SOFT", fin 101, fin 100⟩, hdm, by decide, by rw [hpts]; simp, hdom, ?_⟩
  rw [hdom]
  norm_num [mapPoint, FALLBACK_DOMAIN, yForTime_fin, innerHeight, PADDING_top, PADDING_bottom,
    lt]

/-- C22 (amended): for every chart with a valid viewport and every sample of its filtered
sample list, the mapped `y` is finite, and it lies within the plotting area,
`top <= y <= height - bottom`, exactly when the lap-time of the sample lies within the
resolved domain.  It does whenever the domain was computed from the chart's own samples
and these hold two distinct lap-times. -/
theorem mapped_y_within_plot (strategy : Strategy) (totalLaps : JsNum)
    (yDomain : Option Domain) (dm : DataModel) (width height : Int) (p : Point)
    (hdm : dataModel strategy totalLaps yDomain = some dm)
    (hv : layoutValid width height = true) (hp : p ∈ dm.points) :
    ∃ a b v y : ℚ, dm.domain = { min := fin a, max := fin b } ∧ p.lapTime = fin v ∧
      (mapPoint totalLaps width height dm.domain p).y = fin y ∧
      ((PADDING_top ≤ y ∧ y ≤ (height : ℚ) - PADDING_bottom) ↔ (a ≤ v ∧ v ≤ b)) ∧
      (dm.domain = computeDomain (dm.points.map fun q => q.lapTime) FALLBACK_DOMAIN →
        (∃ q1 ∈ dm.points, ∃ q2 ∈ dm.points, q1.lapTime ≠ q2.lapTime) →
        PADDING_top ≤ y ∧ y ≤ (height : ℚ) - PADDING_bottom) := by
  obtain ⟨source, -, rfl⟩ := dataModel_eq_some strategy totalLaps yDomain dm hdm
  obtain ⟨a, b, hd, hab⟩ := dataModelOf_domain_valid source totalLaps yDomain
  have hfin := dataModelOf_lapTimes_finite source totalLaps yDomain
  obtain ⟨v, hvp⟩ := exists_fin_of_isFinite (hfin p.lapTime (List.mem_map.2 ⟨p, hp, rfl⟩))
  have hh : (50 : ℚ) ≤ (height : ℚ) := by
    simp only [layoutValid, MIN_VALID_SIZE, Bool.and_eq_true, decide_eq_true_eq] at hv
    exact_mod_cast hv.2
  have hH : innerHeight height = (height : ℚ) - PADDING_top - PADDING_bottom := by
    unfold innerHeight
    apply max_eq_right
    norm_num [PADDING_top, PADDING_bottom]
    linarith
  have hHpos : (0 : ℚ) < (height : ℚ) - PADDING_top - PADDING_bottom := by
    norm_num [PADDING_top, PADDING_bottom]; linarith
  have hba : (0 : ℚ) < b - a := by linarith
  have hy : (mapPoint totalLaps width height (dataModelOf source totalLaps yDomain).domain p).y =
      fin (PADDING_top + ((height : ℚ) - PADDING_top - PADDING_bottom)
        - (v - a) / (b - a) * ((height : ℚ) - PADDING_top - PADDING_bottom)) := by
    simp only [mapPoint]
    rw [hd, hvp, yForTime_fin a b height v hab, hH]
  have hiff : (PADDING_top ≤ PADDING_top + ((height : ℚ) - PADDING_top - PADDING_bottom)
        - (v - a) / (b - a) * ((height : ℚ) - PADDING_top - PADDING_bottom) ∧
      PADDING_top + ((height : ℚ) - PADDING_top - PADDING_bottom)
        - (v - a) / (b - a) * ((height : ℚ) - PADDING_top - PADDING_bottom) ≤
        (height : ℚ) - PADDING_bottom) ↔ (a ≤ v ∧ v ≤ b) := by
    set H := (height : ℚ) - PADDING_top - PADDING_bottom with hHdef
    set r := (v - a) / (b - a) with hr
    have hr0 : 0 ≤ r ↔ a ≤ v := by
      rw [hr, le_div_iff₀ hba]; constructor <;> intro h <;> linarith
    have hr1 : r ≤ 1 ↔ v ≤ b := by
      rw [hr, div_le_iff₀ hba]; constructor <;> intro h <;> linarith
    rw [← hr0, ← hr1]
    constructor
    · rintro ⟨h1, h2⟩
      constructor
      · by_contra hneg
        have : r * H < 0 := mul_neg_of_neg_of_pos (not_le.1 hneg) hHpos
        linarith
      · by_contra hneg
        have : 1 * H < r * H := mul_lt_mul_of_pos_right (not_le.1 hneg) hHpos
        linarith
    · rintro ⟨h1, h2⟩
      have e1 : 0 ≤ r * H := mul_nonneg h1 (le_of_lt hHpos)
      have e2 : r * H ≤ 1 * H := mul_le_mul_of_nonneg_right h2 (le_of_lt hHpos)
      constructor <;> linarith
  refine ⟨a, b, v, _, hd, hvp, hy, hiff, ?_⟩
  intro hcomp hdistinct
  rw [hiff]
  obtain ⟨qs, hqs⟩ := exists_map_fin_of_forall_isFinite _ hfin
  have hvq : v ∈ qs := by
    have : fin v ∈ List.map (fun q => q.lapTime) (dataModelOf source totalLaps yDomain).points :=
      List.mem_map.2 ⟨p, hp, hvp⟩
    rw [hqs] at this
    simpa using this
  obtain ⟨lo, hi, hlo, hhi, hb⟩ := exists_bounds_of_ne_nil qs (List.ne_nil_of_mem hvq)
  have hlt : lo < hi := by
    obtain ⟨q1, hq1, q2, hq2, hne⟩ := hdistinct
    obtain ⟨v1, hv1⟩ := exists_fin_of_isFinite (hfin q1.lapTime (List.mem_map.2 ⟨q1, hq1, rfl⟩))
    obtain ⟨v2, hv2⟩ := exists_fin_of_isFinite (hfin q2.lapTime (List.mem_map.2 ⟨q2, hq2, rfl⟩))
    have m1 : v1 ∈ qs := by
      have : fin v1 ∈ List.map (fun q => q.lapTime)
          (dataModelOf source totalLaps yDomain).points := List.mem_map.2 ⟨q1, hq1, hv1⟩
      rw [hqs] at this
      simpa using this
    have m2 : v2 ∈ qs := by
      have : fin v2 ∈ List.map (fun q => q.lapTime)
          (dataModelOf source totalLaps yDomain).points := List.mem_map.2 ⟨q2, hq2, hv2⟩
      rw [hqs] at this
      simpa using this
    have hne' : v1 ≠ v2 := by
      intro h; apply hne; rw [hv1, hv2, h]
    rcases lt_or_gt_of_ne hne' with h | h
    · exact lt_of_le_of_lt (hb v1 m1).1 (lt_of_lt_of_le h (hb v2 m2).2)
    · exact lt_of_le_of_lt (hb v2 m2).1 (lt_of_lt_of_le h (hb v1 m1).2)
  rw [hd, hqs, computeDomain_of_bounds qs lo hi hlo hhi hb, if_neg (not_le.2 hlt)] at hcomp
  simp only [Domain.mk.injEq, fin.injEq] at hcomp
  have hm : (0 : ℚ) < max (1/2) (hi - lo) := lt_of_lt_of_le (by norm_num) (le_max_left _ _)
  obtain ⟨h1, h2⟩ := hb v hvq
  constructor <;> [rw [hcomp.1]; rw [hcomp.2]] <;> linarith

/-- Witness for C22 (amended): the samples of stints `[2, 2]` in a race of 3 laps, with the
domain computed from their own lap-times 90 and 90.05, are mapped inside the plot. -/
theorem mapped_y_within_plot_witness :
    ∃ a b v y : ℚ, Examples.overlongModel.domain = { min := fin a, max := fin b } ∧
      (fin 90 : JsNum) = fin v ∧
      (mapPoint (fin 3) 100 100 Examples.overlongModel.domain
        ⟨fin 1, some "SOFT", fin 90, fin 100⟩).y = fin y ∧
      ((PADDING_top ≤ y ∧ y ≤ ((100 : Int) : ℚ) - PADDING_bottom) ↔ (a ≤ v ∧ v ≤ b)) :=
  let ⟨a, b, v, y, h1, h2, h3, h4, _⟩ := mapped_y_within_plot Examples.overlong (fin 3) none
    Examples.overlongModel 100 100 ⟨fin 1, some "SOFT", fin 90, fin 100⟩ overlong_dataModel
    (by decide) (by simp [Examples.overlongModel])
  ⟨a, b, v, y, h1, h2, h3, h4⟩

end StrategyCurveChart

namespace SizeTracker

/-- C21 (as stated, fails): a tracker whose `ref.current` is null (the chart without
samples renders no drawing surface) is mounted with the stored size `0 x 0`, below the
threshold, and yet no retry frame is pending: the retry effect returns on `!ref.current`. -/
theorem retry_not_pending_without_node_counterexample :
    (run (initial false) [Event.mount]).mounted = true ∧
      (run (initial false) [Event.mount]).size.width < 50 ∧
      (run (initial false) [Event.mount]).pending = false := by
  refine ⟨?_, ?_, ?_⟩ <;>
    simp [run, step, initial, initialSize, retryEffect, usable,
      StrategyCurveChart.MIN_VALID_SIZE]

/-- C21 (amended): after every sequence of steps (mount, size notification, animation frame
with a measurement, teardown) a retry frame is pending exactly when the node of the tracker
is attached, the tracker is mounted and the stored size is below 50 in width or height; in a
state with a stored size of at least 50 in both dimensions, or after teardown, or without a
node, no retry is pending and frame callbacks neither change the stored size nor request
another frame: any sequence of them leaves the state as it is. -/
theorem retry_pending_iff (attached : Bool) (events : List Event) :
    ((run (initial attached) events).pending = true ↔
      (attached = true ∧ (run (initial attached) events).mounted = true ∧
        ((run (initial attached) events).size.width < 50 ∨
          (run (initial attached) events).size.height < 50))) ∧
    (((50 ≤ (run (initial attached) events).size.width ∧
        50 ≤ (run (initial attached) events).size.height) ∨
      (run (initial attached) events).mounted = false ∨ attached = false) →
      (run (initial attached) events).pending = false ∧
      ∀ frames : List (ℚ × ℚ),
        run (run (initial attached) events) (frames.map fun f => Event.frame f.1 f.2) =
          run (initial attached) events) := by
  obtain ⟨hatt, hinv⟩ := run_inv events (initial attached) (by simp [initial])
  rw [usable_eq_false_iff, hatt] at hinv
  have hia : (initial attached).attached = attached := rfl
  rw [hia] at hinv
  refine ⟨hinv, ?_⟩
  intro h
  have hp : (run (initial attached) events).pending = false := by
    cases hpend : (run (initial attached) events).pending with
    | false => rfl
    | true =>
      obtain ⟨ha, hm, hs⟩ := hinv.1 hpend
      rcases h with ⟨h1, h2⟩ | h | h
      · omega
      · rw [hm] at h; exact absurd h (by simp)
      · rw [ha] at h; exact absurd h (by simp)
  exact ⟨hp, run_frames_of_not_pending _ hp⟩

/-- Witness for C21 (amended): after mounting, one retry measuring `0 x 0` and a
notification of `300 x 200`, the size `300 x 200` is stored, no retry is pending, and a
later frame callback leaves the state unchanged. -/
theorem retry_pending_iff_witness :
    (run (initial true)
        [Event.mount, Event.frame 0 0, Event.notify [(300, 200)]]).size =
      { width := 300, height := 200 } ∧
    (run (initial true)
        [Event.mount, Event.frame 0 0, Event.notify [(300, 200)]]).pending = false ∧
    run (run (initial true) [Event.mount, Event.frame 0 0, Event.notify [(300, 200)]])
        ([((10 : ℚ), (10 : ℚ))].map fun f => Event.frame f.1 f.2) =
      run (initial true) [Event.mount, Event.frame 0 0, Event.notify [(300, 200)]] := by
  have hs : (run (initial true)
      [Event.mount, Event.frame 0 0, Event.notify [(300, 200)]]).size =
      { width := 300, height := 200 } := by
    simp [run, step, initial, initialSize, retryEffect, usable, afterSetSize, measure_eq,
      observerCallback, StrategyCurveChart.MIN_VALID_SIZE]
  have h := (retry_pending_iff true
    [Event.mount, Event.frame 0 0, Event.notify [(300, 200)]]).2
    (Or.inl (by rw [hs]; decide))
  exact ⟨hs, h.1, h.2 [(10, 10)]⟩

end SizeTracker

namespace App

/-- C23: for every input (undefined, empty, shorter or longer than two) `ensureTwoRows`
returns exactly two rows with ids `[1, 2]`: the first two input rows with their other fields
kept, and idle empty rows for the missing ones; `ensureTwoRows` is idempotent;
`hydrateRowsFromMetadata` and `updateRow` return two rows with ids `[1, 2]`; and every state
the rows of `App` can take holds exactly two rows, with ids 1 and 2 in that order. -/
theorem rows_two_row_invariant :
    (∀ rows : Option (List Row),
      (ensureTwoRows rows).length = 2 ∧
      (ensureTwoRows rows).map (fun r => r.id) = [1, 2] ∧
      (∀ i, i < 2 →
        (∀ r, rowAt rows i = some r → (ensureTwoRows rows)[i]? = some { r with id := i + 1 }) ∧
        (rowAt rows i = none → (ensureTwoRows rows)[i]? = some
          { id := i + 1, team := "", driverId := DriverId.text "", data := none,
            status := "idle", selectedStrategyId := none })) ∧
      ensureTwoRows (some (ensureTwoRows rows)) = ensureTwoRows rows) ∧
    (∀ (rows : Option (List Row)) (teamsData : List String) (driversData : List Driver),
      (hydrateRowsFromMetadata rows teamsData driversData).map (fun r => r.id) = [1, 2]) ∧
    (∀ (prev : List Row) (id : Nat) (patch : RowPatch),
      (updateRow prev id patch).map (fun r => r.id) = [1, 2]) ∧
    (∀ rows : List Row, Reachable rows →
      rows.length = 2 ∧ rows.map (fun r => r.id) = [1, 2]) := by
  have hids : ∀ rows : Option (List Row),
      (ensureTwoRows rows).map (fun r => r.id) = [1, 2] := by
    intro rows; simp [ensureTwoRows_eq]
  refine ⟨?_, hydrate_ids, fun prev id patch => hids _, ?_⟩
  · intro rows
    refine ⟨by simp [ensureTwoRows_eq], hids rows, ?_, ?_⟩
    · intro i hi
      have hi' : i = 0 ∨ i = 1 := by omega
      rcases hi' with rfl | rfl
      · constructor
        · intro r hr; simp [ensureTwoRows_eq, hr]
        · intro hr; simp [ensureTwoRows_eq, hr, mkRow]
      · constructor
        · intro r hr; simp [ensureTwoRows_eq, hr]
        · intro hr; simp [ensureTwoRows_eq, hr, mkRow]
    · rw [ensureTwoRows_eq (some (ensureTwoRows rows))]
      simp [rowAt, ensureTwoRows_eq]
  · intro rows hr
    have key : rows.map (fun r => r.id) = [1, 2] := by
      induction hr with
      | init => simp [mkRow]
      | hydrate rows teamsData driversData _ _ => exact hydrate_ids _ _ _
      | update rows id patch _ _ => exact hids _
      | running rows _ ih => rw [markRunning_ids]; exact ih
      | finished rows updates _ ih => rw [applyUpdates_ids]; exact ih
    refine ⟨?_, key⟩
    have := congrArg List.length key
    simpa using this

/-- Witness for C23: the state after changing the team of row 2 in the initial state holds
two rows with ids 1 and 2, and a single input row of id 7 is kept as row 1. -/
theorem rows_two_row_invariant_witness :
    (updateRow [mkRow 1 "" (DriverId.text ""), mkRow 2 "" (DriverId.text "")] 2
        { id := none, team := some "Ferrari", driverId := none, data := none, status := none,
          selectedStrategyId := none }).map (fun r => r.id) = [1, 2] ∧
    (ensureTwoRows (some [mkRow 7 "Ferrari" (DriverId.number 16)]))[0]? =
      some { mkRow 7 "Ferrari" (DriverId.number 16) with id := 0 + 1 } :=
  ⟨(rows_two_row_invariant.2.2.2 _ (Reachable.update _ 2 _ Reachable.init)).2,
   ((rows_two_row_invariant.1 (some [mkRow 7 "Ferrari" (DriverId.number 16)])).2.2.1 0
      (by decide)).1 _ rfl⟩

end App

namespace Time

open JsNum

/-- C24: for every natural number of seconds `n`, with `H = n / 3600`,
`M = n % 3600 / 60` and `S = n % 60`, one has `M < 60`, `S < 60` and
`3600 * H + 60 * M + S = n`; `formatRaceDuration(n)` is `M:SS` (no hour field) when
`n < 3600` and `H:MM:SS` when `n >= 3600`, the fields `MM` and `SS` being padded with a
zero to exactly two characters; a negative or non-numeric input is rendered as `0:00`. -/
theorem formatRaceDuration_spec (n : Nat) :
    n % 3600 / 60 < 60 ∧ n % 60 < 60 ∧
    3600 * (n / 3600) + 60 * (n % 3600 / 60) + n % 60 = n ∧
    (n < 3600 → n % 3600 / 60 = n / 60 ∧
      formatRaceDuration (ofNat n) =
        toString (n / 60) ++ ":" ++ padStart2 (toString (n % 60))) ∧
    (3600 ≤ n →
      formatRaceDuration (ofNat n) =
        toString (n / 3600) ++ ":" ++ padStart2 (toString (n % 3600 / 60)) ++ ":" ++
          padStart2 (toString (n % 60))) ∧
    (∀ k : Nat, k < 60 →
      (padStart2 (toString k)).length = 2 ∧
      (k < 10 → padStart2 (toString k) = "0" ++ toString k) ∧
      (10 ≤ k → padStart2 (toString k) = toString k)) ∧
    (∀ q : ℚ, q < 0 → formatRaceDuration (fin q) = "0:00") ∧
    formatRaceDuration nan = "0:00" ∧
    formatRaceDuration ninf = "0:00" := by
  have hfmt : ∀ m : Nat, formatRaceDuration (ofNat m) =
      if m / 3600 > 0 then
        toString (m / 3600) ++ ":" ++ padStart2 (toString (m % 3600 / 60)) ++ ":" ++
          padStart2 (toString (m % 60))
      else toString (m % 3600 / 60) ++ ":" ++ padStart2 (toString (m % 60)) := by
    intro m
    unfold formatRaceDuration
    rw [safeSeconds_ofNat]
    simp only [Int.floor_natCast, Int.toNat_ofNat]
  have hzero : formatRaceDuration (ofNat 0) = "0:00" := by
    rw [hfmt 0]; decide
  refine ⟨by omega, by omega, by omega, ?_, ?_, padStart2_digits, ?_, ?_, ?_⟩
  · intro h
    have h1 : n % 3600 / 60 = n / 60 := by omega
    have h2 : ¬ (n / 3600 > 0) := by omega
    exact ⟨h1, by rw [hfmt n, if_neg h2, h1]⟩
  · intro h
    have h2 : n / 3600 > 0 := by omega
    rw [hfmt n, if_pos h2]
  · intro q hq
    have : formatRaceDuration (fin q) = formatRaceDuration (ofNat 0) := by
      unfold formatRaceDuration
      rw [safeSeconds_neg q hq, safeSeconds_ofNat 0]
      simp
    rw [this, hzero]
  · have hs : max2 (fin 0) (round (orElse nan (fin 0))) =
        max2 (fin 0) (round (orElse (ofNat 0) (fin 0))) := by
      simp [orElse, truthy, ofNat]
    have : formatRaceDuration nan = formatRaceDuration (ofNat 0) := by
      unfold formatRaceDuration
      rw [hs]
    rw [this, hzero]
  · have hs : max2 (fin 0) (round (orElse ninf (fin 0))) = fin 0 := by
      simp [orElse, truthy, round, max2]
    have : formatRaceDuration ninf = formatRaceDuration (ofNat 0) := by
      unfold formatRaceDuration
      rw [hs, safeSeconds_ofNat 0]
      simp
    rw [this, hzero]

/-- Witness for C24: 5400 seconds are rendered as `1:30:00`, 65 seconds as `1:05`. -/
theorem formatRaceDuration_spec_witness :
    formatRaceDuration (ofNat 5400) = "1:30:00" ∧ formatRaceDuration (ofNat 65) = "1:05" := by
  refine ⟨?_, ?_⟩
  · rw [(formatRaceDuration_spec 5400).2.2.2.2.1 (by decide)]; decide
  · rw [((formatRaceDuration_spec 65).2.2.2.1 (by decide)).2]; decide

end Time
